import Mathlib

/-!
The typed request/response mapping layer of triton-go.

A shallow embedding of `compute/volumes.go` and `compute/images.go`.

* Go strings are sequences of Unicode characters (`String`; `List Char` inside
  the JSON routines).
* A Go `error` is identified with its `Error()` message.
* The transport executor (`client.ExecuteRequest`, `executeRequest`,
  `executeRequestURIParams`) is not part of these files: it is a parameter, a
  function from the request to the pair `(respReader, err)` it hands back.
* Effects of an operation (the transport call, handing the stream to the JSON
  decoder, closing the stream) are recorded in a trace, in program order.
* Inputs are passed as (non-nil) struct values.
-/

namespace Triton

/-! ## Errors and `errwrap.Wrapf` -/

/-- A Go `error`, identified with the text its `Error()` method returns. -/
structure GoError where
  msg : String
deriving DecidableEq, Repr

/-- The text of `strings.Replace(format, "{{err}}", m, -1)`: every
non-overlapping occurrence of the placeholder, left to right, becomes `m`. -/
def substErr : List Char → List Char → List Char
  | '\x7b' :: '\x7b' :: 'e' :: 'r' :: 'r' :: '\x7d' :: '\x7d' :: rest, m => m ++ substErr rest m
  | c :: rest, m => c :: substErr rest m
  | [], _ => []

/-- The function `errwrap.Wrapf(format, err)` for a non-nil `err`: an error whose
message is `format` with the placeholder replaced by `err.Error()`. -/
def Wrapf (format : String) (err : GoError) : GoError :=
  ⟨String.mk (substErr format.data err.msg.data)⟩

/-! ## Go strings and UTF-8 (`unicode/utf8`) -/

/-- A Go `string`: a sequence of bytes. It need not be the UTF-8 encoding of
a text. -/
structure GoString where
  bytes : List (Fin 256)
deriving DecidableEq, Repr

/-- The byte with a given number (taken modulo 256). -/
def byte (n : Nat) : Fin 256 := ⟨n % 256, Nat.mod_lt n (by decide)⟩

/-- The function `utf8.EncodeRune` on a valid rune: one to four bytes. -/
def utf8Encode (c : Char) : List (Fin 256) :=
  if c.toNat < 128 then [byte c.toNat]
  else if c.toNat < 2048 then [byte (192 + c.toNat / 64), byte (128 + c.toNat % 64)]
  else if c.toNat < 65536 then
    [byte (224 + c.toNat / 4096), byte (128 + c.toNat / 64 % 64), byte (128 + c.toNat % 64)]
  else
    [byte (240 + c.toNat / 262144), byte (128 + c.toNat / 4096 % 64),
     byte (128 + c.toNat / 64 % 64), byte (128 + c.toNat % 64)]

/-- The Go string that holds a text: its UTF-8 encoding. -/
def GoString.ofString (s : String) : GoString := ⟨s.data.flatMap utf8Encode⟩

/-- A Go string that is valid UTF-8: the encoding of some text. -/
def GoString.valid (g : GoString) : Prop := ∃ s : String, g = GoString.ofString s

/-- The rune `utf8.RuneError`. -/
def RuneError : Char := Char.ofNat 65533

/-- The table `first` of package `utf8` for a byte from 128 on, read through
`acceptRanges`: the size of the encoding that starts with this byte and the
range its second byte must lie in; `none` for a byte that starts no encoding
(the entry `xx`). -/
def firstByte (b : Nat) : Option (Nat × Nat × Nat) :=
  if 194 ≤ b ∧ b ≤ 223 then some (2, 128, 191)
  else if b = 224 then some (3, 160, 191)
  else if (225 ≤ b ∧ b ≤ 236) ∨ b = 238 ∨ b = 239 then some (3, 128, 191)
  else if b = 237 then some (3, 128, 159)
  else if b = 240 then some (4, 144, 191)
  else if 241 ≤ b ∧ b ≤ 243 then some (4, 128, 191)
  else if b = 244 then some (4, 128, 143)
  else none

/-- The function `utf8.DecodeRuneInString`: the first rune of a byte sequence
and the number of bytes of its encoding; `(RuneError, 1)` when the sequence
does not start with a valid encoding, `(RuneError, 0)` when it is empty. -/
def DecodeRuneInString : List (Fin 256) → Char × Nat
  | [] => (RuneError, 0)
  | s0 :: rest =>
    if s0.val < 128 then (Char.ofNat s0.val, 1)
    else
      match firstByte s0.val with
      | none => (RuneError, 1)
      | some (sz, lo, hi) =>
        match rest with
        | [] => (RuneError, 1)
        | s1 :: rest1 =>
          if s1.val < lo ∨ hi < s1.val then (RuneError, 1)
          else if sz ≤ 2 then (Char.ofNat (s0.val % 32 * 64 + s1.val % 64), 2)
          else
            match rest1 with
            | [] => (RuneError, 1)
            | s2 :: rest2 =>
              if s2.val < 128 ∨ 191 < s2.val then (RuneError, 1)
              else if sz ≤ 3 then
                (Char.ofNat (s0.val % 16 * 4096 + s1.val % 64 * 64 + s2.val % 64), 3)
              else
                match rest2 with
                | [] => (RuneError, 1)
                | s3 :: _ =>
                  if s3.val < 128 ∨ 191 < s3.val then (RuneError, 1)
                  else
                    (Char.ofNat (s0.val % 8 * 262144 + s1.val % 64 * 4096 + s2.val % 64 * 64
                      + s3.val % 64), 4)

/-! ## Requests, streams, traces -/

/-- The type `url.Values`: a map from key to its list of values, kept as an
association list with one entry per key. -/
structure Values where
  entries : List (String × List String)
deriving DecidableEq, Repr

/-- The empty map `url.Values{}`. -/
def Values.empty : Values := ⟨[]⟩

/-- Replace the entry of `key` in an association list, or add it at the end. -/
def setEntry (key : String) (vs : List String) :
    List (String × List String) → List (String × List String)
  | [] => [(key, vs)]
  | (k, w) :: rest => if k = key then (key, vs) :: rest else (k, w) :: setEntry key vs rest

/-- The method `Values.Set(key, value)`: `key` now maps to the single `value`. -/
def Values.Set (v : Values) (key value : String) : Values :=
  ⟨setEntry key [value] v.entries⟩

/-- The method `Values.Get(key)` paired with presence: the values stored under
`key`, `none` when the key is absent. -/
def Values.lookup (v : Values) (key : String) : Option (List String) :=
  (v.entries.find? (fun p => p.1 = key)).map Prod.snd

/-- The keys present in the map. -/
def Values.keys (v : Values) : List String := v.entries.map Prod.fst

/-- Input of `CreateVolumeInput`; its strings are Go strings, `Networks` is a
slice (`none` is the nil slice). -/
structure CreateVolumeInput where
  Name : GoString
  Size : Int
  Type_ : GoString
  Networks : Option (List GoString)
deriving DecidableEq, Repr

/-- Input of `CreateImageFromMachineInput`; `Tags` is a map (`none` is the nil map). -/
structure CreateImageFromMachineInput where
  MachineID : String
  Name : String
  Version : String
  Description : String
  HomePage : String
  EULA : String
  ACL : Option (List String)
  Tags : Option (List (String × String))
deriving DecidableEq, Repr

/-- Input of `UpdateImageInput`. -/
structure UpdateImageInput where
  ImageID : String
  Name : String
  Version : String
  Description : String
  HomePage : String
  EULA : String
  ACL : Option (List String)
  Tags : Option (List (String × String))
deriving DecidableEq, Repr

/-- The `interface{}` request body: nil, or one of the values the operations
of these files store in it. -/
inductive Body where
  | absent
  | text (s : String)
  | createVolume (v : CreateVolumeInput)
  | createImage (v : CreateImageFromMachineInput)
  | updateImage (v : UpdateImageInput)
deriving DecidableEq, Repr

/-- The struct `client.RequestInput` (fields used here), which is also the
argument list of `executeRequest` / `executeRequestURIParams`; `Query` is a
pointer (`none` is nil). -/
structure RequestInput where
  Method : String
  Path : String
  Query : Option Values
  Body : Body
deriving DecidableEq, Repr

/-- An `io.ReadCloser` handed back by the transport: an identity and the
characters it yields before end of file. -/
structure ReadCloser where
  id : Nat
  data : List Char
deriving DecidableEq, Repr

/-- What the transport executor returns: `(respReader, err)`, either possibly nil. -/
abbrev Executor := RequestInput → Option ReadCloser × Option GoError

/-- Observable effects of an operation, in program order. -/
inductive Event where
  | execute (req : RequestInput)
  | decode (r : ReadCloser)
  | close (r : ReadCloser)
deriving DecidableEq, Repr

/-- How a Go call ends: it returns `(val, err)` or panics. -/
inductive Outcome (α : Type) where
  | returned (val : α) (err : Option GoError)
  | panicked
deriving DecidableEq, Repr

/-- The result of running an operation: how it ended and what it did. -/
structure Run (α : Type) where
  outcome : Outcome α
  trace : List Event
deriving DecidableEq, Repr

/-- The statement `if respReader != nil { defer respReader.Close() }`: the
events that run when the function returns. -/
def deferredClose : Option ReadCloser → List Event
  | some r => [Event.close r]
  | none => []

/-- Base-10 text of a signed integer, as `fmt.Sprintf("%d", n)` and
`strconv.AppendInt(_, n, 10)` print it. -/
def formatInt (n : Int) : String :=
  match n with
  | Int.ofNat m => String.mk (Nat.toDigits 10 m)
  | Int.negSucc m => String.mk ('-' :: Nat.toDigits 10 (m + 1))

def MethodGet : String := "GET"
def MethodPost : String := "POST"
def MethodDelete : String := "DELETE"

/-! ## `encoding/json`: the scanner (`scanner.go`)

The response body is decoded with `json.NewDecoder(respReader).Decode(&result)`.
The scanner is the byte-at-a-time state machine of the library, here stepping
over characters: a character outside ASCII behaves as each of its UTF-8 bytes
does (it continues a string literal and is rejected everywhere else). -/

/-- The double quote. -/
def dquote : Char := Char.ofNat 34
/-- The backslash. -/
def bslash : Char := Char.ofNat 92
/-- The single quote. -/
def squote : Char := Char.ofNat 39

/-- The opcodes `scanContinue` ... `scanError` returned by a scanner step. -/
inductive Code where
  | scanContinue | scanBeginLiteral | scanBeginObject | scanObjectKey
  | scanObjectValue | scanEndObject | scanBeginArray | scanArrayValue
  | scanEndArray | scanSkipSpace | scanEnd | scanError
deriving DecidableEq, Repr

/-- The entries `parseObjectKey`, `parseObjectValue`, `parseArrayValue` of the
scanner's `parseState` stack. -/
inductive ParseKind where
  | parseObjectKey | parseObjectValue | parseArrayValue
deriving DecidableEq, Repr

/-- The value of the scanner's `step` field: which state function runs next. -/
inductive Step where
  | stateBeginValueOrEmpty | stateBeginValue | stateBeginStringOrEmpty
  | stateBeginString | stateEndValue | stateEndTop | stateInString
  | stateInStringEsc | stateInStringEscU | stateInStringEscU1
  | stateInStringEscU12 | stateInStringEscU123 | stateNeg | state1 | state0
  | stateDot | stateDot0 | stateE | stateESign | stateE0 | stateT | stateTr
  | stateTru | stateF | stateFa | stateFal | stateFals | stateN | stateNu
  | stateNul | stateError
deriving DecidableEq, Repr

/-- The struct `scanner`: `parseState` is kept innermost first. -/
structure Scanner where
  step : Step
  parseState : List ParseKind
  err : Option GoError
  endTop : Bool
deriving DecidableEq, Repr

/-- The constant `maxNestingDepth`. -/
def maxNestingDepth : Nat := 10000

/-- The method `scanner.reset`. -/
def Scanner.reset : Scanner :=
  { step := Step.stateBeginValue, parseState := [], err := none, endTop := false }

/-- Lower-case hexadecimal digit of a number below 16. -/
def hexDigit (n : Nat) : Char :=
  if n < 10 then Char.ofNat (48 + n) else Char.ofNat (87 + n)

/-- First byte of the UTF-8 encoding of a character. -/
def leadByte (c : Char) : Nat :=
  if c.toNat < 128 then c.toNat
  else if c.toNat < 2048 then 192 + c.toNat / 64
  else if c.toNat < 65536 then 224 + c.toNat / 4096
  else 240 + c.toNat / 262144

/-- The function `quoteChar` applied to the byte the scanner stopped at. -/
def quoteChar (c : Char) : String :=
  let b := leadByte c
  if b = 39 then String.mk [squote, bslash, squote, squote]
  else if b = 34 then String.mk [squote, dquote, squote]
  else if b = 92 then String.mk [squote, bslash, bslash, squote]
  else if b = 7 then String.mk [squote, bslash, 'a', squote]
  else if b = 8 then String.mk [squote, bslash, 'b', squote]
  else if b = 12 then String.mk [squote, bslash, 'f', squote]
  else if b = 10 then String.mk [squote, bslash, 'n', squote]
  else if b = 13 then String.mk [squote, bslash, 'r', squote]
  else if b = 9 then String.mk [squote, bslash, 't', squote]
  else if b = 11 then String.mk [squote, bslash, 'v', squote]
  else if b < 32 ∨ b = 127 then
    String.mk [squote, bslash, 'x', hexDigit (b / 16), hexDigit (b % 16), squote]
  else String.mk [squote, Char.ofNat b, squote]

/-- The method `scanner.error(c, context)`: enter `stateError` and record a
`SyntaxError`. -/
def Scanner.error (s : Scanner) (c : Char) (context : String) : Scanner × Code :=
  ({ s with step := Step.stateError,
            err := some ⟨"invalid character " ++ quoteChar c ++ " " ++ context⟩ },
   Code.scanError)

/-- The method `scanner.pushParseState`. -/
def Scanner.pushParseState (s : Scanner) (c : Char) (newParseState : ParseKind)
    (successState : Code) : Scanner × Code :=
  let s1 := { s with parseState := newParseState :: s.parseState }
  if s1.parseState.length ≤ maxNestingDepth then (s1, successState)
  else s1.error c "exceeded max depth"

/-- The method `scanner.popParseState`. -/
def Scanner.popParseState (s : Scanner) : Scanner :=
  let rest := s.parseState.tail
  if rest.length = 0 then { s with parseState := rest, step := Step.stateEndTop, endTop := true }
  else { s with parseState := rest, step := Step.stateEndValue }

/-- The function `isSpace`. -/
def isSpace (c : Char) : Bool :=
  c = ' ' ∨ c = '\t' ∨ c = '\r' ∨ c = '\n'

/-- The test `'0' <= c && c <= '9'`. -/
def isDigit (c : Char) : Bool := 48 ≤ c.toNat ∧ c.toNat ≤ 57

/-- The test `'1' <= c && c <= '9'`. -/
def isDigit19 (c : Char) : Bool := 49 ≤ c.toNat ∧ c.toNat ≤ 57

/-- The test for a hexadecimal digit in `stateInStringEscU`. -/
def isHex (c : Char) : Bool :=
  isDigit c ∨ (97 ≤ c.toNat ∧ c.toNat ≤ 102) ∨ (65 ≤ c.toNat ∧ c.toNat ≤ 70)

/-- The state function `stateEndTop`. -/
def stateEndTop (s : Scanner) (c : Char) : Scanner × Code :=
  if ¬ isSpace c then ((s.error c "after top-level value").1, Code.scanEnd)
  else (s, Code.scanEnd)

/-- Replace the innermost entry of the parse stack (`s.parseState[n-1] = k`). -/
def Scanner.setTop (s : Scanner) (k : ParseKind) : Scanner :=
  { s with parseState := k :: s.parseState.tail }

/-- The state function `stateEndValue`. -/
def stateEndValue (s : Scanner) (c : Char) : Scanner × Code :=
  match s.parseState with
  | [] => stateEndTop { s with step := Step.stateEndTop, endTop := true } c
  | ps :: _ =>
    if isSpace c then ({ s with step := Step.stateEndValue }, Code.scanSkipSpace)
    else match ps with
      | ParseKind.parseObjectKey =>
        if c = ':' then
          ({ s.setTop ParseKind.parseObjectValue with step := Step.stateBeginValue },
           Code.scanObjectKey)
        else s.error c "after object key"
      | ParseKind.parseObjectValue =>
        if c = ',' then
          ({ s.setTop ParseKind.parseObjectKey with step := Step.stateBeginString },
           Code.scanObjectValue)
        else if c = '\x7d' then (s.popParseState, Code.scanEndObject)
        else s.error c "after object key:value pair"
      | ParseKind.parseArrayValue =>
        if c = ',' then ({ s with step := Step.stateBeginValue }, Code.scanArrayValue)
        else if c = ']' then (s.popParseState, Code.scanEndArray)
        else s.error c "after array element"

/-- The state function `stateBeginValue`. -/
def stateBeginValue (s : Scanner) (c : Char) : Scanner × Code :=
  if isSpace c then (s, Code.scanSkipSpace)
  else if c = '\x7b' then
    Scanner.pushParseState { s with step := Step.stateBeginStringOrEmpty } c
      ParseKind.parseObjectKey Code.scanBeginObject
  else if c = '[' then
    Scanner.pushParseState { s with step := Step.stateBeginValueOrEmpty } c
      ParseKind.parseArrayValue Code.scanBeginArray
  else if c = dquote then ({ s with step := Step.stateInString }, Code.scanBeginLiteral)
  else if c = '-' then ({ s with step := Step.stateNeg }, Code.scanBeginLiteral)
  else if c = '0' then ({ s with step := Step.state0 }, Code.scanBeginLiteral)
  else if c = 't' then ({ s with step := Step.stateT }, Code.scanBeginLiteral)
  else if c = 'f' then ({ s with step := Step.stateF }, Code.scanBeginLiteral)
  else if c = 'n' then ({ s with step := Step.stateN }, Code.scanBeginLiteral)
  else if isDigit19 c then ({ s with step := Step.state1 }, Code.scanBeginLiteral)
  else s.error c "looking for beginning of value"

/-- The state function `stateBeginValueOrEmpty`. -/
def stateBeginValueOrEmpty (s : Scanner) (c : Char) : Scanner × Code :=
  if isSpace c then (s, Code.scanSkipSpace)
  else if c = ']' then stateEndValue s c
  else stateBeginValue s c

/-- The state function `stateBeginString`. -/
def stateBeginString (s : Scanner) (c : Char) : Scanner × Code :=
  if isSpace c then (s, Code.scanSkipSpace)
  else if c = dquote then ({ s with step := Step.stateInString }, Code.scanBeginLiteral)
  else s.error c "looking for beginning of object key string"

/-- The state function `stateBeginStringOrEmpty`. -/
def stateBeginStringOrEmpty (s : Scanner) (c : Char) : Scanner × Code :=
  if isSpace c then (s, Code.scanSkipSpace)
  else if c = '\x7d' then stateEndValue (s.setTop ParseKind.parseObjectValue) c
  else stateBeginString s c

/-- The state function `stateInString`. -/
def stateInString (s : Scanner) (c : Char) : Scanner × Code :=
  if c = dquote then ({ s with step := Step.stateEndValue }, Code.scanContinue)
  else if c = bslash then ({ s with step := Step.stateInStringEsc }, Code.scanContinue)
  else if c.toNat < 32 then s.error c "in string literal"
  else (s, Code.scanContinue)

/-- The state function `stateInStringEsc`. -/
def stateInStringEsc (s : Scanner) (c : Char) : Scanner × Code :=
  if c = 'b' ∨ c = 'f' ∨ c = 'n' ∨ c = 'r' ∨ c = 't' ∨ c = bslash ∨ c = '/' ∨ c = dquote then
    ({ s with step := Step.stateInString }, Code.scanContinue)
  else if c = 'u' then ({ s with step := Step.stateInStringEscU }, Code.scanContinue)
  else s.error c "in string escape code"

/-- The state functions `stateInStringEscU`, `...U1`, `...U12`, `...U123`:
a hexadecimal digit moves on to `next`. -/
def stateInStringEscHex (next : Step) (s : Scanner) (c : Char) : Scanner × Code :=
  if isHex c then ({ s with step := next }, Code.scanContinue)
  else s.error c (String.mk ([ 'i', 'n', ' ', bslash] ++ "u hexadecimal character escape".data))

/-- The state function `stateNeg`. -/
def stateNeg (s : Scanner) (c : Char) : Scanner × Code :=
  if c = '0' then ({ s with step := Step.state0 }, Code.scanContinue)
  else if isDigit19 c then ({ s with step := Step.state1 }, Code.scanContinue)
  else s.error c "in numeric literal"

/-- The state function `state0`. -/
def state0 (s : Scanner) (c : Char) : Scanner × Code :=
  if c = '.' then ({ s with step := Step.stateDot }, Code.scanContinue)
  else if c = 'e' ∨ c = 'E' then ({ s with step := Step.stateE }, Code.scanContinue)
  else stateEndValue s c

/-- The state function `state1`. -/
def state1 (s : Scanner) (c : Char) : Scanner × Code :=
  if isDigit c then ({ s with step := Step.state1 }, Code.scanContinue)
  else state0 s c

/-- The state function `stateDot`. -/
def stateDot (s : Scanner) (c : Char) : Scanner × Code :=
  if isDigit c then ({ s with step := Step.stateDot0 }, Code.scanContinue)
  else s.error c "after decimal point in numeric literal"

/-- The state function `stateDot0`. -/
def stateDot0 (s : Scanner) (c : Char) : Scanner × Code :=
  if isDigit c then (s, Code.scanContinue)
  else if c = 'e' ∨ c = 'E' then ({ s with step := Step.stateE }, Code.scanContinue)
  else stateEndValue s c

/-- The state function `stateESign`. -/
def stateESign (s : Scanner) (c : Char) : Scanner × Code :=
  if isDigit c then ({ s with step := Step.stateE0 }, Code.scanContinue)
  else s.error c "in exponent of numeric literal"

/-- The state function `stateE`. -/
def stateE (s : Scanner) (c : Char) : Scanner × Code :=
  if c = '+' ∨ c = '-' then ({ s with step := Step.stateESign }, Code.scanContinue)
  else stateESign s c

/-- The state function `stateE0`. -/
def stateE0 (s : Scanner) (c : Char) : Scanner × Code :=
  if isDigit c then (s, Code.scanContinue)
  else stateEndValue s c

/-- The state functions of the literals `true`, `false`, `null` (`stateT`,
`stateTr`, ...): the character `want` moves on to `next`. -/
def stateLit (want : Char) (next : Step) (context : String) (s : Scanner) (c : Char) :
    Scanner × Code :=
  if c = want then ({ s with step := next }, Code.scanContinue)
  else s.error c context

/-- One scanner step `s.step(s, c)`: run the state function stored in `step`. -/
def Scanner.run (s : Scanner) (c : Char) : Scanner × Code :=
  match s.step with
  | Step.stateBeginValueOrEmpty => stateBeginValueOrEmpty s c
  | Step.stateBeginValue => stateBeginValue s c
  | Step.stateBeginStringOrEmpty => stateBeginStringOrEmpty s c
  | Step.stateBeginString => stateBeginString s c
  | Step.stateEndValue => stateEndValue s c
  | Step.stateEndTop => stateEndTop s c
  | Step.stateInString => stateInString s c
  | Step.stateInStringEsc => stateInStringEsc s c
  | Step.stateInStringEscU => stateInStringEscHex Step.stateInStringEscU1 s c
  | Step.stateInStringEscU1 => stateInStringEscHex Step.stateInStringEscU12 s c
  | Step.stateInStringEscU12 => stateInStringEscHex Step.stateInStringEscU123 s c
  | Step.stateInStringEscU123 => stateInStringEscHex Step.stateInString s c
  | Step.stateNeg => stateNeg s c
  | Step.state1 => state1 s c
  | Step.state0 => state0 s c
  | Step.stateDot => stateDot s c
  | Step.stateDot0 => stateDot0 s c
  | Step.stateE => stateE s c
  | Step.stateESign => stateESign s c
  | Step.stateE0 => stateE0 s c
  | Step.stateT => stateLit 'r' Step.stateTr "in literal true (expecting 'r')" s c
  | Step.stateTr => stateLit 'u' Step.stateTru "in literal true (expecting 'u')" s c
  | Step.stateTru => stateLit 'e' Step.stateEndValue "in literal true (expecting 'e')" s c
  | Step.stateF => stateLit 'a' Step.stateFa "in literal false (expecting 'a')" s c
  | Step.stateFa => stateLit 'l' Step.stateFal "in literal false (expecting 'l')" s c
  | Step.stateFal => stateLit 's' Step.stateFals "in literal false (expecting 's')" s c
  | Step.stateFals => stateLit 'e' Step.stateEndValue "in literal false (expecting 'e')" s c
  | Step.stateN => stateLit 'u' Step.stateNu "in literal null (expecting 'u')" s c
  | Step.stateNu => stateLit 'l' Step.stateNul "in literal null (expecting 'l')" s c
  | Step.stateNul => stateLit 'l' Step.stateEndValue "in literal null (expecting 'l')" s c
  | Step.stateError => (s, Code.scanError)

/-- The error `io.EOF`. -/
def EOF : GoError := ⟨"EOF"⟩
/-- The error `io.ErrUnexpectedEOF`. -/
def ErrUnexpectedEOF : GoError := ⟨"unexpected EOF"⟩

/-- The function `nonSpace`: does the buffer hold a non-space byte? -/
def nonSpace (b : List Char) : Bool := b.any (fun c => ! isSpace c)

/-- The loop of `Decoder.readValue` over the bytes not yet scanned, `n` being
the count already scanned and `buf` the whole buffer: the length of the first
JSON value of the stream, or the error. The reader yields `buf` and then
end of file. -/
def readValueLoop (buf : List Char) : Scanner → List Char → Nat → Except GoError Nat
  | s, [], n =>
    if (s.run ' ').2 = Code.scanEnd then Except.ok n
    else if nonSpace buf then Except.error ErrUnexpectedEOF
    else Except.error EOF
  | s, c :: cs, n =>
    match s.run c with
    | (_, Code.scanEnd) => Except.ok n
    | (s1, Code.scanEndObject) =>
      if (stateEndValue s1 ' ').2 = Code.scanEnd then Except.ok (n + 1)
      else readValueLoop buf s1 cs (n + 1)
    | (s1, Code.scanEndArray) =>
      if (stateEndValue s1 ' ').2 = Code.scanEnd then Except.ok (n + 1)
      else readValueLoop buf s1 cs (n + 1)
    | (s1, Code.scanError) => Except.error (s1.err.getD ⟨""⟩)
    | (s1, _) => readValueLoop buf s1 cs (n + 1)

/-- The method `Decoder.readValue` on a fresh decoder reading `body`. -/
def readValue (body : List Char) : Except GoError Nat :=
  readValueLoop body Scanner.reset body 0

/-! ## `encoding/json`: storing a scanned value (`decode.go`)

`Decoder.Decode` hands the text of the first value, already checked by the
scanner, to `decodeState.unmarshal`. The walk over that text is modelled on
its raw characters: a compound value is cut into its top-level items, an item
of an object into key and value, and a value is stored according to the Go
type of its target. On text the scanner has accepted these functions follow
the library; the library's `phasePanicMsg` branches (reached only on text the
scanner rejects) have no counterpart. -/

/-- The type `time.Time`: an instant (seconds and nanoseconds since
January 1, year 1, 00:00:00 UTC) and a zone offset; the zero value is all zero. -/
structure Time where
  sec : Int
  nsec : Nat
  zone : Int
deriving DecidableEq, Repr

/-- The zero `time.Time`. -/
def Time.zero : Time := ⟨0, 0, 0⟩

/-- The method `(*time.Time).UnmarshalJSON`, which lives in package `time`: a
parameter of the model, from the raw text of the JSON value and the current
value of the target to the new value or an error. -/
abbrev TimeUnmarshaler := List Char → Time → Except GoError Time

/-- Go types of the struct fields decoded or encoded here. -/
inductive Kind where
  | string | int64 | strings | time
deriving DecidableEq, Repr

/-- A value of one of the `Kind`s. A `[]string` is its visible slice (`none`
is nil) and `spare`, the elements of its backing array beyond its length. -/
inductive Value where
  | str (s : String)
  | int (n : Int)
  | strs (xs : Option (List String)) (spare : List String)
  | time (t : Time)
deriving DecidableEq, Repr

/-- One struct field as the decoder of `encoding/json` sees it: the Go name,
the name from the `json` tag, the type. -/
structure Field where
  name : String
  key : String
  kind : Kind
deriving DecidableEq, Repr

/-- The zero value of a kind. -/
def Kind.zero : Kind → Value
  | Kind.string => Value.str ""
  | Kind.int64 => Value.int 0
  | Kind.strings => Value.strs none []
  | Kind.time => Value.time Time.zero

/-- The text `Type.String()` of a kind. -/
def Kind.typeName : Kind → String
  | Kind.string => "string"
  | Kind.int64 => "int64"
  | Kind.strings => "[]string"
  | Kind.time => "time.Time"

/-- A struct type: its name, the text of `Type.String()`, its fields. -/
structure StructType where
  name : String
  typeName : String
  fields : List Field
deriving DecidableEq, Repr

/-- The zero value of a struct, field by field. -/
def StructType.zero (T : StructType) : List Value := T.fields.map (fun f => f.kind.zero)

/-- Drop leading space characters. -/
def trimLeft : List Char → List Char
  | [] => []
  | c :: cs => if isSpace c then trimLeft cs else c :: cs

/-- Drop leading and trailing space characters. -/
def trim (cs : List Char) : List Char := (trimLeft (trimLeft cs).reverse).reverse

/-- Put a character in front of the first item. -/
def consFirst (c : Char) : List (List Char) → List (List Char)
  | [] => [[c]]
  | x :: xs => (c :: x) :: xs

/-- Cut the text that follows an opening bracket into its top-level items (the
texts between commas at depth 0), up to the matching closing bracket. -/
def splitItems : Nat → Bool → Bool → List Char → List (List Char)
  | _, _, _, [] => [[]]
  | depth, true, esc, c :: cs =>
    if esc then consFirst c (splitItems depth true false cs)
    else if c = bslash then consFirst c (splitItems depth true true cs)
    else if c = dquote then consFirst c (splitItems depth false false cs)
    else consFirst c (splitItems depth true false cs)
  | depth, false, _, c :: cs =>
    if c = dquote then consFirst c (splitItems depth true false cs)
    else if c = '\x7b' ∨ c = '[' then consFirst c (splitItems (depth + 1) false false cs)
    else if c = '\x7d' ∨ c = ']' then
      (match depth with
       | 0 => [[]]
       | d + 1 => consFirst c (splitItems d false false cs))
    else if c = ',' ∧ depth = 0 then [] :: splitItems 0 false false cs
    else consFirst c (splitItems depth false false cs)

/-- The items of a compound value whose text (starting at its opening bracket)
is `text`; an empty compound has none. -/
def compoundItems (text : List Char) : List (List Char) :=
  (splitItems 0 false false text.tail).filter nonSpace

/-- The raw text of a string literal up to its closing quote, and what follows. -/
def spanString : Bool → List Char → List Char × List Char
  | _, [] => ([], [])
  | esc, c :: cs =>
    if esc then ((c :: (spanString false cs).1), (spanString false cs).2)
    else if c = bslash then ((c :: (spanString true cs).1), (spanString true cs).2)
    else if c = dquote then ([], cs)
    else ((c :: (spanString false cs).1), (spanString false cs).2)

/-- An object item `"key" : value` cut into the raw key and the value text. -/
def splitMember (item : List Char) : List Char × List Char :=
  let kv := spanString false (trimLeft item).tail
  (kv.1, (trimLeft kv.2).tail)

/-- Value of a hexadecimal digit. -/
def hexVal (c : Char) : Nat :=
  if isDigit c then c.toNat - 48
  else if 97 ≤ c.toNat ∧ c.toNat ≤ 102 then c.toNat - 87
  else c.toNat - 55

/-- The function `getu4` on the four characters after `\u`: `none` is `-1`. -/
def getu4 (a b c d : Char) : Option Nat :=
  if isHex a ∧ isHex b ∧ isHex c ∧ isHex d then
    some (((hexVal a * 16 + hexVal b) * 16 + hexVal c) * 16 + hexVal d)
  else none

/-- The rune `unicode.ReplacementChar`. -/
def replacementChar : Char := Char.ofNat 65533

/-- The test `utf16.IsSurrogate`. -/
def isSurrogate (r : Nat) : Bool := 55296 ≤ r ∧ r < 57344

/-- The function `utf16.DecodeRune`. -/
def decodeRune (r1 r2 : Nat) : Char :=
  if 55296 ≤ r1 ∧ r1 < 56320 ∧ 56320 ≤ r2 ∧ r2 < 57344 then
    Char.ofNat ((r1 - 55296) * 1024 + (r2 - 56320) + 65536)
  else replacementChar

/-- The character a one-letter escape stands for. -/
def escapeChar (c : Char) : Char :=
  if c = 'b' then Char.ofNat 8
  else if c = 'f' then Char.ofNat 12
  else if c = 'n' then '\n'
  else if c = 'r' then '\r'
  else if c = 't' then '\t'
  else c

/-- A unit of a string literal: a character, or the number of a `\uXXXX` escape. -/
inductive StrUnit where
  | rune (c : Char)
  | esc (n : Nat)
deriving DecidableEq, Repr

/-- First pass of `unquote` over the raw text between the quotes of a string
literal: one-letter escapes become characters, `\uXXXX` escapes numbers. -/
def unquoteUnits : List Char → List StrUnit
  | [] => []
  | c :: cs =>
    if c = bslash then
      match cs with
      | [] => []
      | e :: rest =>
        if e = 'u' then
          match rest with
          | p :: q :: r :: t :: rest4 =>
            match getu4 p q r t with
            | none => []
            | some rr => StrUnit.esc rr :: unquoteUnits rest4
          | _ => []
        else StrUnit.rune (escapeChar e) :: unquoteUnits rest
    else StrUnit.rune c :: unquoteUnits cs

/-- Second pass of `unquote`: a `\uXXXX` escape that is a surrogate joins the
escape right after it when the two form a valid pair, and is replaced by
`unicode.ReplacementChar` otherwise. -/
def joinUnits : List StrUnit → List Char
  | [] => []
  | StrUnit.rune c :: rest => c :: joinUnits rest
  | StrUnit.esc r1 :: StrUnit.esc r2 :: rest =>
    if isSurrogate r1 then
      if decodeRune r1 r2 ≠ replacementChar then decodeRune r1 r2 :: joinUnits rest
      else replacementChar :: joinUnits (StrUnit.esc r2 :: rest)
    else Char.ofNat r1 :: joinUnits (StrUnit.esc r2 :: rest)
  | StrUnit.esc r1 :: rest =>
    if isSurrogate r1 then replacementChar :: joinUnits rest
    else Char.ofNat r1 :: joinUnits rest

/-- The function `unquote` on the raw text between the quotes of a string
literal: escapes are replaced by the characters they stand for. -/
def unquote (raw : List Char) : String := String.mk (joinUnits (unquoteUnits raw))

/-- How `decodeState.value` sees a value: by the opcode of its first byte. -/
inductive Shape where
  | object
  | array
  | string (raw : List Char)
  | number (lit : List Char)
  | bool
  | null
deriving DecidableEq, Repr

/-- The shape of a value from its text without surrounding space. -/
def shapeOf : List Char → Shape
  | [] => Shape.null
  | c :: cs =>
    if c = '\x7b' then Shape.object
    else if c = '[' then Shape.array
    else if c = dquote then Shape.string cs.dropLast
    else if c = 'n' then Shape.null
    else if c = 't' ∨ c = 'f' then Shape.bool
    else Shape.number (c :: cs)

/-- The `Value` field of an `UnmarshalTypeError` for a value of some shape. -/
def Shape.describe : Shape → String
  | Shape.object => "object"
  | Shape.array => "array"
  | Shape.string _ => "string"
  | Shape.number _ => "number"
  | Shape.bool => "bool"
  | Shape.null => "null"

/-- The message of an `UnmarshalTypeError`; `ctx` is the struct and field the
value was destined for, when there is one. -/
def typeError (value : String) (ctx : Option (String × String)) (typeName : String) : GoError :=
  match ctx with
  | some (struct, field) =>
    ⟨"json: cannot unmarshal " ++ value ++ " into Go struct field " ++ struct ++ "." ++ field
      ++ " of type " ++ typeName⟩
  | none => ⟨"json: cannot unmarshal " ++ value ++ " into Go value of type " ++ typeName⟩

/-- The method `decodeState.saveError`: only the first error is kept. -/
def saveError (saved new : Option GoError) : Option GoError :=
  match saved with
  | some e => some e
  | none => new

/-- Value of a non-empty run of decimal digits. -/
def parseDigits (ds : List Char) : Option Nat :=
  if ds ≠ [] ∧ ds.all isDigit then some (ds.foldl (fun n c => n * 10 + (c.toNat - 48)) 0)
  else none

/-- The call `strconv.ParseInt(s, 10, 64)`: `none` when it returns an error
(bad syntax or a value outside `int64`). -/
def ParseInt (lit : List Char) : Option Int :=
  match lit with
  | [] => none
  | c :: ds =>
    if c = '-' then
      (parseDigits ds).bind (fun n => if n ≤ 9223372036854775808 then some (-(n : Int)) else none)
    else if c = '+' then
      (parseDigits ds).bind (fun n => if n ≤ 9223372036854775807 then some (n : Int) else none)
    else
      (parseDigits (c :: ds)).bind
        (fun n => if n ≤ 9223372036854775807 then some (n : Int) else none)

/-- Store a value into a `string`: the new string and the type error, if any. -/
def storeString (ctx : Option (String × String)) (cur : String) (text : List Char) :
    String × Option GoError :=
  match shapeOf text with
  | Shape.string raw => (unquote raw, none)
  | Shape.null => (cur, none)
  | sh => (cur, some (typeError sh.describe ctx Kind.string.typeName))

/-- Store a value into an `int64`. -/
def storeInt64 (ctx : Option (String × String)) (cur : Int) (text : List Char) :
    Int × Option GoError :=
  match shapeOf text with
  | Shape.number lit =>
    (match ParseInt lit with
     | some n => (n, none)
     | none => (cur, some (typeError ("number " ++ String.mk lit) ctx Kind.int64.typeName)))
  | Shape.null => (cur, none)
  | sh => (cur, some (typeError sh.describe ctx Kind.int64.typeName))

/-- The element loop of `decodeState.array` on a `[]string`: element `i` is
decoded into what the backing array holds at `i` (the zero string beyond it). -/
def storeElems (ctx : Option (String × String)) :
    List String → List (List Char) → List String × Option GoError
  | _, [] => ([], none)
  | backing, item :: items =>
    let r := storeString ctx (backing.headD "") (trim item)
    let rs := storeElems ctx backing.tail items
    (r.1 :: rs.1, saveError r.2 rs.2)

/-- Store a value into a `[]string`. -/
def storeStrings (ctx : Option (String × String)) (cur : Option (List String))
    (spare : List String) (text : List Char) : Value × Option GoError :=
  match shapeOf text with
  | Shape.array =>
    let items := compoundItems text
    if items.length = 0 then (Value.strs (some []) [], none)
    else
      let backing := cur.getD [] ++ spare
      let r := storeElems ctx backing items
      (Value.strs (some r.1) (backing.drop items.length), r.2)
  | Shape.null => (Value.strs none [], none)
  | sh => (Value.strs cur spare, some (typeError sh.describe ctx Kind.strings.typeName))

/-- The method `decodeState.value` on a target of a given kind holding `cur`:
the new value and the type error to save, or the error of the `Unmarshaler`
(which ends the decoding). `text` is the value without surrounding space. -/
def storeValue (tu : TimeUnmarshaler) (ctx : Option (String × String)) (cur : Value)
    (text : List Char) : Except GoError (Value × Option GoError) :=
  match cur with
  | Value.str s => let r := storeString ctx s text; Except.ok (Value.str r.1, r.2)
  | Value.int n => let r := storeInt64 ctx n text; Except.ok (Value.int r.1, r.2)
  | Value.strs xs spare => Except.ok (storeStrings ctx xs spare text)
  | Value.time t =>
    match tu text t with
    | Except.ok t1 => Except.ok (Value.time t1, none)
    | Except.error e => Except.error e

/-- Simple case folding of a character, as far as it can meet an ASCII letter:
upper-case ASCII, the Kelvin sign and the long s. -/
def foldChar (c : Char) : Char :=
  if 65 ≤ c.toNat ∧ c.toNat ≤ 90 then Char.ofNat (c.toNat + 32)
  else if c.toNat = 8490 then 'k'
  else if c.toNat = 383 then 's'
  else c

/-- Case-insensitive equality of a field's JSON name (ASCII) and a key. -/
def equalFold (name key : String) : Bool := name.data.map foldChar = key.data.map foldChar

/-- The field a key selects: the one with exactly that JSON name, otherwise
the first whose name equals it under case folding. -/
def findField (fields : List Field) (key : String) : Option Nat :=
  match fields.findIdx? (fun f => f.key = key) with
  | some i => some i
  | none => fields.findIdx? (fun f => equalFold f.key key)

/-- The member loop of `decodeState.object` on a struct: each item is stored
into the field its key selects; the value of an unknown key is skipped. -/
def storeMembers (tu : TimeUnmarshaler) (T : StructType) :
    List Value → Option GoError → List (List Char) → Except GoError (List Value × Option GoError)
  | vals, saved, [] => Except.ok (vals, saved)
  | vals, saved, item :: items =>
    let kv := splitMember item
    match findField T.fields (unquote kv.1) with
    | none => storeMembers tu T vals saved items
    | some i =>
      match storeValue tu (some (T.name, (T.fields.map (fun f => f.key)).getD i ""))
          (vals.getD i (Value.str "")) (trim kv.2) with
      | Except.error e => Except.error e
      | Except.ok r => storeMembers tu T (vals.set i r.1) (saveError saved r.2) items

/-- The method `decodeState.value` on a `*T` holding nil, `T` a struct: the new
pointer (`none` is nil) and the type error to save. -/
def storeStructPtr (tu : TimeUnmarshaler) (T : StructType) (saved : Option GoError)
    (text : List Char) : Except GoError (Option (List Value) × Option GoError) :=
  match shapeOf text with
  | Shape.null => Except.ok (none, saved)
  | Shape.object =>
    (match storeMembers tu T T.zero saved (compoundItems text) with
     | Except.error e => Except.error e
     | Except.ok r => Except.ok (some r.1, r.2))
  | sh => Except.ok (some T.zero, saveError saved (some (typeError sh.describe none T.typeName)))

/-- The method `decodeState.unmarshal` on a `**T` (the address of a nil `*T`). -/
def unmarshalStructPtr (tu : TimeUnmarshaler) (T : StructType) (text : List Char) :
    Except GoError (Option (List Value)) :=
  match storeStructPtr tu T none (trim text) with
  | Except.error e => Except.error e
  | Except.ok (_, some e) => Except.error e
  | Except.ok (v, none) => Except.ok v

/-- The element loop of `decodeState.array` on a fresh `[]*T`. -/
def storeStructPtrs (tu : TimeUnmarshaler) (T : StructType) :
    Option GoError → List (List Char) →
      Except GoError (List (Option (List Value)) × Option GoError)
  | saved, [] => Except.ok ([], saved)
  | saved, item :: items =>
    match storeStructPtr tu T saved (trim item) with
    | Except.error e => Except.error e
    | Except.ok r =>
      match storeStructPtrs tu T r.2 items with
      | Except.error e => Except.error e
      | Except.ok rs => Except.ok (r.1 :: rs.1, rs.2)

/-- The method `decodeState.unmarshal` on a `*[]*T` (the address of a nil slice). -/
def unmarshalStructPtrSlice (tu : TimeUnmarshaler) (T : StructType) (text : List Char) :
    Except GoError (Option (List (Option (List Value)))) :=
  match shapeOf (trim text) with
  | Shape.null => Except.ok none
  | Shape.array =>
    (match storeStructPtrs tu T none (compoundItems (trim text)) with
     | Except.error e => Except.error e
     | Except.ok (_, some e) => Except.error e
     | Except.ok (vs, none) => Except.ok (some vs))
  | sh => Except.error (typeError sh.describe none ("[]*" ++ T.typeName))

/-- The method `Decoder.Decode` of a fresh decoder over a stream that yields
`body`: the scanner delimits and checks the first value, `unmarshal` stores it. -/
def Decode {α : Type} (unmarshal : List Char → Except GoError α) (body : List Char) :
    Except GoError α :=
  match readValue body with
  | Except.error e => Except.error e
  | Except.ok n => unmarshal (body.take n)

/-! ## `encoding/json`: writing a value (`encode.go`)

The request body is an `interface{}` that the transport executor serializes
with `encoding/json`; what these files decide is the value stored in it and
the `json` tags of its struct type. -/

/-- The escape `\u00XX` of a character below 256. -/
def escapeU00 (c : Char) : List Char :=
  [bslash, 'u', '0', '0', hexDigit (c.toNat / 16), hexDigit (c.toNat % 16)]

/-- What `appendString` (with `escapeHTML`) writes for one character. -/
def escapeOne (c : Char) : List Char :=
  if c = bslash ∨ c = dquote then [bslash, c]
  else if c = Char.ofNat 8 then [bslash, 'b']
  else if c = Char.ofNat 12 then [bslash, 'f']
  else if c = '\n' then [bslash, 'n']
  else if c = '\r' then [bslash, 'r']
  else if c = '\t' then [bslash, 't']
  else if c.toNat < 32 ∨ c = '<' ∨ c = '>' ∨ c = '&' then escapeU00 c
  else if c.toNat = 8232 then [bslash, 'u', '2', '0', '2', '8']
  else if c.toNat = 8233 then [bslash, 'u', '2', '0', '2', '9']
  else [c]

/-- The JSON string literal of a Go string. -/
def encodeString (s : String) : List Char :=
  dquote :: (s.data.flatMap escapeOne ++ [dquote])

/-- Texts joined by commas. -/
def joinComma : List (List Char) → List Char
  | [] => []
  | [x] => x
  | x :: y :: rest => x ++ ',' :: joinComma (y :: rest)

/-- The text of one object member `"key":value`. -/
def encodeMember (m : String × List Char) : List Char :=
  encodeString m.1 ++ ':' :: m.2

/-- The text of an object with the given members. -/
def encodeObject (members : List (String × List Char)) : List Char :=
  '\x7b' :: (joinComma (members.map encodeMember) ++ ['\x7d'])

/-- The encoding of a `[]string`: `null` for the nil slice. -/
def encodeStrings : Option (List String) → List Char
  | none => "null".data
  | some xs => '[' :: (joinComma (xs.map encodeString) ++ [']'])

/-- The encoding of a `map[string]string`: `null` for the nil map, the keys in
sorted order otherwise. -/
def encodeStringMap : Option (List (String × String)) → List Char
  | none => "null".data
  | some m =>
    encodeObject ((m.insertionSort (fun a b => a.1 ≤ b.1)).map (fun p => (p.1, encodeString p.2)))

/-- A struct field under `omitempty`: no member when `isEmptyValue` holds of
its value (`empty`), the member otherwise. -/
def omitEmpty (empty : Bool) (m : String × List Char) : List (String × List Char) :=
  if empty then [] else [m]

/-- The loop of `encodeState.string` (with `escapeHTML`) over the bytes of a Go
string, `skip` being the bytes still to pass over of a rune already written:
a byte below 128 and a well-encoded rune are written as `escapeOne` says, a
byte that starts no valid encoding is written as the six characters `\ufffd`. -/
def escapeBytes : Nat → List (Fin 256) → List Char
  | _, [] => []
  | skip + 1, _ :: rest => escapeBytes skip rest
  | 0, b :: rest =>
    if b.val < 128 then escapeOne (Char.ofNat b.val) ++ escapeBytes 0 rest
    else if (DecodeRuneInString (b :: rest)).1 = RuneError
        ∧ (DecodeRuneInString (b :: rest)).2 = 1 then
      [bslash, 'u', 'f', 'f', 'f', 'd'] ++ escapeBytes 0 rest
    else
      escapeOne (DecodeRuneInString (b :: rest)).1
        ++ escapeBytes ((DecodeRuneInString (b :: rest)).2 - 1) rest

/-- The function `encodeState.string`: the JSON string literal of a Go string. -/
def encodeGoString (s : GoString) : List Char :=
  dquote :: (escapeBytes 0 s.bytes ++ [dquote])

/-- The encoding of a `[]string`: `null` for the nil slice. -/
def encodeGoStrings : Option (List GoString) → List Char
  | none => "null".data
  | some xs => '[' :: (joinComma (xs.map encodeGoString) ++ [']'])

/-! ## The structs of `volumes.go` and `images.go` and their `json` tags -/

/-- The struct `Volume`. -/
structure Volume where
  ID : String
  Name : String
  OwnerID : String
  Type_ : String
  State : String
  Networks : Option (List String)
  Refs : Option (List String)
  Size : Int
  FileSystemPath : String
  Created : Time
deriving DecidableEq, Repr

/-- The fields of `Volume` with their tags. -/
def volumeType : StructType :=
  { name := "Volume", typeName := "compute.Volume",
    fields := [
      ⟨"ID", "id", Kind.string⟩,
      ⟨"Name", "name", Kind.string⟩,
      ⟨"OwnerID", "owner_uuid", Kind.string⟩,
      ⟨"Type", "type", Kind.string⟩,
      ⟨"State", "state", Kind.string⟩,
      ⟨"Networks", "networks", Kind.strings⟩,
      ⟨"Refs", "refs", Kind.strings⟩,
      ⟨"Size", "size", Kind.int64⟩,
      ⟨"FileSystemPath", "filesystem_path", Kind.string⟩,
      ⟨"Created", "create_timestamp", Kind.time⟩] }

/-- The zero `Volume`. -/
def Volume.zero : Volume := ⟨"", "", "", "", "", none, none, 0, "", Time.zero⟩

/-- The string a field value holds. -/
def Value.asString : Value → String
  | Value.str s => s
  | _ => ""

/-- The integer a field value holds. -/
def Value.asInt : Value → Int
  | Value.int n => n
  | _ => 0

/-- The slice a field value holds. -/
def Value.asStrings : Value → Option (List String)
  | Value.strs xs _ => xs
  | _ => none

/-- The time a field value holds. -/
def Value.asTime : Value → Time
  | Value.time t => t
  | _ => Time.zero

/-- The `Volume` whose fields hold the given values, in the order of
`volumeType.fields`. -/
def Volume.ofValues (vals : List Value) : Volume :=
  { ID := (vals.getD 0 (Value.str "")).asString,
    Name := (vals.getD 1 (Value.str "")).asString,
    OwnerID := (vals.getD 2 (Value.str "")).asString,
    Type_ := (vals.getD 3 (Value.str "")).asString,
    State := (vals.getD 4 (Value.str "")).asString,
    Networks := (vals.getD 5 (Value.str "")).asStrings,
    Refs := (vals.getD 6 (Value.str "")).asStrings,
    Size := (vals.getD 7 (Value.str "")).asInt,
    FileSystemPath := (vals.getD 8 (Value.str "")).asString,
    Created := (vals.getD 9 (Value.str "")).asTime }

/-- Field `i` of a `Volume`, in the order of `volumeType.fields`. -/
def Volume.field (v : Volume) : Nat → Value
  | 0 => Value.str v.ID
  | 1 => Value.str v.Name
  | 2 => Value.str v.OwnerID
  | 3 => Value.str v.Type_
  | 4 => Value.str v.State
  | 5 => Value.strs v.Networks []
  | 6 => Value.strs v.Refs []
  | 7 => Value.int v.Size
  | 8 => Value.str v.FileSystemPath
  | 9 => Value.time v.Created
  | _ => Value.str ""

/-- The struct `MantaLocation`. -/
structure MantaLocation where
  MantaURL : String
  ImagePath : String
  ManifestPath : String
deriving DecidableEq, Repr

/-- The fields of `MantaLocation` with their tags. -/
def mantaLocationType : StructType :=
  { name := "MantaLocation", typeName := "compute.MantaLocation",
    fields := [
      ⟨"MantaURL", "manta_url", Kind.string⟩,
      ⟨"ImagePath", "image_path", Kind.string⟩,
      ⟨"ManifestPath", "manifest_path", Kind.string⟩] }

/-- The `MantaLocation` whose fields hold the given values, in the order of
`mantaLocationType.fields`. -/
def MantaLocation.ofValues (vals : List Value) : MantaLocation :=
  { MantaURL := (vals.getD 0 (Value.str "")).asString,
    ImagePath := (vals.getD 1 (Value.str "")).asString,
    ManifestPath := (vals.getD 2 (Value.str "")).asString }

/-- Field `i` of a `MantaLocation`, in the order of `mantaLocationType.fields`. -/
def MantaLocation.field (v : MantaLocation) : Nat → Value
  | 0 => Value.str v.MantaURL
  | 1 => Value.str v.ImagePath
  | 2 => Value.str v.ManifestPath
  | _ => Value.str ""

/-- The fields of `CreateVolumeInput` with their tags. -/
def createVolumeInputType : StructType :=
  { name := "CreateVolumeInput", typeName := "compute.CreateVolumeInput",
    fields := [
      ⟨"Name", "name", Kind.string⟩,
      ⟨"Size", "size", Kind.int64⟩,
      ⟨"Type", "type", Kind.string⟩,
      ⟨"Networks", "networks", Kind.strings⟩] }

/-- The `CreateVolumeInput` whose fields hold the given values, in the order of
`createVolumeInputType.fields`; a decoded string is held as its UTF-8 bytes. -/
def CreateVolumeInput.ofValues (vals : List Value) : CreateVolumeInput :=
  { Name := GoString.ofString (vals.getD 0 (Value.str "")).asString,
    Size := (vals.getD 1 (Value.str "")).asInt,
    Type_ := GoString.ofString (vals.getD 2 (Value.str "")).asString,
    Networks := (vals.getD 3 (Value.str "")).asStrings.map (fun l => l.map GoString.ofString) }

/-- The members `encoding/json` writes for a `CreateVolumeInput`, from its tags
`name,omitempty`, `size,omitempty`, `type`, `networks`. -/
def CreateVolumeInput.members (v : CreateVolumeInput) : List (String × List Char) :=
  omitEmpty (v.Name.bytes.length = 0) ("name", encodeGoString v.Name)
    ++ omitEmpty (v.Size = 0) ("size", (formatInt v.Size).data)
    ++ [("type", encodeGoString v.Type_), ("networks", encodeGoStrings v.Networks)]

/-- The members `encoding/json` writes for a `CreateImageFromMachineInput`,
from its tags `machine`, `name`, `version,omitempty`, `description,omitempty`,
`homepage,omitempty`, `eula,omitempty`, `acl,omitempty`, `tags,omitempty`. -/
def CreateImageFromMachineInput.members (v : CreateImageFromMachineInput) :
    List (String × List Char) :=
  [("machine", encodeString v.MachineID), ("name", encodeString v.Name)]
    ++ omitEmpty (v.Version.length = 0) ("version", encodeString v.Version)
    ++ omitEmpty (v.Description.length = 0) ("description", encodeString v.Description)
    ++ omitEmpty (v.HomePage.length = 0) ("homepage", encodeString v.HomePage)
    ++ omitEmpty (v.EULA.length = 0) ("eula", encodeString v.EULA)
    ++ omitEmpty ((v.ACL.getD []).length = 0) ("acl", encodeStrings v.ACL)
    ++ omitEmpty ((v.Tags.getD []).length = 0) ("tags", encodeStringMap v.Tags)

/-- The members `encoding/json` writes for an `UpdateImageInput`, from its
tags: `ImageID` is tagged `-` and is not written, `Name` is tagged `name`, the
others `version,omitempty`, `description,omitempty`, `homepage,omitempty`,
`eula,omitempty`, `acl,omitempty`, `tags,omitempty`. -/
def UpdateImageInput.members (v : UpdateImageInput) : List (String × List Char) :=
  [("name", encodeString v.Name)]
    ++ omitEmpty (v.Version.length = 0) ("version", encodeString v.Version)
    ++ omitEmpty (v.Description.length = 0) ("description", encodeString v.Description)
    ++ omitEmpty (v.HomePage.length = 0) ("homepage", encodeString v.HomePage)
    ++ omitEmpty (v.EULA.length = 0) ("eula", encodeString v.EULA)
    ++ omitEmpty ((v.ACL.getD []).length = 0) ("acl", encodeStrings v.ACL)
    ++ omitEmpty ((v.Tags.getD []).length = 0) ("tags", encodeStringMap v.Tags)

/-- The members of the JSON object a request body is written as; `none` for a
body that is not a struct. -/
def bodyMembers : Body → Option (List (String × List Char))
  | Body.createVolume v => some v.members
  | Body.createImage v => some v.members
  | Body.updateImage v => some v.members
  | _ => none

/-- Modelled from the spec: the transport executor, which is not among these
files, "serializes the body to JSON"; this is `json.Marshal` of the value
stored in the request's `Body` (`none`: a nil body, nothing is sent). -/
def serializeBody : Body → Option (List Char)
  | Body.absent => none
  | Body.text s => some (encodeString s)
  | b => (bodyMembers b).map encodeObject

/-! ## `compute/volumes.go` -/

/-- The struct `client.Client`, as far as `volumes.go` uses it: the account
name and the method `ExecuteRequest`. -/
structure Client where
  AccountName : String
  ExecuteRequest : Executor

/-- The struct `VolumesClient`. -/
structure VolumesClient where
  client : Client

/-- The struct `ListVolumeInput`. -/
structure ListVolumeInput where
  Name : String
  Size : Int
  State : String
  Type_ : String
deriving DecidableEq, Repr

/-- The struct `GetVolumeInput`. -/
structure GetVolumeInput where
  ID : String
deriving DecidableEq, Repr

/-- The struct `DeleteVolumeInput`. -/
structure DeleteVolumeInput where
  ID : String
deriving DecidableEq, Repr

/-- The struct `UpdateVolumeInput`. -/
structure UpdateVolumeInput where
  ID : String
  Name : String
deriving DecidableEq, Repr

/-- The statement `json.NewDecoder(respReader).Decode(&result)` for a `*Volume`. -/
def decodeVolume (tu : TimeUnmarshaler) (body : List Char) : Except GoError (Option Volume) :=
  match Decode (unmarshalStructPtr tu volumeType) body with
  | Except.error e => Except.error e
  | Except.ok v => Except.ok (v.map Volume.ofValues)

/-- The statement `json.NewDecoder(respReader).Decode(&result)` for a `[]*Volume`. -/
def decodeVolumes (tu : TimeUnmarshaler) (body : List Char) :
    Except GoError (Option (List (Option Volume))) :=
  match Decode (unmarshalStructPtrSlice tu volumeType) body with
  | Except.error e => Except.error e
  | Except.ok vs => Except.ok (vs.map (fun l => l.map (fun v => v.map Volume.ofValues)))

/-- The query `List` builds (lines 42-57 of `volumes.go`). -/
def VolumesClient.List.query (input : ListVolumeInput) : Values :=
  let query := Values.empty
  let query := if input.Name ≠ "" then query.Set "name" input.Name else query
  let query := if input.Size ≠ 0 then query.Set "size" (formatInt input.Size) else query
  let query := if input.State ≠ "" then query.Set "state" input.State else query
  let query := if input.Type_ ≠ "" then query.Set "type" input.Type_ else query
  query

/-- The value `reqInputs` of `List`. -/
def VolumesClient.List.reqInputs (c : VolumesClient) (input : ListVolumeInput) : RequestInput :=
  { Method := MethodGet,
    Path := "/" ++ c.client.AccountName ++ "/volumes",
    Query := some (VolumesClient.List.query input),
    Body := Body.absent }

/-- The method `VolumesClient.List`. -/
def VolumesClient.List (tu : TimeUnmarshaler) (c : VolumesClient) (input : ListVolumeInput) :
    Run (Option (List (Option Volume))) :=
  let reqInputs := VolumesClient.List.reqInputs c input
  match c.client.ExecuteRequest reqInputs with
  | (respReader, some err) =>
    ⟨Outcome.returned none (some (Wrapf "Error executing List request: \x7b\x7berr\x7d\x7d" err)),
     Event.execute reqInputs :: deferredClose respReader⟩
  | (none, none) => ⟨Outcome.panicked, [Event.execute reqInputs]⟩
  | (some r, none) =>
    match decodeVolumes tu r.data with
    | Except.error err =>
      ⟨Outcome.returned none
         (some (Wrapf "Error decoding List response: \x7b\x7berr\x7d\x7d" err)),
       [Event.execute reqInputs, Event.decode r, Event.close r]⟩
    | Except.ok result =>
      ⟨Outcome.returned result none, [Event.execute reqInputs, Event.decode r, Event.close r]⟩

/-- The value `reqInputs` of `Get`. -/
def VolumesClient.Get.reqInputs (c : VolumesClient) (input : GetVolumeInput) : RequestInput :=
  { Method := MethodGet,
    Path := "/" ++ c.client.AccountName ++ "/volumes/" ++ input.ID,
    Query := none,
    Body := Body.absent }

/-- The method `VolumesClient.Get`. -/
def VolumesClient.Get (tu : TimeUnmarshaler) (c : VolumesClient) (input : GetVolumeInput) :
    Run (Option Volume) :=
  let reqInputs := VolumesClient.Get.reqInputs c input
  match c.client.ExecuteRequest reqInputs with
  | (respReader, some err) =>
    ⟨Outcome.returned none (some (Wrapf "Error executing Get request: \x7b\x7berr\x7d\x7d" err)),
     Event.execute reqInputs :: deferredClose respReader⟩
  | (none, none) => ⟨Outcome.panicked, [Event.execute reqInputs]⟩
  | (some r, none) =>
    match decodeVolume tu r.data with
    | Except.error err =>
      ⟨Outcome.returned none
         (some (Wrapf "Error decoding Get response: \x7b\x7berr\x7d\x7d" err)),
       [Event.execute reqInputs, Event.decode r, Event.close r]⟩
    | Except.ok result =>
      ⟨Outcome.returned result none, [Event.execute reqInputs, Event.decode r, Event.close r]⟩

/-- The value `reqInputs` of `Create`. -/
def VolumesClient.Create.reqInputs (c : VolumesClient) (input : CreateVolumeInput) :
    RequestInput :=
  { Method := MethodPost,
    Path := "/" ++ c.client.AccountName ++ "/volumes",
    Query := none,
    Body := Body.createVolume input }

/-- The method `VolumesClient.Create`. -/
def VolumesClient.Create (tu : TimeUnmarshaler) (c : VolumesClient) (input : CreateVolumeInput) :
    Run (Option Volume) :=
  let reqInputs := VolumesClient.Create.reqInputs c input
  match c.client.ExecuteRequest reqInputs with
  | (respReader, some err) =>
    ⟨Outcome.returned none
       (some (Wrapf "Error executing Create request: \x7b\x7berr\x7d\x7d" err)),
     Event.execute reqInputs :: deferredClose respReader⟩
  | (none, none) => ⟨Outcome.panicked, [Event.execute reqInputs]⟩
  | (some r, none) =>
    match decodeVolume tu r.data with
    | Except.error err =>
      ⟨Outcome.returned none
         (some (Wrapf "Error decoding Create response: \x7b\x7berr\x7d\x7d" err)),
       [Event.execute reqInputs, Event.decode r, Event.close r]⟩
    | Except.ok result =>
      ⟨Outcome.returned result none, [Event.execute reqInputs, Event.decode r, Event.close r]⟩

/-- The value `reqInputs` of `Delete`. -/
def VolumesClient.Delete.reqInputs (c : VolumesClient) (input : DeleteVolumeInput) :
    RequestInput :=
  { Method := MethodDelete,
    Path := "/" ++ c.client.AccountName ++ "/volumes/" ++ input.ID,
    Query := none,
    Body := Body.absent }

/-- The method `VolumesClient.Delete`. -/
def VolumesClient.Delete (c : VolumesClient) (input : DeleteVolumeInput) : Run Unit :=
  let reqInputs := VolumesClient.Delete.reqInputs c input
  match c.client.ExecuteRequest reqInputs with
  | (respReader, some err) =>
    ⟨Outcome.returned ()
       (some (Wrapf "Error executing Delete request: \x7b\x7berr\x7d\x7d" err)),
     Event.execute reqInputs :: deferredClose respReader⟩
  | (respReader, none) =>
    ⟨Outcome.returned () none, Event.execute reqInputs :: deferredClose respReader⟩

/-- The value `reqInputs` of `Update`. -/
def VolumesClient.Update.reqInputs (c : VolumesClient) (input : UpdateVolumeInput) :
    RequestInput :=
  { Method := MethodPost,
    Path := "/" ++ c.client.AccountName ++ "/volumes/" ++ input.ID,
    Query := none,
    Body := Body.text input.Name }

/-- The method `VolumesClient.Update`. -/
def VolumesClient.Update (c : VolumesClient) (input : UpdateVolumeInput) : Run Unit :=
  let reqInputs := VolumesClient.Update.reqInputs c input
  match c.client.ExecuteRequest reqInputs with
  | (respReader, some err) =>
    ⟨Outcome.returned ()
       (some (Wrapf "Error executing Update request: \x7b\x7berr\x7d\x7d" err)),
     Event.execute reqInputs :: deferredClose respReader⟩
  | (respReader, none) =>
    ⟨Outcome.returned () none, Event.execute reqInputs :: deferredClose respReader⟩

/-! ## `compute/images.go` -/

/-- The `encoding/json` decoding of the struct `Image`. `Image` embeds
`TritonError`, whose declaration is not among these files, so the entity type
and its two decodings (`*Image` and `[]*Image`) are parameters. -/
structure ImageDecoder (Image : Type) where
  one : List Char → Except GoError (Option Image)
  many : List Char → Except GoError (Option (List (Option Image)))

/-- The struct `ImagesClient` (an embedded `*Compute`), as far as `images.go`
uses it: the account name `c.Client.AccountName` and the two transport
methods, which take `(method, path, body)` and `(method, path, body, query)`. -/
structure ImagesClient where
  AccountName : String
  executeRequest : String → String → Body → Option ReadCloser × Option GoError
  executeRequestURIParams :
    String → String → Body → Option Values → Option ReadCloser × Option GoError

/-- The struct `GetImageInput`. -/
structure GetImageInput where
  ImageID : String
deriving DecidableEq, Repr

/-- The struct `DeleteImageInput`. -/
structure DeleteImageInput where
  ImageID : String
deriving DecidableEq, Repr

/-- The struct `ExportImageInput`. -/
structure ExportImageInput where
  ImageID : String
  MantaPath : String
deriving DecidableEq, Repr

/-- The statement `json.NewDecoder(respReader).Decode(&result)` for a
`*MantaLocation`; the struct has no `time.Time` field, so the unmarshaler
handed on is never called. -/
def decodeMantaLocation (body : List Char) : Except GoError (Option MantaLocation) :=
  match Decode (unmarshalStructPtr (fun _ t => Except.ok t) mantaLocationType) body with
  | Except.error e => Except.error e
  | Except.ok v => Except.ok (v.map MantaLocation.ofValues)

/-- The method `ImagesClient.ListImages`. -/
def ImagesClient.ListImages {Image : Type} (J : ImageDecoder Image) (c : ImagesClient) :
    Run (Option (List (Option Image))) :=
  let path := "/" ++ c.AccountName ++ "/images"
  let req : RequestInput := ⟨MethodGet, path, none, Body.absent⟩
  match c.executeRequest MethodGet path Body.absent with
  | (respReader, some err) =>
    ⟨Outcome.returned none
       (some (Wrapf "Error executing ListImages request: \x7b\x7berr\x7d\x7d" err)),
     Event.execute req :: deferredClose respReader⟩
  | (none, none) => ⟨Outcome.panicked, [Event.execute req]⟩
  | (some r, none) =>
    match J.many r.data with
    | Except.error err =>
      ⟨Outcome.returned none
         (some (Wrapf "Error decoding ListImages response: \x7b\x7berr\x7d\x7d" err)),
       [Event.execute req, Event.decode r, Event.close r]⟩
    | Except.ok result =>
      ⟨Outcome.returned result none, [Event.execute req, Event.decode r, Event.close r]⟩

/-- The method `ImagesClient.GetImage`. -/
def ImagesClient.GetImage {Image : Type} (J : ImageDecoder Image) (c : ImagesClient)
    (input : GetImageInput) : Run (Option Image) :=
  let path := "/" ++ c.AccountName ++ "/images/" ++ input.ImageID
  let req : RequestInput := ⟨MethodGet, path, none, Body.absent⟩
  match c.executeRequest MethodGet path Body.absent with
  | (respReader, some err) =>
    ⟨Outcome.returned none
       (some (Wrapf "Error executing GetImage request: \x7b\x7berr\x7d\x7d" err)),
     Event.execute req :: deferredClose respReader⟩
  | (none, none) => ⟨Outcome.panicked, [Event.execute req]⟩
  | (some r, none) =>
    match J.one r.data with
    | Except.error err =>
      ⟨Outcome.returned none
         (some (Wrapf "Error decoding GetImage response: \x7b\x7berr\x7d\x7d" err)),
       [Event.execute req, Event.decode r, Event.close r]⟩
    | Except.ok result =>
      ⟨Outcome.returned result none, [Event.execute req, Event.decode r, Event.close r]⟩

/-- The method `ImagesClient.DeleteImage`. -/
def ImagesClient.DeleteImage (c : ImagesClient) (input : DeleteImageInput) : Run Unit :=
  let path := "/" ++ c.AccountName ++ "/images/" ++ input.ImageID
  let req : RequestInput := ⟨MethodDelete, path, none, Body.absent⟩
  match c.executeRequest MethodDelete path Body.absent with
  | (respReader, some err) =>
    ⟨Outcome.returned ()
       (some (Wrapf "Error executing DeleteKey request: \x7b\x7berr\x7d\x7d" err)),
     Event.execute req :: deferredClose respReader⟩
  | (respReader, none) =>
    ⟨Outcome.returned () none, Event.execute req :: deferredClose respReader⟩

/-- The query `ExportImage` builds. -/
def ImagesClient.ExportImage.query (input : ExportImageInput) : Values :=
  (Values.empty.Set "action" "export").Set "manta_path" input.MantaPath

/-- The method `ImagesClient.ExportImage`. -/
def ImagesClient.ExportImage (c : ImagesClient) (input : ExportImageInput) :
    Run (Option MantaLocation) :=
  let path := "/" ++ c.AccountName ++ "/images/" ++ input.ImageID
  let query := ImagesClient.ExportImage.query input
  let req : RequestInput := ⟨MethodGet, path, some query, Body.absent⟩
  match c.executeRequestURIParams MethodGet path Body.absent (some query) with
  | (respReader, some err) =>
    ⟨Outcome.returned none
       (some (Wrapf "Error executing GetImage request: \x7b\x7berr\x7d\x7d" err)),
     Event.execute req :: deferredClose respReader⟩
  | (none, none) => ⟨Outcome.panicked, [Event.execute req]⟩
  | (some r, none) =>
    match decodeMantaLocation r.data with
    | Except.error err =>
      ⟨Outcome.returned none
         (some (Wrapf "Error decoding GetImage response: \x7b\x7berr\x7d\x7d" err)),
       [Event.execute req, Event.decode r, Event.close r]⟩
    | Except.ok result =>
      ⟨Outcome.returned result none, [Event.execute req, Event.decode r, Event.close r]⟩

/-- The method `ImagesClient.CreateImageFromMachine`. -/
def ImagesClient.CreateImageFromMachine {Image : Type} (J : ImageDecoder Image)
    (c : ImagesClient) (input : CreateImageFromMachineInput) : Run (Option Image) :=
  let path := "/" ++ c.AccountName ++ "/images"
  let req : RequestInput := ⟨MethodPost, path, none, Body.createImage input⟩
  match c.executeRequest MethodPost path (Body.createImage input) with
  | (respReader, some err) =>
    ⟨Outcome.returned none
       (some (Wrapf "Error executing CreateImageFromMachine request: \x7b\x7berr\x7d\x7d" err)),
     Event.execute req :: deferredClose respReader⟩
  | (none, none) => ⟨Outcome.panicked, [Event.execute req]⟩
  | (some r, none) =>
    match J.one r.data with
    | Except.error err =>
      ⟨Outcome.returned none
         (some (Wrapf "Error decoding CreateImageFromMachine response: \x7b\x7berr\x7d\x7d" err)),
       [Event.execute req, Event.decode r, Event.close r]⟩
    | Except.ok result =>
      ⟨Outcome.returned result none, [Event.execute req, Event.decode r, Event.close r]⟩

/-- The method `ImagesClient.UpdateImage`. -/
def ImagesClient.UpdateImage {Image : Type} (J : ImageDecoder Image) (c : ImagesClient)
    (input : UpdateImageInput) : Run (Option Image) :=
  let path := "/" ++ c.AccountName ++ "/images/" ++ input.ImageID
  let query := Values.empty.Set "action" "update"
  let req : RequestInput := ⟨MethodPost, path, some query, Body.updateImage input⟩
  match c.executeRequestURIParams MethodPost path (Body.updateImage input) (some query) with
  | (respReader, some err) =>
    ⟨Outcome.returned none
       (some (Wrapf "Error executing UpdateImage request: \x7b\x7berr\x7d\x7d" err)),
     Event.execute req :: deferredClose respReader⟩
  | (none, none) => ⟨Outcome.panicked, [Event.execute req]⟩
  | (some r, none) =>
    match J.one r.data with
    | Except.error err =>
      ⟨Outcome.returned none
         (some (Wrapf "Error decoding UpdateImage response: \x7b\x7berr\x7d\x7d" err)),
       [Event.execute req, Event.decode r, Event.close r]⟩
    | Except.ok result =>
      ⟨Outcome.returned result none, [Event.execute req, Event.decode r, Event.close r]⟩

deriving instance DecidableEq for Except

/-! ## Sample values -/

/-- A `time.Time` unmarshaler that accepts every text and leaves the target unchanged. -/
def sampleTime : TimeUnmarshaler := fun _ t => Except.ok t

/-- A transport that fails every request with the error `boom` and hands back no stream. -/
def failingClient : VolumesClient :=
  ⟨⟨"testing", fun _ => (none, some ⟨"boom"⟩)⟩⟩

/-- A transport that answers every request with stream 7 holding `body`. -/
def answeringClient (body : String) : VolumesClient :=
  ⟨⟨"testing", fun _ => (some ⟨7, body.data⟩, none)⟩⟩

/-- An images client whose transport fails every request with the error `boom`. -/
def failingImages : ImagesClient :=
  ⟨"testing", fun _ _ _ => (none, some ⟨"boom"⟩), fun _ _ _ _ => (none, some ⟨"boom"⟩)⟩

/-- An images client whose transport answers every request with stream 7 holding `body`. -/
def answeringImages (body : String) : ImagesClient :=
  ⟨"testing", fun _ _ _ => (some ⟨7, body.data⟩, none),
   fun _ _ _ _ => (some ⟨7, body.data⟩, none)⟩

/-- An image decoder over the entity type `Unit` that fails with `bad`. -/
def failingDecoder : ImageDecoder Unit :=
  ⟨fun _ => Except.error ⟨"bad"⟩, fun _ => Except.error ⟨"bad"⟩⟩

/-- The transport calls recorded in a trace. -/
def executed : List Event → List RequestInput
  | [] => []
  | Event.execute req :: rest => req :: executed rest
  | _ :: rest => executed rest

/-- What a scanner step guarantees about errors: the code `scanError` comes
with a `SyntaxError` about the character just read, and any code other than
`scanError` and `scanEnd` leaves the scanner out of `stateError`. -/
def StepOk (c : Char) (p : Scanner × Code) : Prop :=
  (p.2 = Code.scanError →
      ∃ ctx, p.1.err = some ⟨"invalid character " ++ quoteChar c ++ " " ++ ctx⟩)
  ∧ (p.2 ≠ Code.scanError → p.2 ≠ Code.scanEnd → p.1.step ≠ Step.stateError)

/-- The body of the test responder `getVolumeBadDecode`: an object with a comma
before its closing brace. -/
def getVolumeBadDecodeBody : String :=
  "\x7b\n    \"id\": \"e435d72a-2498-8d49-a042-87b222a8b63f\",\n    \"name\": \"my-volume\",\n    \"owner_uuid\": \"ae35672a-9498-ed41-b017-82b221a8c63f\",\n    \"type\": \"tritonnfs\",\n    \"state\": \"ready\",\x7d"

/-- The body of the test responder `getVolumeSuccess`. -/
def getVolumeSuccessBody : String :=
  "\x7b\n    \"id\": \"e435d72a-2498-8d49-a042-87b222a8b63f\",\n    \"name\": \"my-volume\",\n    \"owner_uuid\": \"ae35672a-9498-ed41-b017-82b221a8c63f\",\n    \"type\": \"tritonnfs\",\n    \"state\": \"ready\",\n    \"networks\": [\n      \"1537d72a-949a-2d89-7049-17b2f2a8b634\"\n    ]\n  \x7d\n"

/-! ## Notions used in the proofs -/

/-- The three forms in which the encoder writes a character `c` inside a string
literal: itself, a two-character escape, or a `\uXXXX` escape of its number. -/
inductive EscForm (c : Char) : List Char → Prop where
  | plain : c ≠ bslash → c ≠ dquote → 32 ≤ c.toNat → EscForm c [c]
  | short (e : Char) :
      (e = 'b' ∨ e = 'f' ∨ e = 'n' ∨ e = 'r' ∨ e = 't' ∨ e = bslash ∨ e = dquote) →
      escapeChar e = c → EscForm c [bslash, e]
  | long (p q r t : Char) :
      isHex p = true → isHex q = true → isHex r = true → isHex t = true →
      getu4 p q r t = some c.toNat → isSurrogate c.toNat = false →
      EscForm c [bslash, 'u', p, q, r, t]

/-- Whether `Decoder.readValue` leaves its loop at the result of a step: the
value has ended, or the scanner has failed. -/
def stops (p : Scanner × Code) : Bool :=
  p.2 = Code.scanEnd ∨ p.2 = Code.scanError
    ∨ ((p.2 = Code.scanEndObject ∨ p.2 = Code.scanEndArray)
        ∧ (stateEndValue p.1 ' ').2 = Code.scanEnd)

/-- The scanner after a run of characters at none of which `readValue` stops. -/
def scanThrough : Scanner → List Char → Option Scanner
  | s, [] => some s
  | s, c :: cs => if stops (s.run c) then none else scanThrough (s.run c).1 cs

/-- A scanner without error, inside the top-level value. -/
def scannerAt (step : Step) (parseState : List ParseKind) : Scanner :=
  { step := step, parseState := parseState, err := none, endTop := false }

/-- The steps a scanner can be in right after a value inside a compound:
`stateEndValue`, or inside a number that the next byte will end. -/
def AfterValue (st : Step) : Prop :=
  st = Step.stateEndValue ∨ st = Step.state0 ∨ st = Step.state1

/-- A text the scanner reads as one value inside a compound. -/
def ScansAsValue (v : List Char) : Prop :=
  ∀ ps : List ParseKind, ps ≠ [] → ps.length < maxNestingDepth →
    ∃ st, AfterValue st ∧
      scanThrough (scannerAt Step.stateBeginValue ps) v = some (scannerAt st ps)

/-- The text of an object with a comma between its last member and its closing brace. -/
def encodeObjectTrailingComma (members : List (String × List Char)) : List Char :=
  '\x7b' :: (joinComma (members.map encodeMember) ++ [',', '\x7d'])

/-- A text that `splitItems` keeps whole inside one item: its strings are
closed, its brackets are balanced and it has no comma outside them. -/
def Inert (v : List Char) : Prop :=
  ∀ (d : Nat) (rest : List Char),
    splitItems d false false (v ++ rest) = v.foldr consFirst (splitItems d false false rest)

/-- A field value as it is written in a JSON object: a string, an integer, a
list of strings (or `null`), or the string of a timestamp. -/
inductive Wire where
  | str (s : String)
  | int (n : Int)
  | strs (xs : Option (List String))
  | time (s : String)
deriving DecidableEq, Repr

/-- The JSON text of a wire value, as the encoder writes it. -/
def Wire.text : Wire → List Char
  | Wire.str s => encodeString s
  | Wire.int n => (formatInt n).data
  | Wire.strs xs => encodeStrings xs
  | Wire.time s => encodeString s

/-- The field value a wire value stands for. -/
def Wire.stored (tu : TimeUnmarshaler) : Wire → Value
  | Wire.str s => Value.str s
  | Wire.int n => Value.int n
  | Wire.strs xs => Value.strs xs []
  | Wire.time s =>
    match tu (encodeString s) Time.zero with
    | Except.ok t => Value.time t
    | Except.error _ => Value.time Time.zero

/-- A wire value has the JSON type of a field of kind `k`: a string for a
`string`, an integer within `int64` for an `int64`, a list of strings or
`null` for a `[]string`, a string that `time.Time` accepts for a `time.Time`. -/
def Wire.fits (tu : TimeUnmarshaler) (k : Kind) : Wire → Prop
  | Wire.str _ => k = Kind.string
  | Wire.int n => k = Kind.int64 ∧ -9223372036854775808 ≤ n ∧ n ≤ 9223372036854775807
  | Wire.strs _ => k = Kind.strings
  | Wire.time s => k = Kind.time ∧ ∃ t, tu (encodeString s) Time.zero = Except.ok t

/-- The JSON name of field `i` of a struct. -/
def StructType.keyAt (T : StructType) (i : Nat) : String :=
  (T.fields.map (fun f => f.key)).getD i ""

/-- The kind of field `i` of a struct. -/
def StructType.kindAt (T : StructType) (i : Nat) : Kind :=
  (T.fields.map (fun f => f.kind)).getD i Kind.string

/-- The members of the JSON object that gives field `m.1` the value `m.2`, for
each `m` of a list. -/
def wireMembers (T : StructType) (ms : List (Nat × Wire)) : List (String × List Char) :=
  ms.map (fun m => (T.keyAt m.1, m.2.text))

/-- The field values after each field `m.1` has been given the value `m.2`. -/
def storeWire (tu : TimeUnmarshaler) (vals : List Value) (ms : List (Nat × Wire)) : List Value :=
  ms.foldl (fun vs m => vs.set m.1 (m.2.stored tu)) vals

/-- Every member names a field of the struct and has the JSON type of that
field, and no field is named twice. -/
def WellTyped (tu : TimeUnmarshaler) (T : StructType) (ms : List (Nat × Wire)) : Prop :=
  (∀ m ∈ ms, m.1 < T.fields.length ∧ m.2.fits tu (T.kindAt m.1)) ∧ (ms.map Prod.fst).Nodup

/-- Each JSON name of the struct selects its own field. -/
def DistinctKeys (T : StructType) : Prop :=
  ∀ i, i < T.fields.length → findField T.fields (T.keyAt i) = some i

/-- A field value has the constructor of a kind (and, for a slice, no spare
elements). -/
def Value.hasKind : Kind → Value → Prop
  | Kind.string, Value.str _ => True
  | Kind.int64, Value.int _ => True
  | Kind.strings, Value.strs _ spare => spare = []
  | Kind.time, Value.time _ => True
  | _, _ => False

/-- The members that say what a `CreateVolumeInput` with the given texts is
written as: `name` and `size` when not empty, `type` and `networks` always. -/
def createVolumeWire (name : String) (size : Int) (type_ : String)
    (networks : Option (List String)) : List (Nat × Wire) :=
  (if name.length = 0 then [] else [(0, Wire.str name)])
    ++ (if size = 0 then [] else [(1, Wire.int size)])
    ++ [(2, Wire.str type_), (3, Wire.strs networks)]

/-- A body with the three keys of a `MantaLocation`, with space between the tokens. -/
def exportImageBody : String :=
  "\x7b \"manta_url\": \"https://us-east.manta.joyent.com\",\n  \"image_path\": \"/user/stor/img.zfs.gz\",\n  \"manifest_path\": \"/user/stor/img.imgmanifest\" \x7d\n"

/-! ## Explicit state: transport calls and close counters -/

/-- Explicit state of the world around an operation: how many transport calls
have been made, and how many times each stream has been closed. -/
structure World where
  calls : Nat
  closes : ReadCloser → Nat

/-- The state before an operation runs: no call made, no stream closed. -/
def World.init : World := ⟨0, fun _ => 0⟩

/-- The effect of one event on the state: a transport call adds one to the call
counter, `Close` adds one to the counter of its stream, reading a stream leaves
both alone. -/
def World.step (w : World) : Event → World
  | Event.execute _ => { w with calls := w.calls + 1 }
  | Event.decode _ => w
  | Event.close r => { w with closes := fun s => if s = r then w.closes s + 1 else w.closes s }

/-- The state after the events of a trace, in order. -/
def World.after (trace : List Event) : World := trace.foldl World.step World.init

/-- What is required of a run whose transport call was answered with `answer`:
one transport call was made; and when the answer holds a stream, the close
counter of that stream is 1, no other stream was closed, and the close is the
last thing that happens before the operation is over. -/
def ClosesStream {α : Type} (run : Run α) (answer : Option ReadCloser × Option GoError) : Prop :=
  (World.after run.trace).calls = 1
    ∧ ∀ r, answer.1 = some r →
        (World.after run.trace).closes r = 1
          ∧ (∀ s, s ≠ r → (World.after run.trace).closes s = 0)
          ∧ run.trace.getLast? = some (Event.close r)

/-- Whether the first JSON value of a body is the literal `null`: after the
leading white space come the four characters `null`. -/
def firstValueNull (body : List Char) : Bool :=
  decide ((trimLeft body).take 4 = ['n', 'u', 'l', 'l'])

/-! ## Where the scanner stands -/

/-- A scanner inside a compound value: its parse stack is not empty and it is
not past the top-level value. -/
def Scanner.inside (s : Scanner) : Bool :=
  decide (s.parseState ≠ []) && decide (s.step ≠ Step.stateEndTop)

/-! ## JSON texts

What the JSON grammar (RFC 8259) calls a value, written out on characters, with
white space wherever the grammar allows it. The lemmas further down show that
the scanner of `encoding/json` accepts these texts. -/

/-- One character of a string literal, or one escape sequence. -/
inductive StrPiece : List Char → Prop where
  | plain (c : Char) : c ≠ bslash → c ≠ dquote → 32 ≤ c.toNat → StrPiece [c]
  | short (e : Char) :
      (e = 'b' ∨ e = 'f' ∨ e = 'n' ∨ e = 'r' ∨ e = 't' ∨ e = bslash ∨ e = '/' ∨ e = dquote) →
      StrPiece [bslash, e]
  | long (p q r t : Char) :
      isHex p = true → isHex q = true → isHex r = true → isHex t = true →
      StrPiece [bslash, 'u', p, q, r, t]

/-- The text between the quotes of a string literal. -/
inductive StrRaw : List Char → Prop where
  | nil : StrRaw []
  | cons (p rest : List Char) : StrPiece p → StrRaw rest → StrRaw (p ++ rest)

/-- A number literal: an optional minus sign; `0`, or a digit from 1 to 9 and
further digits; an optional fraction; an optional exponent. -/
def NumberLit (l : List Char) : Prop :=
  ∃ sign int frac exp : List Char, l = sign ++ (int ++ (frac ++ exp))
    ∧ (sign = [] ∨ sign = ['-'])
    ∧ (int = ['0'] ∨ ∃ c cs, int = c :: cs ∧ isDigit19 c = true ∧ cs.all isDigit = true)
    ∧ (frac = [] ∨ ∃ c cs, frac = '.' :: c :: cs ∧ isDigit c = true ∧ cs.all isDigit = true)
    ∧ (exp = [] ∨ ∃ e sg c cs, exp = e :: (sg ++ c :: cs) ∧ (e = 'e' ∨ e = 'E')
        ∧ (sg = [] ∨ sg = ['+'] ∨ sg = ['-']) ∧ isDigit c = true ∧ cs.all isDigit = true)

/-- An element of an array with the white space around it. -/
structure Element where
  lead : List Char
  value : List Char
  trail : List Char

/-- The text of an array element. -/
def Element.text (x : Element) : List Char := x.lead ++ (x.value ++ x.trail)

/-- White space is where the grammar allows it. -/
def Element.spaced (x : Element) : Prop := nonSpace x.lead = false ∧ nonSpace x.trail = false

/-- A member of an object, `pre "key" mid : lead value trail`: the raw text of
its key, the text of its value, and the white space around them. -/
structure Member where
  pre : List Char
  key : List Char
  mid : List Char
  lead : List Char
  value : List Char
  trail : List Char

/-- The text of an object member. -/
def Member.text (m : Member) : List Char :=
  m.pre ++ dquote :: (m.key ++ dquote :: (m.mid ++ ':' :: (m.lead ++ (m.value ++ m.trail))))

/-- The key is a string literal and white space is where the grammar allows it. -/
def Member.spaced (m : Member) : Prop :=
  nonSpace m.pre = false ∧ StrRaw m.key ∧ nonSpace m.mid = false ∧ nonSpace m.lead = false
    ∧ nonSpace m.trail = false

/-- The text of an object with the given members; `gap` is the white space of
an object without members. -/
def objectText (gap : List Char) (ms : List Member) : List Char :=
  '\x7b' :: (gap ++ (joinComma (ms.map Member.text) ++ ['\x7d']))

/-- The texts of JSON values nested at most `d` deep, without white space
around them. -/
inductive JsonValue : Nat → List Char → Prop where
  | null (d : Nat) : JsonValue d ['n', 'u', 'l', 'l']
  | true_ (d : Nat) : JsonValue d ['t', 'r', 'u', 'e']
  | false_ (d : Nat) : JsonValue d ['f', 'a', 'l', 's', 'e']
  | number (d : Nat) (l : List Char) : NumberLit l → JsonValue d l
  | string (d : Nat) (raw : List Char) : StrRaw raw → JsonValue d (dquote :: (raw ++ [dquote]))
  | emptyArray (d : Nat) (w : List Char) : nonSpace w = false →
      JsonValue (d + 1) ('[' :: (w ++ [']']))
  | array (d : Nat) (items : List Element) : items ≠ [] → (∀ x ∈ items, x.spaced) →
      (∀ x ∈ items, JsonValue d x.value) →
      JsonValue (d + 1) ('[' :: (joinComma (items.map Element.text) ++ [']']))
  | emptyObject (d : Nat) (w : List Char) : nonSpace w = false →
      JsonValue (d + 1) ('\x7b' :: (w ++ ['\x7d']))
  | object (d : Nat) (ms : List Member) : ms ≠ [] → (∀ m ∈ ms, m.spaced) →
      (∀ m ∈ ms, JsonValue d m.value) →
      JsonValue (d + 1) ('\x7b' :: (joinComma (ms.map Member.text) ++ ['\x7d']))

/-- The text `v` is a JSON value, nested at most `d` deep, of the type a field
of kind `k` takes, and `val` is the field value it stands for: a string
literal for a `string` (its unquoted text); for an `int64` a number literal
that `strconv.ParseInt` accepts, which is an integer within `int64` written
without fraction or exponent; `null` or an array of string literals for a
`[]string`; for a `time.Time` any value that `UnmarshalJSON` accepts; `null`
leaves a `string` or an `int64` at zero. -/
inductive Holds (tu : TimeUnmarshaler) : Nat → Kind → List Char → Value → Prop where
  | str (d : Nat) (raw : List Char) : StrRaw raw →
      Holds tu d Kind.string (dquote :: (raw ++ [dquote])) (Value.str (unquote raw))
  | int (d : Nat) (l : List Char) (n : Int) : NumberLit l → ParseInt l = some n →
      Holds tu d Kind.int64 l (Value.int n)
  | null (d : Nat) (k : Kind) : k = Kind.string ∨ k = Kind.int64 →
      Holds tu d k ['n', 'u', 'l', 'l'] k.zero
  | nil (d : Nat) : Holds tu d Kind.strings ['n', 'u', 'l', 'l'] (Value.strs none [])
  | empty (d : Nat) (w : List Char) : nonSpace w = false →
      Holds tu (d + 1) Kind.strings ('[' :: (w ++ [']'])) (Value.strs (some []) [])
  | strs (d : Nat) (items : List Element) : items ≠ [] → (∀ x ∈ items, x.spaced) →
      (∀ x ∈ items, ∃ raw, StrRaw raw ∧ x.value = dquote :: (raw ++ [dquote])) →
      Holds tu (d + 1) Kind.strings ('[' :: (joinComma (items.map Element.text) ++ [']']))
        (Value.strs (some (items.map (fun x => unquote x.value.tail.dropLast))) [])
  | time (d : Nat) (v : List Char) (t : Time) : JsonValue d v →
      tu v Time.zero = Except.ok t → Holds tu d Kind.time v (Value.time t)

/-- A member of a response object together with what it stores into a struct:
the index of the field its key selects and the value, or nothing. -/
structure Entry where
  member : Member
  store : Option (Nat × Value)

/-- The entry is right about the struct type `T`: its key selects the field it
names (by `findField`: the field with that JSON name, else the first whose name
equals it ignoring case), or none; a member that selects a field holds a value
of the field's type, any other member holds any JSON value. -/
def Entry.typed (tu : TimeUnmarshaler) (T : StructType) (d : Nat) (e : Entry) : Prop :=
  e.member.spaced
    ∧ findField T.fields (unquote e.member.key) = e.store.map Prod.fst
    ∧ match e.store with
      | none => JsonValue d e.member.value
      | some (i, val) => Holds tu d (T.kindAt i) e.member.value val

/-- The field values after each `(i, val)` of a list has been stored. -/
def storeAll (vals : List Value) (l : List (Nat × Value)) : List Value :=
  l.foldl (fun vs p => vs.set p.1 p.2) vals

/-- The steps a scanner can be in right after a value inside a compound:
`stateEndValue`, or inside a number that the next character will end. -/
def ValueDone (st : Step) : Prop :=
  AfterValue st ∨ st = Step.stateDot0 ∨ st = Step.stateE0

/-- A text the scanner reads as one value inside a compound, nesting at most
`d` deeper. -/
def ScansAt (d : Nat) (v : List Char) : Prop :=
  ∀ ps : List ParseKind, ps ≠ [] → ps.length + d ≤ maxNestingDepth →
    ∃ st, ValueDone st ∧
      scanThrough (scannerAt Step.stateBeginValue ps) v = some (scannerAt st ps)

/-- A text with a first and a last character that are not white space, and
whose first character can begin a value. -/
def Solid (v : List Char) : Prop :=
  (∃ c rest, v = c :: rest ∧ isSpace c = false ∧ c ≠ ']' ∧ c ≠ '\x7d')
    ∧ ∃ c front, v = front ++ [c] ∧ isSpace c = false

/-! ## Sample response bodies and their members -/

/-- The entry of a member `pre "key": lead "s" trail` whose key and value are
written without escapes: it stores the string `s` into field `i`. -/
def Entry.ofString (i : Nat) (pre key lead s trail : String) : Entry :=
  ⟨⟨pre.data, key.data, [], lead.data, dquote :: (s.data ++ [dquote]), trail.data⟩,
   some (i, Value.str s)⟩

/-- A character that stands for itself inside a string literal. -/
def isPlain (c : Char) : Bool := decide (c ≠ bslash ∧ c ≠ dquote ∧ 32 ≤ c.toNat)

/-- The members of the body of the test responder `getVolumeSuccess`, each with
the field it selects and the value it stores. -/
def getVolumeSuccessEntries : List Entry :=
  [Entry.ofString 0 "\n    " "id" " " "e435d72a-2498-8d49-a042-87b222a8b63f" "",
   Entry.ofString 1 "\n    " "name" " " "my-volume" "",
   Entry.ofString 2 "\n    " "owner_uuid" " " "ae35672a-9498-ed41-b017-82b221a8c63f" "",
   Entry.ofString 3 "\n    " "type" " " "tritonnfs" "",
   Entry.ofString 4 "\n    " "state" " " "ready" "",
   ⟨⟨"\n    ".data, "networks".data, [], " ".data,
      "[\n      \"1537d72a-949a-2d89-7049-17b2f2a8b634\"\n    ]".data, "\n  ".data⟩,
    some (5, Value.strs (some ["1537d72a-949a-2d89-7049-17b2f2a8b634"]) [])⟩]

/-- The members of `exportImageBody`. -/
def exportImageEntries : List Entry :=
  [Entry.ofString 0 " " "manta_url" " " "https://us-east.manta.joyent.com" "",
   Entry.ofString 1 "\n  " "image_path" " " "/user/stor/img.zfs.gz" "",
   Entry.ofString 2 "\n  " "manifest_path" " " "/user/stor/img.imgmanifest" " "]

/-- A response with white space around its tokens, a member `links` that
`Volume` does not have, the key `Size` in another case than the tag, and text
after the object. -/
def spacedVolumeBody : String :=
  " \x7b\"state\" : \"ready\" , \"links\": \x7b\"self\": [true, null]\x7d, \"Size\": 12, \"networks\":[\"n\"]\x7dx"

/-- The members of `spacedVolumeBody`. -/
def spacedVolumeEntries : List Entry :=
  [⟨⟨[], "state".data, " ".data, " ".data, "\"ready\"".data, " ".data⟩,
    some (4, Value.str "ready")⟩,
   ⟨⟨" ".data, "links".data, [], " ".data, "\x7b\"self\": [true, null]\x7d".data, []⟩, none⟩,
   ⟨⟨" ".data, "Size".data, [], " ".data, "12".data, []⟩, some (7, Value.int 12)⟩,
   ⟨⟨" ".data, "networks".data, [], [], "[\"n\"]".data, []⟩,
    some (5, Value.strs (some ["n"]) [])⟩]

/-- A response of `ExportImage` with a member that `MantaLocation` does not
have, white space around the tokens, and its members in another order. -/
def spacedExportBody : String :=
  "\n\x7b \"image_path\" :\"i\", \"request\": \x7b\"id\": [-1.5e3, false]\x7d ,\"manta_url\":\"u\\n\"\x7d"

/-- The members of `spacedExportBody`. -/
def spacedExportEntries : List Entry :=
  [⟨⟨" ".data, "image_path".data, " ".data, [], "\"i\"".data, []⟩, some (1, Value.str "i")⟩,
   ⟨⟨" ".data, "request".data, [], " ".data, "\x7b\"id\": [-1.5e3, false]\x7d".data, " ".data⟩,
    none⟩,
   ⟨⟨[], "manta_url".data, [], [], "\"u\\n\"".data, []⟩, some (0, Value.str "u\n")⟩]

/-! ## Lemmas on `errwrap.Wrapf` -/

theorem Wrapf_eq (pre fmt : String)
    (h : ∀ m, substErr fmt.data m = pre.data ++ (m ++ [])) (e : GoError) :
    Wrapf fmt e = ⟨pre ++ e.msg⟩ := by
  simp only [Wrapf, h, List.append_nil]
  rfl

theorem Wrapf_executing_List (e : GoError) :
    Wrapf "Error executing List request: \x7b\x7berr\x7d\x7d" e
      = ⟨"Error executing List request: " ++ e.msg⟩ :=
  Wrapf_eq "Error executing List request: " "Error executing List request: \x7b\x7berr\x7d\x7d" (fun _ => rfl) e

theorem Wrapf_executing_Get (e : GoError) :
    Wrapf "Error executing Get request: \x7b\x7berr\x7d\x7d" e
      = ⟨"Error executing Get request: " ++ e.msg⟩ :=
  Wrapf_eq "Error executing Get request: " "Error executing Get request: \x7b\x7berr\x7d\x7d" (fun _ => rfl) e

theorem Wrapf_executing_Create (e : GoError) :
    Wrapf "Error executing Create request: \x7b\x7berr\x7d\x7d" e
      = ⟨"Error executing Create request: " ++ e.msg⟩ :=
  Wrapf_eq "Error executing Create request: " "Error executing Create request: \x7b\x7berr\x7d\x7d" (fun _ => rfl) e

theorem Wrapf_executing_Delete (e : GoError) :
    Wrapf "Error executing Delete request: \x7b\x7berr\x7d\x7d" e
      = ⟨"Error executing Delete request: " ++ e.msg⟩ :=
  Wrapf_eq "Error executing Delete request: " "Error executing Delete request: \x7b\x7berr\x7d\x7d" (fun _ => rfl) e

theorem Wrapf_executing_Update (e : GoError) :
    Wrapf "Error executing Update request: \x7b\x7berr\x7d\x7d" e
      = ⟨"Error executing Update request: " ++ e.msg⟩ :=
  Wrapf_eq "Error executing Update request: " "Error executing Update request: \x7b\x7berr\x7d\x7d" (fun _ => rfl) e

theorem Wrapf_decoding_Get (e : GoError) :
    Wrapf "Error decoding Get response: \x7b\x7berr\x7d\x7d" e
      = ⟨"Error decoding Get response: " ++ e.msg⟩ :=
  Wrapf_eq "Error decoding Get response: " "Error decoding Get response: \x7b\x7berr\x7d\x7d" (fun _ => rfl) e

/-! ## Lemmas on the scanner -/

theorem stepOk_error (s : Scanner) (c : Char) (ctx : String) : StepOk c (s.error c ctx) :=
  ⟨fun _ => ⟨ctx, rfl⟩, fun h => absurd rfl h⟩

theorem stepOk_of_code (c : Char) (s : Scanner) (k : Code) (hs : s.step ≠ Step.stateError)
    (hk : k ≠ Code.scanError) : StepOk c (s, k) :=
  ⟨fun h => absurd h hk, fun _ _ => hs⟩

theorem stepOk_end (c : Char) (s : Scanner) : StepOk c (s, Code.scanEnd) :=
  ⟨fun h => by simp at h, fun _ h => absurd rfl h⟩

theorem stepOk_push (s : Scanner) (c : Char) (k : ParseKind) (code : Code)
    (hs : s.step ≠ Step.stateError) (hk : code ≠ Code.scanError) :
    StepOk c (s.pushParseState c k code) := by
  simp only [Scanner.pushParseState]
  split
  · exact stepOk_of_code _ _ _ hs hk
  · exact stepOk_error _ _ _

theorem stepOk_endTop (s : Scanner) (c : Char) : StepOk c (stateEndTop s c) := by
  unfold stateEndTop
  split <;> exact stepOk_end _ _

theorem pop_step (s : Scanner) : s.popParseState.step ≠ Step.stateError := by
  simp only [Scanner.popParseState]
  split <;> simp

theorem stepOk_endValue (s : Scanner) (c : Char) : StepOk c (stateEndValue s c) := by
  unfold stateEndValue
  split
  · exact stepOk_endTop _ _
  · split
    · exact stepOk_of_code _ _ _ (by simp) (by simp)
    · split
      · split
        · exact stepOk_of_code _ _ _ (by simp [Scanner.setTop]) (by simp)
        · exact stepOk_error _ _ _
      · split
        · exact stepOk_of_code _ _ _ (by simp [Scanner.setTop]) (by simp)
        · split
          · exact stepOk_of_code _ _ _ (pop_step _) (by simp)
          · exact stepOk_error _ _ _
      · split
        · exact stepOk_of_code _ _ _ (by simp) (by simp)
        · split
          · exact stepOk_of_code _ _ _ (pop_step _) (by simp)
          · exact stepOk_error _ _ _

theorem stepOk_beginValue (s : Scanner) (c : Char) (hs : s.step ≠ Step.stateError) :
    StepOk c (stateBeginValue s c) := by
  unfold stateBeginValue
  repeat' split
  all_goals first
    | exact stepOk_error _ _ _
    | exact stepOk_of_code _ _ _ hs (by simp)
    | exact stepOk_push _ _ _ _ (by simp) (by simp)
    | exact stepOk_of_code _ _ _ (by simp) (by simp)

theorem stepOk_run (s : Scanner) (c : Char) (hs : s.step ≠ Step.stateError) :
    StepOk c (s.run c) := by
  unfold Scanner.run
  split
  all_goals first
    | exact absurd (by assumption) hs
    | exact stepOk_endValue _ _
    | exact stepOk_endTop _ _
    | exact stepOk_beginValue _ _ hs
    | (simp only [stateBeginValueOrEmpty, stateBeginStringOrEmpty, stateBeginString,
        stateInString, stateInStringEsc, stateInStringEscHex, stateNeg,
        state1, state0, stateDot, stateDot0, stateE, stateESign, stateE0, stateLit]
       repeat' split
       all_goals first
        | exact stepOk_error _ _ _
        | exact stepOk_endValue _ _
        | exact stepOk_beginValue _ _ hs
        | exact stepOk_of_code _ _ _ hs (by simp)
        | exact stepOk_of_code _ _ _ (by simp) (by simp))

theorem readValueLoop_error_shape (buf : List Char) :
    ∀ (cs : List Char) (s : Scanner) (n : Nat) (e : GoError),
      s.step ≠ Step.stateError → readValueLoop buf s cs n = Except.error e →
      e = EOF ∨ e = ErrUnexpectedEOF
        ∨ ∃ ch ctx, e = ⟨"invalid character " ++ quoteChar ch ++ " " ++ ctx⟩ := by
  intro cs
  induction cs with
  | nil =>
    intro s n e _ h
    simp only [readValueLoop] at h
    split at h
    · cases h
    · split at h
      · right; left; cases h; rfl
      · left; cases h; rfl
  | cons c cs ih =>
    intro s n e hs h
    have ok := stepOk_run s c hs
    rcases hrun : s.run c with ⟨s1, code⟩
    rw [hrun] at ok
    simp only [readValueLoop, hrun] at h
    cases code
    case scanError =>
      simp only at h
      obtain ⟨ctx, hctx⟩ := ok.1 rfl
      simp only at hctx
      rw [hctx] at h
      right; right
      exact ⟨c, ctx, by cases h; rfl⟩
    case scanEnd => simp at h
    case scanEndObject =>
      simp only at h
      split at h
      · cases h
      · exact ih s1 _ e (ok.2 (by simp) (by simp)) h
    case scanEndArray =>
      simp only at h
      split at h
      · cases h
      · exact ih s1 _ e (ok.2 (by simp) (by simp)) h
    all_goals exact ih s1 _ e (ok.2 (by simp) (by simp)) h

theorem readValue_error_shape (body : List Char) (e : GoError)
    (h : readValue body = Except.error e) :
    e = EOF ∨ e = ErrUnexpectedEOF
      ∨ ∃ ch ctx, e = ⟨"invalid character " ++ quoteChar ch ++ " " ++ ctx⟩ :=
  readValueLoop_error_shape body body Scanner.reset 0 e (by simp [Scanner.reset]) h

theorem readValueLoop_spaces (buf : List Char) (hbuf : nonSpace buf = false) :
    ∀ (cs : List Char) (n : Nat), nonSpace cs = false →
      readValueLoop buf Scanner.reset cs n = Except.error EOF := by
  intro cs
  induction cs with
  | nil =>
    intro n _
    simp [readValueLoop, hbuf, Scanner.run, Scanner.reset, stateBeginValue, isSpace]
  | cons c cs ih =>
    intro n h
    simp only [nonSpace, List.any_cons, Bool.or_eq_false_iff, Bool.not_eq_false'] at h
    have hrun : Scanner.reset.run c = (Scanner.reset, Code.scanSkipSpace) := by
      simp [Scanner.run, Scanner.reset, stateBeginValue, h.1]
    simp only [readValueLoop, hrun]
    exact ih _ h.2

theorem readValue_spaces (body : List Char) (h : nonSpace body = false) :
    readValue body = Except.error EOF :=
  readValueLoop_spaces body h body 0 h

theorem decodeVolume_of_readValue_error (tu : TimeUnmarshaler) (body : List Char) (e : GoError)
    (h : readValue body = Except.error e) : decodeVolume tu body = Except.error e := by
  simp [decodeVolume, Decode, h]

/-! ## Lemmas on decimal text -/

theorem digitChar_props (k : Nat) (hk : k < 10) :
    isDigit (Nat.digitChar k) = true ∧ (Nat.digitChar k).toNat - 48 = k
      ∧ (0 < k → isDigit19 (Nat.digitChar k) = true) ∧ Nat.digitChar 0 = '0' := by
  interval_cases k <;> decide

/-- Value of a run of decimal digits, continuing from `acc`. -/
theorem digits_foldl_append (l : List Char) (d : Char) (acc : Nat) :
    (l ++ [d]).foldl (fun n c => n * 10 + (c.toNat - 48)) acc
      = (l.foldl (fun n c => n * 10 + (c.toNat - 48)) acc) * 10 + (d.toNat - 48) := by
  simp [List.foldl_append]

theorem toDigitsCore_spec : ∀ (fuel n : Nat) (ds : List Char), n < fuel →
    ∃ l, Nat.toDigitsCore 10 fuel n ds = l ++ ds ∧ l ≠ [] ∧ l.all isDigit = true
      ∧ l.foldl (fun n c => n * 10 + (c.toNat - 48)) 0 = n
      ∧ (0 < n → ∃ c t, l = c :: t ∧ isDigit19 c = true)
      ∧ (n = 0 → l = ['0']) := by
  intro fuel
  induction fuel with
  | zero => intro n ds h; omega
  | succ fuel ih =>
    intro n ds h
    have hd := digitChar_props (n % 10) (Nat.mod_lt _ (by decide))
    simp only [Nat.toDigitsCore]
    by_cases h0 : n / 10 = 0
    · simp only [h0, if_true]
      have hlt : n < 10 := by omega
      have hmod : n % 10 = n := Nat.mod_eq_of_lt hlt
      refine ⟨[Nat.digitChar (n % 10)], rfl, by simp, by simp [hd.1], ?_, ?_, ?_⟩
      · have := hd.2.1
        rw [hmod] at this
        simp [this, hmod]
      · intro hpos
        exact ⟨_, [], rfl, hd.2.2.1 (by omega)⟩
      · intro hz
        subst hz
        simp [hd.2.2.2]
    · simp only [h0, if_false]
      have hlt : n / 10 < fuel := by omega
      obtain ⟨l, hl, hne, hall, hval, hhead, _⟩ := ih (n / 10) (Nat.digitChar (n % 10) :: ds) hlt
      refine ⟨l ++ [Nat.digitChar (n % 10)], by simp [hl], by simp, ?_, ?_, ?_, ?_⟩
      · simp [hall, hd.1]
      · rw [digits_foldl_append, hval, hd.2.1]
        omega
      · intro _
        obtain ⟨c, t, hct, hc⟩ := hhead (by omega)
        exact ⟨c, t ++ [Nat.digitChar (n % 10)], by simp [hct], hc⟩
      · intro hz
        omega

theorem toDigits_spec (n : Nat) :
    (Nat.toDigits 10 n) ≠ [] ∧ (Nat.toDigits 10 n).all isDigit = true
      ∧ (Nat.toDigits 10 n).foldl (fun n c => n * 10 + (c.toNat - 48)) 0 = n
      ∧ (0 < n → ∃ c t, Nat.toDigits 10 n = c :: t ∧ isDigit19 c = true)
      ∧ (n = 0 → Nat.toDigits 10 n = ['0']) := by
  obtain ⟨l, hl, h⟩ := toDigitsCore_spec (n + 1) n [] (by omega)
  have : Nat.toDigits 10 n = l := by simp [Nat.toDigits, hl]
  rw [this]
  exact h

theorem parseDigits_toDigits (n : Nat) : parseDigits (Nat.toDigits 10 n) = some n := by
  obtain ⟨hne, hall, hval, _, _⟩ := toDigits_spec n
  simp [parseDigits, hne, hall, hval]

theorem isDigit_ne_minus (c : Char) (h : isDigit c = true) : c ≠ '-' ∧ c ≠ '+' := by
  constructor <;> (intro hc; subst hc; revert h; decide)

/-- Reading back the decimal text of an `int64` gives the number. -/
theorem ParseInt_formatInt (n : Int) (hlo : -9223372036854775808 ≤ n)
    (hhi : n ≤ 9223372036854775807) : ParseInt (formatInt n).data = some n := by
  cases n with
  | ofNat m =>
    obtain ⟨hne, hall, _, _, _⟩ := toDigits_spec m
    simp only [formatInt]
    cases hl : Nat.toDigits 10 m with
    | nil => exact absurd hl hne
    | cons c ds =>
      have hc : isDigit c = true := by
        rw [hl] at hall
        simp at hall
        exact hall.1
      have hp := parseDigits_toDigits m
      rw [hl] at hp
      have hm : m ≤ 9223372036854775807 := by
        have : (m : Int) ≤ 9223372036854775807 := hhi
        omega
      simp [ParseInt, (isDigit_ne_minus c hc).1, (isDigit_ne_minus c hc).2, hp, hm]
  | negSucc m =>
    have hp := parseDigits_toDigits (m + 1)
    have hm : m + 1 ≤ 9223372036854775808 := by
      have : -9223372036854775808 ≤ Int.negSucc m := hlo
      rw [Int.negSucc_eq] at this
      omega
    simp only [formatInt, ParseInt]
    simp [hp, hm, Int.negSucc_eq]

/-! ## Lemmas on string literals -/

theorem hexDigit_props (k : Nat) (hk : k < 16) :
    isHex (hexDigit k) = true ∧ hexVal (hexDigit k) = k := by
  interval_cases k <;> decide

theorem char_toNat_not_surrogate (c : Char) : isSurrogate c.toNat = false := by
  have h := c.valid
  simp only [isSurrogate, Char.toNat, decide_eq_false_iff_not, not_and, not_lt]
  intro h1
  rcases h with h | h
  · have : c.val.toNat < 55296 := h
    omega
  · have : 57343 < c.val.toNat := h.1
    omega

theorem escapeU00_form (c : Char) (h : c.toNat < 256) : EscForm c (escapeU00 c) := by
  have h1 := hexDigit_props (c.toNat / 16) (by omega)
  have h2 := hexDigit_props (c.toNat % 16) (by omega)
  have h0 : isHex '0' = true ∧ hexVal '0' = 0 := by decide
  refine EscForm.long _ _ _ _ h0.1 h0.1 h1.1 h2.1 ?_ (char_toNat_not_surrogate c)
  simp only [getu4, h0.1, h1.1, h2.1, h0.2, h1.2, h2.2, and_self, if_true]
  congr 1
  omega

theorem escapeOne_form (c : Char) : EscForm c (escapeOne c) := by
  unfold escapeOne
  split
  · rename_i h
    rcases h with h | h
    · subst h; exact EscForm.short _ (by simp) (by decide)
    · subst h; exact EscForm.short _ (by simp) (by decide)
  split
  · rename_i h; subst h; exact EscForm.short _ (by simp) (by decide)
  split
  · rename_i h; subst h; exact EscForm.short _ (by simp) (by decide)
  split
  · rename_i h; subst h; exact EscForm.short _ (by simp) (by decide)
  split
  · rename_i h; subst h; exact EscForm.short _ (by simp) (by decide)
  split
  · rename_i h; subst h; exact EscForm.short _ (by simp) (by decide)
  split
  · rename_i h
    apply escapeU00_form
    rcases h with h | h | h | h
    · omega
    · subst h; decide
    · subst h; decide
    · subst h; decide
  split
  · rename_i h
    refine EscForm.long _ _ _ _ (by decide) (by decide) (by decide) (by decide) ?_
      (char_toNat_not_surrogate c)
    rw [h]; decide
  split
  · rename_i h
    refine EscForm.long _ _ _ _ (by decide) (by decide) (by decide) (by decide) ?_
      (char_toNat_not_surrogate c)
    rw [h]; decide
  · rename_i h1 h2 h3 h4 h5 h6 h7 h8 h9
    simp only [not_or] at h1 h7
    exact EscForm.plain h1.1 h1.2 (by omega)

theorem unquoteUnits_form (c : Char) (l rest : List Char) (h : EscForm c l) :
    unquoteUnits (l ++ rest) = StrUnit.rune c :: unquoteUnits rest
      ∨ unquoteUnits (l ++ rest) = StrUnit.esc c.toNat :: unquoteUnits rest := by
  cases h with
  | plain h1 h2 h3 =>
    left
    rw [List.singleton_append, unquoteUnits.eq_def]
    simp [h1]
  | short e he hc =>
    left
    have hu : e ≠ 'u' := by
      rcases he with h | h | h | h | h | h | h <;> (subst h; decide)
    show unquoteUnits (bslash :: e :: rest) = _
    rw [unquoteUnits.eq_def]
    simp [hu, hc]
  | long p q r t hp hq hr ht hg hs =>
    right
    simp [unquoteUnits, hg]

theorem joinUnits_esc (n : Nat) (rest : List StrUnit) (h : isSurrogate n = false) :
    joinUnits (StrUnit.esc n :: rest) = Char.ofNat n :: joinUnits rest := by
  cases rest with
  | nil => simp [joinUnits, h]
  | cons u us =>
    cases u <;> simp [joinUnits, h]

theorem joinUnits_unquoteUnits_escape (s rest : List Char) :
    joinUnits (unquoteUnits (s.flatMap escapeOne ++ rest))
      = s ++ joinUnits (unquoteUnits rest) := by
  induction s with
  | nil => simp
  | cons c cs ih =>
    simp only [List.flatMap_cons, List.append_assoc, List.cons_append]
    rcases unquoteUnits_form c (escapeOne c) (cs.flatMap escapeOne ++ rest)
        (escapeOne_form c) with h | h
    · rw [h]
      simp [joinUnits, ih]
    · rw [h, joinUnits_esc _ _ (char_toNat_not_surrogate c)]
      simp [ih, Char.ofNat_toNat]

/-- Unquoting the escaped text of a string gives the string back. -/
theorem unquote_escape (s : String) : unquote (s.data.flatMap escapeOne) = s := by
  have h := joinUnits_unquoteUnits_escape s.data []
  simp only [List.append_nil] at h
  simp [unquote, h, unquoteUnits, joinUnits]

/-! ## Lemmas on scanning the encoder's output -/

theorem scanThrough_append (a b : List Char) :
    ∀ s, scanThrough s (a ++ b) = (scanThrough s a).bind (fun t => scanThrough t b) := by
  induction a with
  | nil => intro s; simp [scanThrough]
  | cons c cs ih =>
    intro s
    simp only [List.cons_append, scanThrough]
    split
    · simp
    · exact ih _

theorem scanThrough_append_of (a b : List Char) (s t : Scanner)
    (h : scanThrough s a = some t) : scanThrough s (a ++ b) = scanThrough t b := by
  simp [scanThrough_append, h]

theorem readValueLoop_through (buf : List Char) (a rest : List Char) :
    ∀ (s t : Scanner) (n : Nat), scanThrough s a = some t →
      readValueLoop buf s (a ++ rest) n = readValueLoop buf t rest (n + a.length) := by
  induction a with
  | nil =>
    intro s t n h
    simp only [scanThrough, Option.some.injEq] at h
    simp [h]
  | cons c cs ih =>
    intro s t n h
    simp only [scanThrough] at h
    split at h
    · cases h
    · rename_i hst
      have hrec := ih _ t (n + 1) h
      simp only [stops, Bool.or_eq_true, decide_eq_true_eq, Bool.and_eq_true, not_or,
        not_and] at hst
      rcases hrun : s.run c with ⟨s1, code⟩
      rw [hrun] at hst hrec
      simp only [List.cons_append, readValueLoop, hrun]
      have hlen : n + (c :: cs).length = n + 1 + cs.length := by simp; omega
      rw [hlen]
      cases code
      case scanEnd => exact absurd rfl hst.1
      case scanError => exact absurd rfl hst.2.1
      case scanEndObject =>
        simp only
        rw [if_neg (hst.2.2 (Or.inl rfl))]
        exact hrec
      case scanEndArray =>
        simp only
        rw [if_neg (hst.2.2 (Or.inr rfl))]
        exact hrec
      all_goals exact hrec

theorem scanThrough_escForm (ps : List ParseKind) (c : Char) (l : List Char)
    (h : EscForm c l) :
    scanThrough (scannerAt Step.stateInString ps) l = some (scannerAt Step.stateInString ps) := by
  cases h with
  | plain h1 h2 h3 =>
    have h3' : ¬ c.toNat < 32 := by omega
    simp [scanThrough, stops, Scanner.run, scannerAt, stateInString, h1, h2, h3']
  | short e he hc =>
    have r1 : (scannerAt Step.stateInString ps).run bslash
        = (scannerAt Step.stateInStringEsc ps, Code.scanContinue) := by
      have hb : bslash ≠ dquote := by decide
      simp [Scanner.run, scannerAt, stateInString, hb]
    have he' : e = 'b' ∨ e = 'f' ∨ e = 'n' ∨ e = 'r' ∨ e = 't' ∨ e = bslash ∨ e = '/'
        ∨ e = dquote := by
      rcases he with h | h | h | h | h | h | h <;> simp [h]
    have r2 : (scannerAt Step.stateInStringEsc ps).run e
        = (scannerAt Step.stateInString ps, Code.scanContinue) := by
      simp only [Scanner.run, scannerAt, stateInStringEsc]
      rw [if_pos he']
    simp [scanThrough, stops, r1, r2]
  | long p q r t hp hq hr ht hg hs =>
    have r1 : (scannerAt Step.stateInString ps).run bslash
        = (scannerAt Step.stateInStringEsc ps, Code.scanContinue) := by
      have hb : bslash ≠ dquote := by decide
      simp [Scanner.run, scannerAt, stateInString, hb]
    have r2 : (scannerAt Step.stateInStringEsc ps).run 'u'
        = (scannerAt Step.stateInStringEscU ps, Code.scanContinue) := by
      have hu : ¬ ('u' = 'b' ∨ 'u' = 'f' ∨ 'u' = 'n' ∨ 'u' = 'r' ∨ 'u' = 't' ∨ 'u' = bslash
          ∨ 'u' = '/' ∨ 'u' = dquote) := by decide
      simp only [Scanner.run, scannerAt, stateInStringEsc]
      rw [if_neg hu]
      simp
    have r3 : (scannerAt Step.stateInStringEscU ps).run p
        = (scannerAt Step.stateInStringEscU1 ps, Code.scanContinue) := by
      simp [Scanner.run, scannerAt, stateInStringEscHex, hp]
    have r4 : (scannerAt Step.stateInStringEscU1 ps).run q
        = (scannerAt Step.stateInStringEscU12 ps, Code.scanContinue) := by
      simp [Scanner.run, scannerAt, stateInStringEscHex, hq]
    have r5 : (scannerAt Step.stateInStringEscU12 ps).run r
        = (scannerAt Step.stateInStringEscU123 ps, Code.scanContinue) := by
      simp [Scanner.run, scannerAt, stateInStringEscHex, hr]
    have r6 : (scannerAt Step.stateInStringEscU123 ps).run t
        = (scannerAt Step.stateInString ps, Code.scanContinue) := by
      simp [Scanner.run, scannerAt, stateInStringEscHex, ht]
    simp [scanThrough, stops, r1, r2, r3, r4, r5, r6]

theorem scanThrough_escaped (ps : List ParseKind) (s : List Char) :
    scanThrough (scannerAt Step.stateInString ps) (s.flatMap escapeOne)
      = some (scannerAt Step.stateInString ps) := by
  induction s with
  | nil => simp [scanThrough]
  | cons c cs ih =>
    rw [List.flatMap_cons, scanThrough_append_of _ _ _ _
      (scanThrough_escForm ps c _ (escapeOne_form c)), ih]

/-- The steps at which a string literal may begin. -/
theorem scanThrough_encodeString (st : Step) (ps : List ParseKind) (s : String)
    (hst : st = Step.stateBeginValue ∨ st = Step.stateBeginString
      ∨ st = Step.stateBeginStringOrEmpty ∨ st = Step.stateBeginValueOrEmpty) :
    scanThrough (scannerAt st ps) (encodeString s) = some (scannerAt Step.stateEndValue ps) := by
  have hopen : (scannerAt st ps).run dquote
      = (scannerAt Step.stateInString ps, Code.scanBeginLiteral) := by
    have h1 : isSpace dquote = false := by decide
    have h2 : dquote ≠ '\x7b' ∧ dquote ≠ '[' ∧ dquote ≠ '\x7d' ∧ dquote ≠ ']' := by decide
    rcases hst with h | h | h | h <;> subst h <;>
      simp [Scanner.run, scannerAt, stateBeginValue, stateBeginString, stateBeginStringOrEmpty,
        stateBeginValueOrEmpty, h1, h2]
  have hclose : scanThrough (scannerAt Step.stateInString ps) [dquote]
      = some (scannerAt Step.stateEndValue ps) := by
    simp [scanThrough, stops, Scanner.run, scannerAt, stateInString]
  simp only [encodeString, scanThrough, hopen]
  rw [if_neg (by simp [stops])]
  rw [scanThrough_append_of _ _ _ _ (scanThrough_escaped ps s.data), hclose]

theorem isDigit_facts (c : Char) (h : isDigit c = true) :
    isSpace c = false ∧ c ≠ '\x7b' ∧ c ≠ '[' ∧ c ≠ dquote ∧ c ≠ '-' ∧ c ≠ 't' ∧ c ≠ 'f'
      ∧ c ≠ 'n' ∧ c ≠ '.' ∧ c ≠ 'e' ∧ c ≠ 'E' ∧ c ≠ ',' ∧ c ≠ '\x7d' ∧ c ≠ ']' ∧ c ≠ ':' := by
  have hs : isSpace c = false := by
    cases hsp : isSpace c with
    | false => rfl
    | true =>
      simp only [isSpace, Bool.decide_or, Bool.or_eq_true, decide_eq_true_eq] at hsp
      rcases hsp with h' | h' | h' | h' <;> (subst h'; revert h; decide)
  refine ⟨hs, ?_, ?_, ?_, ?_, ?_, ?_, ?_, ?_, ?_, ?_, ?_, ?_, ?_, ?_⟩ <;>
    (intro hc; subst hc; revert h; decide)

theorem isDigit19_isDigit (c : Char) (h : isDigit19 c = true) :
    isDigit c = true ∧ c ≠ '0' := by
  simp only [isDigit19, Bool.decide_and, Bool.and_eq_true, decide_eq_true_eq] at h
  constructor
  · simp only [isDigit, Bool.decide_and, Bool.and_eq_true, decide_eq_true_eq]
    omega
  · intro hc
    subst hc
    revert h
    decide

theorem scanThrough_digits (ps : List ParseKind) (l : List Char) (h : l.all isDigit = true) :
    scanThrough (scannerAt Step.state1 ps) l = some (scannerAt Step.state1 ps) := by
  induction l with
  | nil => simp [scanThrough]
  | cons c cs ih =>
    simp only [List.all_cons, Bool.and_eq_true] at h
    have hrun : (scannerAt Step.state1 ps).run c
        = (scannerAt Step.state1 ps, Code.scanContinue) := by
      simp [Scanner.run, scannerAt, state1, h.1]
    simp only [scanThrough, hrun]
    rw [if_neg (by simp [stops])]
    exact ih h.2

theorem run_beginValue_digit19 (ps : List ParseKind) (c : Char) (h : isDigit19 c = true) :
    (scannerAt Step.stateBeginValue ps).run c
      = (scannerAt Step.state1 ps, Code.scanBeginLiteral) := by
  obtain ⟨hd, h0⟩ := isDigit19_isDigit c h
  obtain ⟨h1, h2, h3, h4, h5, h6, h7, h8, _⟩ := isDigit_facts c hd
  simp [Scanner.run, scannerAt, stateBeginValue, h, h0, h1, h2, h3, h4, h5, h6, h7, h8]

theorem run_neg_digit19 (ps : List ParseKind) (c : Char) (h : isDigit19 c = true) :
    (scannerAt Step.stateNeg ps).run c = (scannerAt Step.state1 ps, Code.scanContinue) := by
  obtain ⟨hd, h0⟩ := isDigit19_isDigit c h
  simp [Scanner.run, scannerAt, stateNeg, h, h0]

theorem scanThrough_toDigits (ps : List ParseKind) (m : Nat) :
    ∃ st, AfterValue st ∧
      scanThrough (scannerAt Step.stateBeginValue ps) (Nat.toDigits 10 m)
        = some (scannerAt st ps) := by
  obtain ⟨_, hall, _, hpos, hzero⟩ := toDigits_spec m
  by_cases hm : m = 0
  · refine ⟨Step.state0, Or.inr (Or.inl rfl), ?_⟩
    rw [hzero hm]
    have h1 : isSpace '0' = false := by decide
    have h2 : '0' ≠ '\x7b' ∧ '0' ≠ '[' ∧ '0' ≠ dquote ∧ '0' ≠ '-' := by decide
    simp [scanThrough, stops, Scanner.run, scannerAt, stateBeginValue, h1, h2]
  · obtain ⟨c, t, hct, hc⟩ := hpos (by omega)
    refine ⟨Step.state1, Or.inr (Or.inr rfl), ?_⟩
    rw [hct] at hall ⊢
    simp only [List.all_cons, Bool.and_eq_true] at hall
    simp only [scanThrough, run_beginValue_digit19 ps c hc]
    rw [if_neg (by simp [stops])]
    exact scanThrough_digits ps t hall.2

theorem scansAsValue_formatInt (n : Int) : ScansAsValue (formatInt n).data := by
  intro ps _ _
  cases n with
  | ofNat m => exact scanThrough_toDigits ps m
  | negSucc m =>
    obtain ⟨_, hall, _, hpos, _⟩ := toDigits_spec (m + 1)
    obtain ⟨c, t, hct, hc⟩ := hpos (by omega)
    refine ⟨Step.state1, Or.inr (Or.inr rfl), ?_⟩
    have hminus : (scannerAt Step.stateBeginValue ps).run '-'
        = (scannerAt Step.stateNeg ps, Code.scanBeginLiteral) := by
      have h1 : isSpace '-' = false := by decide
      have h2 : '-' ≠ '\x7b' ∧ '-' ≠ '[' ∧ '-' ≠ dquote := by decide
      simp [Scanner.run, scannerAt, stateBeginValue, h1, h2]
    simp only [formatInt, hct, scanThrough, hminus, run_neg_digit19 ps c hc]
    rw [hct] at hall
    simp only [List.all_cons, Bool.and_eq_true] at hall
    rw [if_neg (by simp [stops]), if_neg (by simp [stops])]
    exact scanThrough_digits ps t hall.2

theorem scansAsValue_encodeString (s : String) : ScansAsValue (encodeString s) := by
  intro ps _ _
  exact ⟨Step.stateEndValue, Or.inl rfl,
    scanThrough_encodeString Step.stateBeginValue ps s (Or.inl rfl)⟩

theorem scansAsValue_null : ScansAsValue "null".data := by
  intro ps _ _
  refine ⟨Step.stateEndValue, Or.inl rfl, ?_⟩
  have h1 : isSpace 'n' = false := by decide
  have h2 : 'n' ≠ '\x7b' ∧ 'n' ≠ '[' ∧ 'n' ≠ dquote ∧ 'n' ≠ '-' ∧ 'n' ≠ '0' ∧ 'n' ≠ 't'
      ∧ 'n' ≠ 'f' := by decide
  have hd : "null".data = ['n', 'u', 'l', 'l'] := rfl
  simp [hd, scanThrough, stops, Scanner.run, scannerAt, stateBeginValue, stateLit, h1, h2]

theorem run_afterValue (st : Step) (ps : List ParseKind) (c : Char) (hst : AfterValue st)
    (hc : c = ',' ∨ c = '\x7d' ∨ c = ']' ∨ c = ':') :
    (scannerAt st ps).run c = stateEndValue (scannerAt st ps) c := by
  have hfacts : c ≠ '.' ∧ c ≠ 'e' ∧ c ≠ 'E' ∧ isDigit c = false := by
    rcases hc with h | h | h | h <;> subst h <;> decide
  rcases hst with h | h | h <;> subst h <;>
    simp [Scanner.run, scannerAt, state0, state1, hfacts]

theorem run_colon (st : Step) (ps : List ParseKind) (hst : AfterValue st) :
    (scannerAt st (ParseKind.parseObjectKey :: ps)).run ':'
      = (scannerAt Step.stateBeginValue (ParseKind.parseObjectValue :: ps),
          Code.scanObjectKey) := by
  rw [run_afterValue st _ ':' hst (by simp)]
  have h : isSpace ':' = false := by decide
  simp [stateEndValue, scannerAt, Scanner.setTop, h]

theorem run_comma_object (st : Step) (ps : List ParseKind) (hst : AfterValue st) :
    (scannerAt st (ParseKind.parseObjectValue :: ps)).run ','
      = (scannerAt Step.stateBeginString (ParseKind.parseObjectKey :: ps),
          Code.scanObjectValue) := by
  rw [run_afterValue st _ ',' hst (by simp)]
  have h : isSpace ',' = false := by decide
  simp [stateEndValue, scannerAt, Scanner.setTop, h]

theorem run_comma_array (st : Step) (ps : List ParseKind) (hst : AfterValue st) :
    (scannerAt st (ParseKind.parseArrayValue :: ps)).run ','
      = (scannerAt Step.stateBeginValue (ParseKind.parseArrayValue :: ps),
          Code.scanArrayValue) := by
  rw [run_afterValue st _ ',' hst (by simp)]
  have h : isSpace ',' = false := by decide
  simp [stateEndValue, scannerAt, h]

theorem run_close_array (st : Step) (ps : List ParseKind) (hst : AfterValue st)
    (hps : ps ≠ []) :
    (scannerAt st (ParseKind.parseArrayValue :: ps)).run ']'
      = (scannerAt Step.stateEndValue ps, Code.scanEndArray) := by
  rw [run_afterValue st _ ']' hst (by simp)]
  have h : isSpace ']' = false := by decide
  have h2 : ']' ≠ ',' := by decide
  have h3 : ps.length ≠ 0 := by
    cases ps with
    | nil => exact absurd rfl hps
    | cons _ _ => simp
  simp [stateEndValue, scannerAt, Scanner.popParseState, h, h2, h3]

theorem run_close_object_top (st : Step) (hst : AfterValue st) :
    (scannerAt st [ParseKind.parseObjectValue]).run '\x7d'
      = ({ step := Step.stateEndTop, parseState := [], err := none, endTop := true },
          Code.scanEndObject) := by
  rw [run_afterValue st _ '\x7d' hst (by simp)]
  have h : isSpace '\x7d' = false := by decide
  have h2 : '\x7d' ≠ ',' := by decide
  simp [stateEndValue, scannerAt, Scanner.popParseState, h, h2]

theorem not_stops_nested (st : Step) (ps : List ParseKind) (code : Code) (hps : ps ≠ [])
    (h1 : code ≠ Code.scanEnd) (h2 : code ≠ Code.scanError) :
    stops (scannerAt st ps, code) = false := by
  cases ps with
  | nil => exact absurd rfl hps
  | cons k rest =>
    have h : isSpace ' ' = true := by decide
    simp [stops, h1, h2, stateEndValue, scannerAt, h]

theorem scanThrough_strings (ps : List ParseKind) (st : Step)
    (hst : st = Step.stateBeginValue ∨ st = Step.stateBeginValueOrEmpty) :
    ∀ (xs : List String), xs ≠ [] →
      scanThrough (scannerAt st (ParseKind.parseArrayValue :: ps))
          (joinComma (xs.map encodeString))
        = some (scannerAt Step.stateEndValue (ParseKind.parseArrayValue :: ps)) := by
  intro xs
  induction xs generalizing st with
  | nil => intro h; exact absurd rfl h
  | cons x rest ih =>
    intro _
    have hx := scanThrough_encodeString st (ParseKind.parseArrayValue :: ps) x
      (by rcases hst with h | h <;> simp [h])
    cases rest with
    | nil => simpa [joinComma] using hx
    | cons y ys =>
      simp only [List.map_cons, joinComma]
      rw [scanThrough_append_of _ _ _ _ hx]
      simp only [scanThrough, run_comma_array _ ps (Or.inl rfl)]
      rw [if_neg (by simp [not_stops_nested _ _ _ (List.cons_ne_nil _ _)])]
      exact ih Step.stateBeginValue (Or.inl rfl) (List.cons_ne_nil _ _)

theorem scansAsValue_encodeStrings (xs : Option (List String)) :
    ScansAsValue (encodeStrings xs) := by
  cases xs with
  | none => exact scansAsValue_null
  | some xs =>
    intro ps hps hlen
    refine ⟨Step.stateEndValue, Or.inl rfl, ?_⟩
    have hopen : (scannerAt Step.stateBeginValue ps).run '['
        = (scannerAt Step.stateBeginValueOrEmpty (ParseKind.parseArrayValue :: ps),
            Code.scanBeginArray) := by
      have h1 : isSpace '[' = false := by decide
      have h2 : '[' ≠ '\x7b' := by decide
      have h3 : ps.length + 1 ≤ maxNestingDepth := by omega
      simp [Scanner.run, scannerAt, stateBeginValue, Scanner.pushParseState, h1, h2, h3]
    simp only [encodeStrings, scanThrough, hopen]
    rw [if_neg (by simp [not_stops_nested _ _ _ (List.cons_ne_nil _ _)])]
    by_cases hxs : xs = []
    · subst hxs
      have hclose : (scannerAt Step.stateBeginValueOrEmpty (ParseKind.parseArrayValue :: ps)).run ']'
          = (scannerAt Step.stateEndValue ps, Code.scanEndArray) := by
        have h := run_close_array Step.stateEndValue ps (Or.inl rfl) hps
        rw [run_afterValue _ _ ']' (Or.inl rfl) (by simp)] at h
        have h1 : isSpace ']' = false := by decide
        simp only [Scanner.run, scannerAt, stateBeginValueOrEmpty, h1]
        simpa [scannerAt, stateEndValue, h1] using h
      simp only [List.map_nil, joinComma, List.nil_append, scanThrough, hclose]
      rw [if_neg (by simp [not_stops_nested _ _ _ hps])]
    · rw [scanThrough_append_of _ _ _ _
        (scanThrough_strings ps Step.stateBeginValueOrEmpty (Or.inr rfl) xs hxs)]
      simp only [scanThrough, run_close_array Step.stateEndValue ps (Or.inl rfl) hps]
      rw [if_neg (by simp [not_stops_nested _ _ _ hps])]

theorem scanThrough_member (st : Step) (m : String × List Char)
    (hst : st = Step.stateBeginString ∨ st = Step.stateBeginStringOrEmpty)
    (hv : ScansAsValue m.2) :
    ∃ st1, AfterValue st1 ∧
      scanThrough (scannerAt st [ParseKind.parseObjectKey]) (encodeMember m)
        = some (scannerAt st1 [ParseKind.parseObjectValue]) := by
  obtain ⟨st1, h1, h2⟩ := hv [ParseKind.parseObjectValue] (by simp) (by simp [maxNestingDepth])
  refine ⟨st1, h1, ?_⟩
  have hk := scanThrough_encodeString st [ParseKind.parseObjectKey] m.1
    (by rcases hst with h | h <;> simp [h])
  simp only [encodeMember]
  rw [scanThrough_append_of _ _ _ _ hk]
  simp only [scanThrough, run_colon _ [] (Or.inl rfl)]
  rw [if_neg (by simp [not_stops_nested _ _ _ (List.cons_ne_nil _ _)])]
  exact h2

theorem scanThrough_members (st : Step)
    (hst : st = Step.stateBeginString ∨ st = Step.stateBeginStringOrEmpty) :
    ∀ (ms : List (String × List Char)), ms ≠ [] → (∀ m ∈ ms, ScansAsValue m.2) →
      ∃ st1, AfterValue st1 ∧
        scanThrough (scannerAt st [ParseKind.parseObjectKey]) (joinComma (ms.map encodeMember))
          = some (scannerAt st1 [ParseKind.parseObjectValue]) := by
  intro ms
  induction ms generalizing st with
  | nil => intro h; exact absurd rfl h
  | cons m rest ih =>
    intro _ hv
    obtain ⟨st1, h1, h2⟩ := scanThrough_member st m hst (hv m (by simp))
    cases rest with
    | nil => exact ⟨st1, h1, by simpa [joinComma] using h2⟩
    | cons y ys =>
      obtain ⟨st2, h3, h4⟩ := ih Step.stateBeginString (Or.inl rfl) (List.cons_ne_nil _ _)
        (fun m' hm' => hv m' (by simp at hm' ⊢; exact Or.inr hm'))
      refine ⟨st2, h3, ?_⟩
      simp only [List.map_cons, joinComma]
      rw [scanThrough_append_of _ _ _ _ h2]
      simp only [scanThrough, run_comma_object _ [] h1]
      rw [if_neg (by simp [not_stops_nested _ _ _ (List.cons_ne_nil _ _)])]
      simpa using h4

theorem run_open_object :
    Scanner.reset.run '\x7b'
      = (scannerAt Step.stateBeginStringOrEmpty [ParseKind.parseObjectKey],
          Code.scanBeginObject) := by
  decide

/-- The scanner reads the whole text of an encoded object as the first value. -/
theorem readValue_encodeObject (ms : List (String × List Char))
    (hv : ∀ m ∈ ms, ScansAsValue m.2) :
    readValue (encodeObject ms) = Except.ok (encodeObject ms).length := by
  have hend : ∀ (st : Step) (buf : List Char) (n : Nat), AfterValue st →
      readValueLoop buf (scannerAt st [ParseKind.parseObjectValue]) ['\x7d'] n
        = Except.ok (n + 1) := by
    intro st buf n hst
    have h : isSpace ' ' = true := by decide
    simp [readValueLoop, run_close_object_top st hst, stateEndValue, stateEndTop, h]
  by_cases hms : ms = []
  · subst hms
    decide
  · obtain ⟨st1, h1, h2⟩ := scanThrough_members Step.stateBeginStringOrEmpty (Or.inr rfl) ms hms hv
    have hthrough : scanThrough Scanner.reset ('\x7b' :: joinComma (ms.map encodeMember))
        = some (scannerAt st1 [ParseKind.parseObjectValue]) := by
      simp only [scanThrough, run_open_object]
      rw [if_neg (by simp [not_stops_nested _ _ _ (List.cons_ne_nil _ _)])]
      exact h2
    have := readValueLoop_through (encodeObject ms) _ ['\x7d'] Scanner.reset _ 0 hthrough
    simp only [List.cons_append] at this
    have hbody : encodeObject ms = '\x7b' :: (joinComma (ms.map encodeMember) ++ ['\x7d']) := rfl
    rw [readValue]
    conv_lhs => arg 3; rw [hbody]
    rw [this, hend _ _ _ h1, hbody]
    simp

theorem readValue_trailing_comma (ms : List (String × List Char)) (hms : ms ≠ [])
    (hv : ∀ m ∈ ms, ScansAsValue m.2) :
    readValue (encodeObjectTrailingComma ms)
      = Except.error ⟨"invalid character '\x7d' looking for beginning of object key string"⟩ := by
  obtain ⟨st1, h1, h2⟩ := scanThrough_members Step.stateBeginStringOrEmpty (Or.inr rfl) ms hms hv
  have hthrough : scanThrough Scanner.reset ('\x7b' :: (joinComma (ms.map encodeMember) ++ [',']))
      = some (scannerAt Step.stateBeginString [ParseKind.parseObjectKey]) := by
    simp only [scanThrough, run_open_object]
    rw [if_neg (by simp [not_stops_nested _ _ _ (List.cons_ne_nil _ _)]),
      scanThrough_append_of _ _ _ _ h2]
    simp only [scanThrough, run_comma_object _ [] h1]
    rw [if_neg (by simp [not_stops_nested _ _ _ (List.cons_ne_nil _ _)])]
  have hsplit : encodeObjectTrailingComma ms
      = ('\x7b' :: (joinComma (ms.map encodeMember) ++ [','])) ++ ['\x7d'] := by
    simp [encodeObjectTrailingComma]
  have hrun : (scannerAt Step.stateBeginString [ParseKind.parseObjectKey]).run '\x7d'
      = ((scannerAt Step.stateBeginString [ParseKind.parseObjectKey]).error '\x7d'
          "looking for beginning of object key string") := by
    decide
  have := readValueLoop_through (encodeObjectTrailingComma ms) _ ['\x7d'] Scanner.reset _ 0
    hthrough
  rw [readValue]
  conv_lhs => arg 3; rw [hsplit]
  rw [this]
  simp only [readValueLoop, hrun, Scanner.error]
  rfl

/-! ## Lemmas on cutting the encoder's output into items -/

theorem foldr_consFirst (x h : List Char) (t : List (List Char)) :
    x.foldr consFirst (h :: t) = (x ++ h) :: t := by
  induction x with
  | nil => rfl
  | cons c cs ih => simp [ih, consFirst]

theorem inert_nil : Inert [] := by
  intro d rest
  rfl

theorem inert_append (a b : List Char) (ha : Inert a) (hb : Inert b) : Inert (a ++ b) := by
  intro d rest
  rw [List.append_assoc, ha, hb, List.foldr_append]

theorem inert_plain (c : Char) (h1 : c ≠ dquote) (h2 : c ≠ '\x7b') (h3 : c ≠ '[')
    (h4 : c ≠ '\x7d') (h5 : c ≠ ']') (h6 : c ≠ ',') : Inert [c] := by
  intro d rest
  simp [splitItems, h1, h2, h3, h4, h5, h6]

theorem inert_all_plain (l : List Char)
    (h : ∀ c ∈ l, c ≠ dquote ∧ c ≠ '\x7b' ∧ c ≠ '[' ∧ c ≠ '\x7d' ∧ c ≠ ']' ∧ c ≠ ',') :
    Inert l := by
  induction l with
  | nil => exact inert_nil
  | cons c cs ih =>
    have hc := h c (by simp)
    have := inert_append [c] cs
      (inert_plain c hc.1 hc.2.1 hc.2.2.1 hc.2.2.2.1 hc.2.2.2.2.1 hc.2.2.2.2.2)
      (ih (fun c' hc' => h c' (by simp [hc'])))
    simpa using this

theorem isHex_plain (c : Char) (h : isHex c = true) : c ≠ bslash ∧ c ≠ dquote := by
  constructor <;> (intro hc; subst hc; revert h; decide)

theorem splitItems_escForm (d : Nat) (c : Char) (l rest : List Char) (h : EscForm c l) :
    splitItems d true false (l ++ rest) = l.foldr consFirst (splitItems d true false rest) := by
  have plain : ∀ (x : Char) (xs : List Char), x ≠ bslash → x ≠ dquote →
      splitItems d true false (x :: xs) = consFirst x (splitItems d true false xs) := by
    intro x xs h1 h2
    simp [splitItems, h1, h2]
  have esc : ∀ (x : Char) (xs : List Char),
      splitItems d true false (bslash :: x :: xs)
        = consFirst bslash (consFirst x (splitItems d true false xs)) := by
    intro x xs
    simp [splitItems]
  cases h with
  | plain h1 h2 h3 => simp [plain c rest h1 h2]
  | short e he hc => simp [esc]
  | long p q r t hp hq hr ht hg hs =>
    simp only [List.cons_append, List.nil_append, List.foldr_cons, List.foldr_nil]
    rw [esc, plain p _ (isHex_plain p hp).1 (isHex_plain p hp).2,
      plain q _ (isHex_plain q hq).1 (isHex_plain q hq).2,
      plain r _ (isHex_plain r hr).1 (isHex_plain r hr).2,
      plain t _ (isHex_plain t ht).1 (isHex_plain t ht).2]

theorem splitItems_escaped (d : Nat) (s rest : List Char) :
    splitItems d true false (s.flatMap escapeOne ++ rest)
      = (s.flatMap escapeOne).foldr consFirst (splitItems d true false rest) := by
  induction s with
  | nil => simp
  | cons c cs ih =>
    rw [List.flatMap_cons, List.append_assoc,
      splitItems_escForm d c _ _ (escapeOne_form c), ih, List.foldr_append]

theorem inert_encodeString (s : String) : Inert (encodeString s) := by
  intro d rest
  have hopen : ∀ xs, splitItems d false false (dquote :: xs)
      = consFirst dquote (splitItems d true false xs) := by
    intro xs
    simp [splitItems]
  have hclose : ∀ xs, splitItems d true false (dquote :: xs)
      = consFirst dquote (splitItems d false false xs) := by
    intro xs
    have hb : dquote ≠ bslash := by decide
    simp [splitItems, hb]
  simp only [encodeString, List.cons_append, List.append_assoc, List.foldr_cons,
    List.foldr_append, List.foldr_nil, List.nil_append]
  rw [hopen, splitItems_escaped, hclose]

theorem inert_formatInt (n : Int) : Inert (formatInt n).data := by
  have hdig : ∀ m : Nat, ∀ c ∈ Nat.toDigits 10 m,
      c ≠ dquote ∧ c ≠ '\x7b' ∧ c ≠ '[' ∧ c ≠ '\x7d' ∧ c ≠ ']' ∧ c ≠ ',' := by
    intro m c hc
    have hall := (toDigits_spec m).2.1
    have hd : isDigit c = true := by
      rw [List.all_eq_true] at hall
      exact hall c hc
    obtain ⟨_, h2, h3, h4, _, _, _, _, _, _, _, h12, h13, h14, _⟩ := isDigit_facts c hd
    exact ⟨h4, h2, h3, h13, h14, h12⟩
  cases n with
  | ofNat m => exact inert_all_plain _ (hdig m)
  | negSucc m =>
    have := inert_append ['-'] (Nat.toDigits 10 (m + 1))
      (inert_plain '-' (by decide) (by decide) (by decide) (by decide) (by decide) (by decide))
      (inert_all_plain _ (hdig (m + 1)))
    simpa [formatInt] using this

theorem inert_null : Inert "null".data :=
  inert_all_plain _ (by decide)

theorem splitItems_strings_nested (d : Nat) (rest : List Char) :
    ∀ xs : List String,
      splitItems (d + 1) false false (joinComma (xs.map encodeString) ++ rest)
        = (joinComma (xs.map encodeString)).foldr consFirst
            (splitItems (d + 1) false false rest) := by
  intro xs
  induction xs with
  | nil => simp [joinComma]
  | cons x rest' ih =>
    cases rest' with
    | nil => simpa [joinComma] using inert_encodeString x (d + 1) rest
    | cons y ys =>
      have hcomma : ∀ zs, splitItems (d + 1) false false (',' :: zs)
          = consFirst ',' (splitItems (d + 1) false false zs) := by
        intro zs
        have h : ',' ≠ dquote ∧ ',' ≠ '\x7b' ∧ ',' ≠ '[' ∧ ',' ≠ '\x7d' ∧ ',' ≠ ']' := by decide
        simp [splitItems, h]
      simp only [List.map_cons, joinComma, List.append_assoc, List.cons_append,
        List.foldr_append, List.foldr_cons]
      rw [inert_encodeString x (d + 1), hcomma]
      simp only [List.map_cons] at ih
      rw [ih]

theorem inert_encodeStrings (xs : Option (List String)) : Inert (encodeStrings xs) := by
  cases xs with
  | none => exact inert_null
  | some xs =>
    intro d rest
    have hopen : ∀ zs, splitItems d false false ('[' :: zs)
        = consFirst '[' (splitItems (d + 1) false false zs) := by
      intro zs
      have h : '[' ≠ dquote := by decide
      simp [splitItems, h]
    have hclose : ∀ zs, splitItems (d + 1) false false (']' :: zs)
        = consFirst ']' (splitItems d false false zs) := by
      intro zs
      have h : ']' ≠ dquote ∧ ']' ≠ '\x7b' ∧ ']' ≠ '[' := by decide
      simp [splitItems, h]
    simp only [encodeStrings, List.cons_append, List.append_assoc, List.foldr_cons,
      List.foldr_append, List.foldr_nil, List.nil_append]
    rw [hopen, splitItems_strings_nested, hclose]

theorem inert_encodeMember (m : String × List Char) (hv : Inert m.2) :
    Inert (encodeMember m) := by
  have h1 := inert_append _ _ (inert_encodeString m.1)
    (inert_append [':'] m.2
      (inert_plain ':' (by decide) (by decide) (by decide) (by decide) (by decide) (by decide))
      hv)
  simpa [encodeMember] using h1

/-- Items joined by commas and closed by a bracket are cut into those items. -/
theorem splitItems_joinComma (close : Char) (hclose : close = '\x7d' ∨ close = ']')
    (rest : List Char) :
    ∀ items : List (List Char), items ≠ [] → (∀ x ∈ items, Inert x) →
      splitItems 0 false false (joinComma items ++ close :: rest) = items := by
  have hend : splitItems 0 false false (close :: rest) = [[]] := by
    have h1 : '\x7d' ≠ dquote ∧ ']' ≠ dquote ∧ ']' ≠ '\x7b' ∧ ']' ≠ '[' := by decide
    rcases hclose with h | h <;> subst h <;> simp [splitItems, h1]
  intro items
  induction items with
  | nil => intro h; exact absurd rfl h
  | cons x xs ih =>
    intro _ hin
    cases xs with
    | nil =>
      simp only [joinComma]
      rw [hin x (by simp), hend, foldr_consFirst]
      simp
    | cons y ys =>
      have hcomma : ∀ zs, splitItems 0 false false (',' :: zs)
          = [] :: splitItems 0 false false zs := by
        intro zs
        have h : ',' ≠ dquote ∧ ',' ≠ '\x7b' ∧ ',' ≠ '[' ∧ ',' ≠ '\x7d' ∧ ',' ≠ ']' := by decide
        simp [splitItems, h]
      simp only [joinComma, List.append_assoc, List.cons_append]
      rw [hin x (by simp), hcomma, foldr_consFirst,
        ih (List.cons_ne_nil _ _) (fun z hz => hin z (by simp at hz ⊢; exact Or.inr hz))]
      simp

/-! ## Lemmas on storing the encoder's output -/

theorem trimLeft_cons (c : Char) (cs : List Char) (h : isSpace c = false) :
    trimLeft (c :: cs) = c :: cs := by
  simp [trimLeft, h]

/-- A text that starts and ends with characters other than space is its own trim. -/
theorem trim_eq (a b : Char) (mid : List Char) (ha : isSpace a = false)
    (hb : isSpace b = false) : trim (a :: (mid ++ [b])) = a :: (mid ++ [b]) := by
  have h1 : (a :: (mid ++ [b])).reverse = b :: (mid.reverse ++ [a]) := by simp
  simp only [trim]
  rw [trimLeft_cons a _ ha, h1, trimLeft_cons b _ hb, ← h1, List.reverse_reverse]

theorem trim_single (a : Char) (ha : isSpace a = false) : trim [a] = [a] := by
  simp [trim, trimLeft, ha]

theorem trim_of_ends (v : List Char) (a b : Char) (hh : v.head? = some a)
    (hl : v.getLast? = some b) (ha : isSpace a = false) (hb : isSpace b = false) :
    trim v = v := by
  cases v with
  | nil => simp at hh
  | cons c cs =>
    simp only [List.head?_cons, Option.some.injEq] at hh
    subst hh
    rcases List.eq_nil_or_concat cs with h | ⟨mid, d, h⟩
    · subst h
      exact trim_single c ha
    · subst h
      have : d = b := by
        rw [List.concat_eq_append, show c :: (mid ++ [d]) = (c :: mid) ++ [d] from rfl,
          List.getLast?_concat] at hl
        exact Option.some.inj hl
      subst this
      simpa using trim_eq c d mid ha hb

theorem trim_encodeString (s : String) : trim (encodeString s) = encodeString s := by
  have h : isSpace dquote = false := by decide
  exact trim_eq dquote dquote _ h h

theorem trim_null : trim "null".data = "null".data := by decide

theorem trim_encodeStrings (xs : Option (List String)) :
    trim (encodeStrings xs) = encodeStrings xs := by
  cases xs with
  | none => exact trim_null
  | some xs => exact trim_eq '[' ']' _ (by decide) (by decide)

theorem toDigits_ends (m : Nat) :
    ∃ a b, (Nat.toDigits 10 m).head? = some a ∧ (Nat.toDigits 10 m).getLast? = some b
      ∧ isDigit a = true ∧ isDigit b = true := by
  obtain ⟨hne, hall, _⟩ := toDigits_spec m
  rw [List.all_eq_true] at hall
  cases hl : Nat.toDigits 10 m with
  | nil => exact absurd hl hne
  | cons c cs =>
    rw [hl] at hall
    have hlast : ∃ b, (c :: cs).getLast? = some b ∧ b ∈ c :: cs := by
      refine ⟨(c :: cs).getLast (by simp), List.getLast?_eq_getLast _ _, List.getLast_mem _⟩
    obtain ⟨b, hb1, hb2⟩ := hlast
    exact ⟨c, b, rfl, hb1, hall c (by simp), hall b hb2⟩

theorem trim_formatInt (n : Int) : trim (formatInt n).data = (formatInt n).data := by
  cases n with
  | ofNat m =>
    obtain ⟨a, b, h1, h2, h3, h4⟩ := toDigits_ends m
    exact trim_of_ends _ a b h1 h2 (isDigit_facts a h3).1 (isDigit_facts b h4).1
  | negSucc m =>
    obtain ⟨a, b, h1, h2, h3, h4⟩ := toDigits_ends (m + 1)
    refine trim_of_ends _ '-' b rfl ?_ (by decide) (isDigit_facts b h4).1
    simp only [formatInt]
    cases hl : Nat.toDigits 10 (m + 1) with
    | nil => rw [hl] at h1; simp at h1
    | cons c cs =>
      rw [hl] at h2
      rw [List.getLast?_cons_cons]
      exact h2

theorem spanString_escForm (c : Char) (l rest : List Char) (h : EscForm c l) :
    spanString false (l ++ rest)
      = (l ++ (spanString false rest).1, (spanString false rest).2) := by
  have plain : ∀ (x : Char) (xs : List Char), x ≠ bslash → x ≠ dquote →
      spanString false (x :: xs)
        = (x :: (spanString false xs).1, (spanString false xs).2) := by
    intro x xs h1 h2
    simp [spanString, h1, h2]
  have esc : ∀ (x : Char) (xs : List Char),
      spanString false (bslash :: x :: xs)
        = (bslash :: x :: (spanString false xs).1, (spanString false xs).2) := by
    intro x xs
    simp [spanString]
  cases h with
  | plain h1 h2 h3 => simp [plain c rest h1 h2]
  | short e he hc => simp [esc]
  | long p q r t hp hq hr ht hg hs =>
    simp only [List.cons_append, List.nil_append]
    rw [esc, plain p _ (isHex_plain p hp).1 (isHex_plain p hp).2,
      plain q _ (isHex_plain q hq).1 (isHex_plain q hq).2,
      plain r _ (isHex_plain r hr).1 (isHex_plain r hr).2,
      plain t _ (isHex_plain t ht).1 (isHex_plain t ht).2]

theorem spanString_escaped (s rest : List Char) :
    spanString false (s.flatMap escapeOne ++ dquote :: rest) = (s.flatMap escapeOne, rest) := by
  induction s with
  | nil =>
    have hb : dquote ≠ bslash := by decide
    simp [spanString, hb]
  | cons c cs ih =>
    rw [List.flatMap_cons, List.append_assoc,
      spanString_escForm c _ _ (escapeOne_form c), ih]

theorem splitMember_encodeMember (m : String × List Char) :
    splitMember (encodeMember m) = (m.1.data.flatMap escapeOne, m.2) := by
  have h1 : isSpace dquote = false := by decide
  have h2 : isSpace ':' = false := by decide
  simp only [splitMember, encodeMember, encodeString, List.cons_append, List.append_assoc,
    List.nil_append]
  rw [trimLeft_cons _ _ h1]
  simp only [List.tail_cons]
  rw [spanString_escaped, trimLeft_cons _ _ h2]
  rfl

theorem shapeOf_encodeString (s : String) :
    shapeOf (encodeString s) = Shape.string (s.data.flatMap escapeOne) := by
  have h : dquote ≠ '\x7b' ∧ dquote ≠ '[' := by decide
  simp [shapeOf, encodeString, h]

theorem shapeOf_formatInt (n : Int) :
    shapeOf (formatInt n).data = Shape.number (formatInt n).data := by
  have key : ∀ (c : Char) (cs : List Char), (c = '-' ∨ isDigit c = true) →
      shapeOf (c :: cs) = Shape.number (c :: cs) := by
    intro c cs hc
    have hf : c ≠ '\x7b' ∧ c ≠ '[' ∧ c ≠ dquote ∧ c ≠ 'n' ∧ c ≠ 't' ∧ c ≠ 'f' := by
      rcases hc with h | h
      · subst h; decide
      · obtain ⟨_, h2, h3, h4, _, h6, h7, h8, _⟩ := isDigit_facts c h
        exact ⟨h2, h3, h4, h8, h6, h7⟩
    simp [shapeOf, hf]
  cases n with
  | ofNat m =>
    obtain ⟨a, b, h1, _, h3, _⟩ := toDigits_ends m
    simp only [formatInt]
    cases hl : Nat.toDigits 10 m with
    | nil => rw [hl] at h1; simp at h1
    | cons c cs =>
      rw [hl] at h1
      simp only [List.head?_cons, Option.some.injEq] at h1
      subst h1
      exact key c cs (Or.inr h3)
  | negSucc m => exact key '-' _ (Or.inl rfl)

theorem storeString_encodeString (ctx : Option (String × String)) (cur s : String) :
    storeString ctx cur (encodeString s) = (s, none) := by
  simp [storeString, shapeOf_encodeString, unquote_escape]

theorem storeInt64_formatInt (ctx : Option (String × String)) (cur n : Int)
    (hlo : -9223372036854775808 ≤ n) (hhi : n ≤ 9223372036854775807) :
    storeInt64 ctx cur (formatInt n).data = (n, none) := by
  simp [storeInt64, shapeOf_formatInt, ParseInt_formatInt n hlo hhi]

theorem nonSpace_encodeString (s : String) : nonSpace (encodeString s) = true := by
  have h : isSpace dquote = false := by decide
  simp [nonSpace, encodeString, h]

theorem compoundItems_encodeStrings (xs : List String) :
    compoundItems (encodeStrings (some xs)) = xs.map encodeString := by
  by_cases hxs : xs = []
  · subst hxs
    decide
  · have h := splitItems_joinComma ']' (Or.inr rfl) [] (xs.map encodeString)
      (by simpa using hxs) (by
        intro x hx
        obtain ⟨s, _, hs⟩ := List.mem_map.1 hx
        rw [← hs]
        exact inert_encodeString s)
    simp only [compoundItems, encodeStrings, List.tail_cons, h]
    rw [List.filter_eq_self]
    intro x hx
    obtain ⟨s, _, hs⟩ := List.mem_map.1 hx
    rw [← hs]
    exact nonSpace_encodeString s

theorem storeElems_encodeString (ctx : Option (String × String)) :
    ∀ xs : List String, storeElems ctx [] (xs.map encodeString) = (xs, none) := by
  intro xs
  induction xs with
  | nil => rfl
  | cons x rest ih =>
    simp only [List.map_cons, storeElems, List.tail_nil, ih, trim_encodeString,
      storeString_encodeString]
    rfl

theorem storeStrings_encodeStrings (ctx : Option (String × String))
    (xs : Option (List String)) :
    storeStrings ctx none [] (encodeStrings xs) = (Value.strs xs [], none) := by
  cases xs with
  | none => rfl
  | some xs =>
    have hshape : shapeOf (encodeStrings (some xs)) = Shape.array := by
      have h : '[' ≠ '\x7b' := by decide
      simp [shapeOf, encodeStrings, h]
    simp only [storeStrings, hshape, compoundItems_encodeStrings]
    by_cases hxs : xs = []
    · subst hxs
      rfl
    · have hlen : ¬ (xs.map encodeString).length = 0 := by
        simpa using hxs
      rw [if_neg hlen]
      simp [storeElems_encodeString]

/-! ## Decoding the text of an encoded object -/

theorem wire_scans (w : Wire) : ScansAsValue w.text := by
  cases w with
  | str s => exact scansAsValue_encodeString s
  | int n => exact scansAsValue_formatInt n
  | strs xs => exact scansAsValue_encodeStrings xs
  | time s => exact scansAsValue_encodeString s

theorem wire_inert (w : Wire) : Inert w.text := by
  cases w with
  | str s => exact inert_encodeString s
  | int n => exact inert_formatInt n
  | strs xs => exact inert_encodeStrings xs
  | time s => exact inert_encodeString s

theorem wire_trim (w : Wire) : trim w.text = w.text := by
  cases w with
  | str s => exact trim_encodeString s
  | int n => exact trim_formatInt n
  | strs xs => exact trim_encodeStrings xs
  | time s => exact trim_encodeString s

theorem storeValue_wire (tu : TimeUnmarshaler) (ctx : Option (String × String)) (k : Kind)
    (w : Wire) (h : w.fits tu k) :
    storeValue tu ctx k.zero w.text = Except.ok (w.stored tu, none) := by
  cases w with
  | str s =>
    simp only [Wire.fits] at h
    subst h
    simp [storeValue, Kind.zero, Wire.text, Wire.stored, storeString_encodeString]
  | int n =>
    simp only [Wire.fits] at h
    obtain ⟨hk, hlo, hhi⟩ := h
    subst hk
    simp [storeValue, Kind.zero, Wire.text, Wire.stored, storeInt64_formatInt _ _ n hlo hhi]
  | strs xs =>
    simp only [Wire.fits] at h
    subst h
    simp [storeValue, Kind.zero, Wire.text, Wire.stored, storeStrings_encodeStrings]
  | time s =>
    simp only [Wire.fits] at h
    obtain ⟨hk, t, ht⟩ := h
    subst hk
    simp [storeValue, Kind.zero, Wire.text, Wire.stored, ht]

theorem getD_set_ne (vals : List Value) (i j : Nat) (v d : Value) (h : i ≠ j) :
    (vals.set i v).getD j d = vals.getD j d := by
  simp [List.getD_eq_getElem?_getD, List.getElem?_set_ne h]

theorem getD_set_eq (vals : List Value) (i : Nat) (v d : Value) (h : i < vals.length) :
    (vals.set i v).getD i d = v := by
  simp [List.getD_eq_getElem?_getD, List.getElem?_set_self h]

theorem storeMembers_wire (tu : TimeUnmarshaler) (T : StructType) (hT : DistinctKeys T)
    (saved : Option GoError) :
    ∀ (ms : List (Nat × Wire)) (vals : List Value),
      vals.length = T.fields.length →
      (∀ m ∈ ms, vals.getD m.1 (Value.str "") = (T.kindAt m.1).zero) →
      WellTyped tu T ms →
      storeMembers tu T vals saved ((wireMembers T ms).map encodeMember)
        = Except.ok (storeWire tu vals ms, saved) := by
  intro ms
  induction ms with
  | nil => intro vals _ _ _; rfl
  | cons m rest ih =>
    intro vals hlen hzero hwt
    obtain ⟨hfit, hnd⟩ := hwt
    obtain ⟨hi, hf⟩ := hfit m (by simp)
    simp only [List.map_cons, List.nodup_cons] at hnd
    have hstore := storeValue_wire tu (some (T.name, T.keyAt m.1)) (T.kindAt m.1) m.2 hf
    have hcur := hzero m (by simp)
    simp only [wireMembers, List.map_cons, storeMembers, splitMember_encodeMember,
      unquote_escape, hT m.1 hi, wire_trim, hcur]
    simp only [StructType.keyAt] at hstore
    rw [hstore]
    simp only [saveError]
    have hrec := ih (vals.set m.1 (m.2.stored tu)) (by simpa using hlen)
      (by
        intro m' hm'
        have hne : m.1 ≠ m'.1 := by
          intro heq
          exact hnd.1 (by rw [heq]; exact List.mem_map_of_mem _ hm')
        rw [getD_set_ne _ _ _ _ _ hne]
        exact hzero m' (by simp [hm']))
      ⟨fun m' hm' => hfit m' (by simp [hm']), hnd.2⟩
    simp only [wireMembers] at hrec
    cases saved <;> simpa [storeWire] using hrec

theorem compoundItems_encodeObject (ms : List (String × List Char))
    (hv : ∀ m ∈ ms, Inert m.2) :
    compoundItems (encodeObject ms) = ms.map encodeMember := by
  by_cases hms : ms = []
  · subst hms
    decide
  · have h := splitItems_joinComma '\x7d' (Or.inl rfl) [] (ms.map encodeMember)
      (by simpa using hms) (by
        intro x hx
        obtain ⟨m, hm, hs⟩ := List.mem_map.1 hx
        rw [← hs]
        exact inert_encodeMember m (hv m hm))
    simp only [compoundItems, encodeObject, List.tail_cons, h]
    rw [List.filter_eq_self]
    intro x hx
    obtain ⟨m, _, hs⟩ := List.mem_map.1 hx
    rw [← hs]
    have hq : isSpace dquote = false := by decide
    simp [nonSpace, encodeMember, encodeString, hq]

theorem zero_getD (T : StructType) (i : Nat) :
    T.zero.getD i (Value.str "") = (T.kindAt i).zero := by
  simp only [StructType.zero, StructType.kindAt, List.getD_eq_getElem?_getD, List.getElem?_map]
  cases T.fields[i]? <;> rfl

/-- Decoding the text of an object whose members are well typed for a struct
gives the struct with each named field set and the others zero. -/
theorem decode_wire_object (tu : TimeUnmarshaler) (T : StructType) (hT : DistinctKeys T)
    (ms : List (Nat × Wire)) (hwt : WellTyped tu T ms) :
    Decode (unmarshalStructPtr tu T) (encodeObject (wireMembers T ms))
      = Except.ok (some (storeWire tu T.zero ms)) := by
  have hscan := readValue_encodeObject (wireMembers T ms) (by
    intro m hm
    obtain ⟨x, _, hx⟩ := List.mem_map.1 hm
    rw [← hx]
    exact wire_scans x.2)
  have hitems := compoundItems_encodeObject (wireMembers T ms) (by
    intro m hm
    obtain ⟨x, _, hx⟩ := List.mem_map.1 hm
    rw [← hx]
    exact wire_inert x.2)
  have htrim : trim (encodeObject (wireMembers T ms)) = encodeObject (wireMembers T ms) :=
    trim_eq '\x7b' '\x7d' _ (by decide) (by decide)
  have hshape : shapeOf (encodeObject (wireMembers T ms)) = Shape.object := by
    simp [shapeOf, encodeObject]
  have hstore := storeMembers_wire tu T hT none ms T.zero (by simp [StructType.zero])
    (fun m _ => zero_getD T m.1) hwt
  simp only [Decode, hscan, List.take_length, unmarshalStructPtr, storeStructPtr, htrim,
    hshape, hitems, hstore]

theorem storeWire_absent (tu : TimeUnmarshaler) (i : Nat) (d : Value) :
    ∀ (ms : List (Nat × Wire)) (vals : List Value), i ∉ ms.map Prod.fst →
      (storeWire tu vals ms).getD i d = vals.getD i d := by
  intro ms
  induction ms with
  | nil => intro vals _; rfl
  | cons m rest ih =>
    intro vals h
    simp only [List.map_cons, List.mem_cons, not_or] at h
    simp only [storeWire, List.foldl_cons]
    have := ih (vals.set m.1 (m.2.stored tu)) h.2
    simp only [storeWire] at this
    rw [this, getD_set_ne _ _ _ _ _ (Ne.symm h.1)]

theorem storeWire_length (tu : TimeUnmarshaler) :
    ∀ (ms : List (Nat × Wire)) (vals : List Value),
      (storeWire tu vals ms).length = vals.length := by
  intro ms
  induction ms with
  | nil => intro vals; rfl
  | cons m rest ih =>
    intro vals
    simp only [storeWire, List.foldl_cons]
    have := ih (vals.set m.1 (m.2.stored tu))
    simp only [storeWire] at this
    rw [this, List.length_set]

theorem storeWire_present (tu : TimeUnmarshaler) (i : Nat) (w : Wire) (d : Value) :
    ∀ (ms : List (Nat × Wire)) (vals : List Value), (i, w) ∈ ms → (ms.map Prod.fst).Nodup →
      i < vals.length → (storeWire tu vals ms).getD i d = w.stored tu := by
  intro ms
  induction ms with
  | nil => intro vals h; simp at h
  | cons m rest ih =>
    intro vals h hnd hi
    simp only [List.map_cons, List.nodup_cons] at hnd
    simp only [storeWire, List.foldl_cons]
    rcases List.mem_cons.1 h with h | h
    · subst h
      have := storeWire_absent tu i d rest (vals.set i (w.stored tu)) hnd.1
      simp only [storeWire] at this
      rw [this, getD_set_eq _ _ _ _ hi]
    · have := ih (vals.set m.1 (m.2.stored tu)) h hnd.2 (by simpa using hi)
      simpa [storeWire] using this

/-! ## Lemmas on the structs -/

theorem stored_hasKind (tu : TimeUnmarshaler) (k : Kind) (w : Wire) (h : w.fits tu k) :
    (w.stored tu).hasKind k := by
  cases w with
  | str s => simp only [Wire.fits] at h; subst h; trivial
  | int n => simp only [Wire.fits] at h; rw [h.1]; trivial
  | strs xs => simp only [Wire.fits] at h; subst h; rfl
  | time s =>
    simp only [Wire.fits] at h
    obtain ⟨hk, t, ht⟩ := h
    subst hk
    simp only [Wire.stored, ht]
    trivial

theorem zero_hasKind (k : Kind) : k.zero.hasKind k := by
  cases k <;> simp [Kind.zero, Value.hasKind]

theorem distinctKeys_volume : DistinctKeys volumeType := by
  intro i hi
  have : i < 10 := hi
  interval_cases i <;> decide

theorem distinctKeys_mantaLocation : DistinctKeys mantaLocationType := by
  intro i hi
  have : i < 3 := hi
  interval_cases i <;> decide

theorem distinctKeys_createVolumeInput : DistinctKeys createVolumeInputType := by
  intro i hi
  have : i < 4 := hi
  interval_cases i <;> decide

theorem volume_field_ofValues (vals : List Value) (i : Nat) (hi : i < 10)
    (h : (vals.getD i (Value.str "")).hasKind (volumeType.kindAt i)) :
    (Volume.ofValues vals).field i = vals.getD i (Value.str "") := by
  interval_cases i <;>
    (simp only [StructType.kindAt, volumeType, List.map_cons, List.getD_cons_succ,
      List.getD_cons_zero] at h
     simp only [Volume.field, Volume.ofValues]
     revert h
     cases vals.getD _ (Value.str "") <;> simp [Value.hasKind, Value.asString, Value.asInt,
       Value.asStrings, Value.asTime])

theorem storeWire_field_kinds (tu : TimeUnmarshaler) (T : StructType) (ms : List (Nat × Wire))
    (hwt : WellTyped tu T ms) (i : Nat) (hi : i < T.fields.length) :
    ((storeWire tu T.zero ms).getD i (Value.str "")).hasKind (T.kindAt i) := by
  by_cases h : i ∈ ms.map Prod.fst
  · obtain ⟨m, hm, hmi⟩ := List.mem_map.1 h
    have hmem : (i, m.2) ∈ ms := by rw [← hmi]; exact hm
    rw [storeWire_present tu i m.2 _ ms T.zero hmem hwt.2 (by simpa [StructType.zero] using hi)]
    have := (hwt.1 m hm).2
    rw [hmi] at this
    exact stored_hasKind tu _ _ this
  · rw [storeWire_absent tu i _ ms T.zero h, zero_getD]
    exact zero_hasKind _

theorem mantaLocation_field_ofValues (vals : List Value) (i : Nat) (hi : i < 3)
    (h : (vals.getD i (Value.str "")).hasKind (mantaLocationType.kindAt i)) :
    (MantaLocation.ofValues vals).field i = vals.getD i (Value.str "") := by
  interval_cases i <;>
    (simp only [StructType.kindAt, mantaLocationType, List.map_cons, List.getD_cons_succ,
      List.getD_cons_zero] at h
     simp only [MantaLocation.field, MantaLocation.ofValues]
     revert h
     cases vals.getD _ (Value.str "") <;> simp [Value.hasKind, Value.asString])

/-! ## Lemmas on the close counters -/

theorem closesStream_of_trace {α : Type} (run : Run α)
    (answer : Option ReadCloser × Option GoError) (req : RequestInput)
    (h : match answer.1 with
         | none => run.trace = [Event.execute req]
         | some r => run.trace = [Event.execute req, Event.close r]
             ∨ run.trace = [Event.execute req, Event.decode r, Event.close r]) :
    ClosesStream run answer := by
  rcases answer with ⟨_ | r, e⟩
  · simp only at h
    refine ⟨by rw [h]; rfl, ?_⟩
    intro r hr
    simp at hr
  · simp only at h
    have hc : (World.after run.trace).calls = 1 := by
      rcases h with h | h <;> rw [h] <;> rfl
    refine ⟨hc, ?_⟩
    intro r1 hr
    simp only [Option.some.injEq] at hr
    subst hr
    rcases h with h | h <;>
      (rw [h]
       refine ⟨by simp [World.after, World.step, World.init], ?_, rfl⟩
       intro s hs
       simp [World.after, World.step, World.init, hs])

theorem VolumesClient.List_closes (tu : TimeUnmarshaler) (c : VolumesClient)
    (input : ListVolumeInput) :
    ClosesStream (VolumesClient.List tu c input)
      (c.client.ExecuteRequest (VolumesClient.List.reqInputs c input)) := by
  apply closesStream_of_trace _ _ (VolumesClient.List.reqInputs c input)
  unfold VolumesClient.List
  rcases hx : c.client.ExecuteRequest (VolumesClient.List.reqInputs c input) with ⟨_ | r, _ | e⟩ <;>
    simp only [hx] <;>
    first | rfl | (left; rfl) | (right; split <;> rfl)

theorem VolumesClient.Get_closes (tu : TimeUnmarshaler) (c : VolumesClient)
    (input : GetVolumeInput) :
    ClosesStream (VolumesClient.Get tu c input)
      (c.client.ExecuteRequest (VolumesClient.Get.reqInputs c input)) := by
  apply closesStream_of_trace _ _ (VolumesClient.Get.reqInputs c input)
  unfold VolumesClient.Get
  rcases hx : c.client.ExecuteRequest (VolumesClient.Get.reqInputs c input) with ⟨_ | r, _ | e⟩ <;>
    simp only [hx] <;>
    first | rfl | (left; rfl) | (right; split <;> rfl)

theorem VolumesClient.Create_closes (tu : TimeUnmarshaler) (c : VolumesClient)
    (input : CreateVolumeInput) :
    ClosesStream (VolumesClient.Create tu c input)
      (c.client.ExecuteRequest (VolumesClient.Create.reqInputs c input)) := by
  apply closesStream_of_trace _ _ (VolumesClient.Create.reqInputs c input)
  unfold VolumesClient.Create
  rcases hx : c.client.ExecuteRequest (VolumesClient.Create.reqInputs c input) with ⟨_ | r, _ | e⟩ <;>
    simp only [hx] <;>
    first | rfl | (left; rfl) | (right; split <;> rfl)

theorem VolumesClient.Delete_closes (c : VolumesClient) (input : DeleteVolumeInput) :
    ClosesStream (VolumesClient.Delete c input)
      (c.client.ExecuteRequest (VolumesClient.Delete.reqInputs c input)) := by
  apply closesStream_of_trace _ _ (VolumesClient.Delete.reqInputs c input)
  unfold VolumesClient.Delete
  rcases hx : c.client.ExecuteRequest (VolumesClient.Delete.reqInputs c input) with ⟨_ | r, _ | e⟩ <;>
    simp only [hx] <;>
    first | rfl | (left; rfl)

theorem VolumesClient.Update_closes (c : VolumesClient) (input : UpdateVolumeInput) :
    ClosesStream (VolumesClient.Update c input)
      (c.client.ExecuteRequest (VolumesClient.Update.reqInputs c input)) := by
  apply closesStream_of_trace _ _ (VolumesClient.Update.reqInputs c input)
  unfold VolumesClient.Update
  rcases hx : c.client.ExecuteRequest (VolumesClient.Update.reqInputs c input) with ⟨_ | r, _ | e⟩ <;>
    simp only [hx] <;>
    first | rfl | (left; rfl)

theorem ImagesClient.ListImages_closes {Image : Type} (J : ImageDecoder Image)
    (c : ImagesClient) :
    ClosesStream (ImagesClient.ListImages J c)
      (c.executeRequest MethodGet ("/" ++ c.AccountName ++ "/images") Body.absent) := by
  apply closesStream_of_trace _ _ ⟨MethodGet, "/" ++ c.AccountName ++ "/images", none, Body.absent⟩
  unfold ImagesClient.ListImages
  rcases hx : c.executeRequest MethodGet ("/" ++ c.AccountName ++ "/images") Body.absent
    with ⟨_ | r, _ | e⟩ <;>
    simp only [hx] <;>
    first | rfl | (left; rfl) | (right; split <;> rfl)

theorem ImagesClient.GetImage_closes {Image : Type} (J : ImageDecoder Image)
    (c : ImagesClient) (input : GetImageInput) :
    ClosesStream (ImagesClient.GetImage J c input)
      (c.executeRequest MethodGet ("/" ++ c.AccountName ++ "/images/" ++ input.ImageID)
        Body.absent) := by
  apply closesStream_of_trace _ _
    ⟨MethodGet, "/" ++ c.AccountName ++ "/images/" ++ input.ImageID, none, Body.absent⟩
  unfold ImagesClient.GetImage
  rcases hx : c.executeRequest MethodGet ("/" ++ c.AccountName ++ "/images/" ++ input.ImageID)
    Body.absent with ⟨_ | r, _ | e⟩ <;>
    simp only [hx] <;>
    first | rfl | (left; rfl) | (right; split <;> rfl)

theorem ImagesClient.DeleteImage_closes (c : ImagesClient) (input : DeleteImageInput) :
    ClosesStream (ImagesClient.DeleteImage c input)
      (c.executeRequest MethodDelete ("/" ++ c.AccountName ++ "/images/" ++ input.ImageID)
        Body.absent) := by
  apply closesStream_of_trace _ _
    ⟨MethodDelete, "/" ++ c.AccountName ++ "/images/" ++ input.ImageID, none, Body.absent⟩
  unfold ImagesClient.DeleteImage
  rcases hx : c.executeRequest MethodDelete ("/" ++ c.AccountName ++ "/images/" ++ input.ImageID)
    Body.absent with ⟨_ | r, _ | e⟩ <;>
    simp only [hx] <;>
    first | rfl | (left; rfl)

theorem ImagesClient.ExportImage_closes (c : ImagesClient) (input : ExportImageInput) :
    ClosesStream (ImagesClient.ExportImage c input)
      (c.executeRequestURIParams MethodGet ("/" ++ c.AccountName ++ "/images/" ++ input.ImageID)
        Body.absent (some (ImagesClient.ExportImage.query input))) := by
  apply closesStream_of_trace _ _
    ⟨MethodGet, "/" ++ c.AccountName ++ "/images/" ++ input.ImageID,
      some (ImagesClient.ExportImage.query input), Body.absent⟩
  unfold ImagesClient.ExportImage
  rcases hx : c.executeRequestURIParams MethodGet
    ("/" ++ c.AccountName ++ "/images/" ++ input.ImageID)
    Body.absent (some (ImagesClient.ExportImage.query input)) with ⟨_ | r, _ | e⟩ <;>
    simp only [hx] <;>
    first | rfl | (left; rfl) | (right; split <;> rfl)

theorem ImagesClient.CreateImageFromMachine_closes {Image : Type} (J : ImageDecoder Image)
    (c : ImagesClient) (input : CreateImageFromMachineInput) :
    ClosesStream (ImagesClient.CreateImageFromMachine J c input)
      (c.executeRequest MethodPost ("/" ++ c.AccountName ++ "/images")
        (Body.createImage input)) := by
  apply closesStream_of_trace _ _
    ⟨MethodPost, "/" ++ c.AccountName ++ "/images", none, Body.createImage input⟩
  unfold ImagesClient.CreateImageFromMachine
  rcases hx : c.executeRequest MethodPost ("/" ++ c.AccountName ++ "/images")
    (Body.createImage input) with ⟨_ | r, _ | e⟩ <;>
    simp only [hx] <;>
    first | rfl | (left; rfl) | (right; split <;> rfl)

theorem ImagesClient.UpdateImage_closes {Image : Type} (J : ImageDecoder Image)
    (c : ImagesClient) (input : UpdateImageInput) :
    ClosesStream (ImagesClient.UpdateImage J c input)
      (c.executeRequestURIParams MethodPost
        ("/" ++ c.AccountName ++ "/images/" ++ input.ImageID)
        (Body.updateImage input) (some (Values.empty.Set "action" "update"))) := by
  apply closesStream_of_trace _ _
    ⟨MethodPost, "/" ++ c.AccountName ++ "/images/" ++ input.ImageID,
      some (Values.empty.Set "action" "update"), Body.updateImage input⟩
  unfold ImagesClient.UpdateImage
  rcases hx : c.executeRequestURIParams MethodPost
    ("/" ++ c.AccountName ++ "/images/" ++ input.ImageID)
    (Body.updateImage input) (some (Values.empty.Set "action" "update")) with ⟨_ | r, _ | e⟩ <;>
    simp only [hx] <;>
    first | rfl | (left; rfl) | (right; split <;> rfl)

/-! ## Lemmas on bodies whose first value is `null` -/

theorem trimLeft_split : ∀ body : List Char,
    ∃ ws, body = ws ++ trimLeft body ∧ nonSpace ws = false := by
  intro body
  induction body with
  | nil => exact ⟨[], rfl, rfl⟩
  | cons c cs ih =>
    by_cases hc : isSpace c = true
    · obtain ⟨ws, h1, h2⟩ := ih
      refine ⟨c :: ws, ?_, ?_⟩
      · simp only [trimLeft, hc, if_true, List.cons_append]
        rw [← h1]
      · simp only [nonSpace, List.any_cons, hc, Bool.not_true, Bool.false_or]
        exact h2
    · refine ⟨[], ?_, rfl⟩
      simp [trimLeft, hc]

theorem trimLeft_head : ∀ (body : List Char) (c : Char) (cs : List Char),
    trimLeft body = c :: cs → isSpace c = false := by
  intro body
  induction body with
  | nil => intro c cs h; simp [trimLeft] at h
  | cons d ds ih =>
    intro c cs h
    by_cases hd : isSpace d = true
    · simp only [trimLeft, hd, if_true] at h
      exact ih c cs h
    · simp only [trimLeft, hd] at h
      simp only [Bool.false_eq_true, if_false, List.cons.injEq] at h
      rw [← h.1]
      simpa using hd

theorem trimLeft_spaces_append : ∀ (ws x : List Char), nonSpace ws = false →
    trimLeft (ws ++ x) = trimLeft x := by
  intro ws
  induction ws with
  | nil => intro x _; rfl
  | cons c cs ih =>
    intro x h
    simp only [nonSpace, List.any_cons, Bool.or_eq_false_iff, Bool.not_eq_false'] at h
    simp only [List.cons_append, trimLeft, h.1, if_true]
    exact ih x h.2

theorem trimLeft_keeps_last (c : Char) (hc : isSpace c = false) : ∀ l : List Char,
    ∃ y, trimLeft (l ++ [c]) = y ++ [c] := by
  intro l
  induction l with
  | nil => exact ⟨[], by simp [trimLeft, hc]⟩
  | cons d ds ih =>
    by_cases hd : isSpace d = true
    · obtain ⟨y, hy⟩ := ih
      exact ⟨y, by simp only [List.cons_append, trimLeft, hd, if_true]; exact hy⟩
    · exact ⟨d :: ds, by simp [trimLeft, hd]⟩

theorem trim_head (c : Char) (more : List Char) (hc : isSpace c = false) :
    ∃ x, trim (c :: more) = c :: x := by
  obtain ⟨y, hy⟩ := trimLeft_keeps_last c hc more.reverse
  refine ⟨y.reverse, ?_⟩
  simp only [trim]
  rw [trimLeft_cons c more hc, List.reverse_cons, hy]
  simp

theorem scanThrough_spaces : ∀ ws : List Char, nonSpace ws = false →
    scanThrough Scanner.reset ws = some Scanner.reset := by
  intro ws
  induction ws with
  | nil => intro _; rfl
  | cons c cs ih =>
    intro h
    simp only [nonSpace, List.any_cons, Bool.or_eq_false_iff, Bool.not_eq_false'] at h
    have hrun : Scanner.reset.run c = (Scanner.reset, Code.scanSkipSpace) := by
      simp [Scanner.run, Scanner.reset, stateBeginValue, h.1]
    simp only [scanThrough, hrun, stops]
    simpa using ih h.2

theorem readValueLoop_mono (buf : List Char) : ∀ (cs : List Char) (s : Scanner) (m n : Nat),
    readValueLoop buf s cs m = Except.ok n → m ≤ n := by
  intro cs
  induction cs with
  | nil =>
    intro s m n h
    simp only [readValueLoop] at h
    split at h
    · cases h; exact Nat.le_refl _
    · split at h <;> cases h
  | cons c cs ih =>
    intro s m n h
    simp only [readValueLoop] at h
    split at h
    · cases h; exact Nat.le_refl _
    · split at h
      · cases h; omega
      · have := ih _ _ _ h; omega
    · split at h
      · cases h; omega
      · have := ih _ _ _ h; omega
    · cases h
    · have := ih _ _ _ h; omega

theorem beginValue_not_end (s : Scanner) (c : Char) :
    (stateBeginValue s c).2 ≠ Code.scanEnd := by
  unfold stateBeginValue Scanner.pushParseState Scanner.error
  repeat' split
  all_goals first | (simp; done) | (simp only []; split <;> simp)

theorem readValueLoop_nonspace (buf : List Char) (c : Char) (cs : List Char) (m n : Nat)
    (h : readValueLoop buf Scanner.reset (c :: cs) m = Except.ok n) : m + 1 ≤ n := by
  have hne : (Scanner.reset.run c).2 ≠ Code.scanEnd := beginValue_not_end Scanner.reset c
  simp only [readValueLoop] at h
  split at h
  · rename_i heq
    rw [heq] at hne
    exact absurd rfl hne
  · split at h
    · cases h; omega
    · exact readValueLoop_mono _ _ _ _ _ h
  · split at h
    · cases h; omega
    · exact readValueLoop_mono _ _ _ _ _ h
  · cases h
  · exact readValueLoop_mono _ _ _ _ _ h

theorem stateLit_snd (want : Char) (next : Step) (ctx : String) (s : Scanner) (c : Char) :
    (stateLit want next ctx s c).2 ≠ Code.scanEnd := by
  unfold stateLit Scanner.error
  split <;> simp

/-- Inside a literal the loop of `readValue` goes on only over the expected character. -/
theorem readValueLoop_lit (buf : List Char) (want : Char) (next : Step) (ctx : String)
    (st : Step) (hs : ∀ c, (scannerAt st []).run c = stateLit want next ctx (scannerAt st []) c)
    (cs : List Char) (m n : Nat) (h : readValueLoop buf (scannerAt st []) cs m = Except.ok n) :
    ∃ rest, cs = want :: rest
      ∧ readValueLoop buf (scannerAt next []) rest (m + 1) = Except.ok n := by
  cases cs with
  | nil =>
    simp only [readValueLoop, hs] at h
    rw [if_neg (stateLit_snd _ _ _ _ _)] at h
    split at h <;> cases h
  | cons c rest =>
    simp only [readValueLoop, hs] at h
    by_cases hc : c = want
    · subst hc
      have : stateLit c next ctx (scannerAt st []) c
          = (scannerAt next [], Code.scanContinue) := by
        simp [stateLit, scannerAt]
      rw [this] at h
      exact ⟨rest, rfl, h⟩
    · have : stateLit want next ctx (scannerAt st []) c = (scannerAt st []).error c ctx := by
        simp [stateLit, hc]
      rw [this] at h
      simp only [Scanner.error] at h
      cases h

theorem readValueLoop_lit_step (buf : List Char) (want : Char) (next : Step) (ctx : String)
    (st : Step) (hs : ∀ c, (scannerAt st []).run c = stateLit want next ctx (scannerAt st []) c)
    (cs : List Char) (m : Nat) :
    readValueLoop buf (scannerAt st []) (want :: cs) m
      = readValueLoop buf (scannerAt next []) cs (m + 1) := by
  have : stateLit want next ctx (scannerAt st []) want
      = (scannerAt next [], Code.scanContinue) := by
    simp [stateLit, scannerAt]
  simp only [readValueLoop, hs, this]

theorem stateEndTop_snd (s : Scanner) (c : Char) : (stateEndTop s c).2 = Code.scanEnd := by
  unfold stateEndTop
  split <;> rfl

theorem readValueLoop_endTop (buf rest : List Char) (m : Nat) :
    readValueLoop buf (scannerAt Step.stateEndValue []) rest m = Except.ok m := by
  have hrun : ∀ c, ((scannerAt Step.stateEndValue []).run c).2 = Code.scanEnd :=
    fun c => stateEndTop_snd _ c
  cases rest with
  | nil => simp only [readValueLoop, hrun, if_true]
  | cons d ds =>
    have h := hrun d
    rcases hr : (scannerAt Step.stateEndValue []).run d with ⟨s1, code⟩
    rw [hr] at h
    simp only at h
    subst h
    simp only [readValueLoop, hr]

theorem run_reset_n :
    Scanner.reset.run 'n' = (scannerAt Step.stateN [], Code.scanBeginLiteral) := by
  decide

theorem readValueLoop_null (buf rest : List Char) (m : Nat) :
    readValueLoop buf Scanner.reset ('n' :: 'u' :: 'l' :: 'l' :: rest) m = Except.ok (m + 4) := by
  have h0 : readValueLoop buf Scanner.reset ('n' :: 'u' :: 'l' :: 'l' :: rest) m
      = readValueLoop buf (scannerAt Step.stateN []) ('u' :: 'l' :: 'l' :: rest) (m + 1) := by
    simp only [readValueLoop, run_reset_n]
  rw [h0, readValueLoop_lit_step buf 'u' Step.stateNu "in literal null (expecting 'u')"
      Step.stateN (fun _ => rfl),
    readValueLoop_lit_step buf 'l' Step.stateNul "in literal null (expecting 'l')"
      Step.stateNu (fun _ => rfl),
    readValueLoop_lit_step buf 'l' Step.stateEndValue "in literal null (expecting 'l')"
      Step.stateNul (fun _ => rfl)]
  exact readValueLoop_endTop buf rest (m + 1 + 1 + 1 + 1)

theorem readValueLoop_n (buf cs : List Char) (m n : Nat)
    (h : readValueLoop buf Scanner.reset ('n' :: cs) m = Except.ok n) :
    cs.take 3 = ['u', 'l', 'l'] := by
  simp only [readValueLoop, run_reset_n] at h
  obtain ⟨r1, h1, h⟩ := readValueLoop_lit buf 'u' Step.stateNu
    "in literal null (expecting 'u')" Step.stateN (fun _ => rfl) _ _ _ h
  obtain ⟨r2, h2, h⟩ := readValueLoop_lit buf 'l' Step.stateNul
    "in literal null (expecting 'l')" Step.stateNu (fun _ => rfl) _ _ _ h
  obtain ⟨r3, h3, _⟩ := readValueLoop_lit buf 'l' Step.stateEndValue
    "in literal null (expecting 'l')" Step.stateNul (fun _ => rfl) _ _ _ h
  subst h1 h2 h3
  rfl

theorem shapeOf_null_head (c : Char) (x : List Char) (h : shapeOf (c :: x) = Shape.null) :
    c = 'n' := by
  simp only [shapeOf] at h
  split_ifs at h with h1 h2 h3 h4 h5
  exact h4

/-- The decoder finds the literal `null` as the first value of a body exactly
when the body, after its leading white space, starts with `null`. -/
theorem readValue_null_iff (body : List Char) :
    (∃ n, readValue body = Except.ok n ∧ shapeOf (trim (body.take n)) = Shape.null)
      ↔ firstValueNull body = true := by
  obtain ⟨ws, hbody, hws⟩ := trimLeft_split body
  have hloop : ∀ n, readValue body = Except.ok n ↔
      readValueLoop body Scanner.reset (trimLeft body) ws.length = Except.ok n := by
    intro n
    have := readValueLoop_through body ws (trimLeft body) Scanner.reset Scanner.reset 0
      (scanThrough_spaces ws hws)
    rw [← hbody, Nat.zero_add] at this
    rw [readValue, this]
  simp only [firstValueNull, decide_eq_true_eq]
  constructor
  · rintro ⟨n, hn, hshape⟩
    rw [hloop] at hn
    rcases hrest : trimLeft body with _ | ⟨c, cs⟩
    · rw [hrest] at hn hbody
      rw [List.append_nil] at hbody
      rw [← hbody] at hws
      have := readValueLoop_spaces body hws [] ws.length rfl
      rw [this] at hn
      cases hn
    · have hc := trimLeft_head body c cs hrest
      rw [hrest] at hn
      have hlen := readValueLoop_nonspace body c cs ws.length n hn
      have htake : body.take n = ws ++ c :: cs.take (n - ws.length - 1) := by
        rw [hbody, hrest, List.take_append_eq_append_take]
        have h1 : List.take n ws = ws := List.take_of_length_le (by omega)
        have h2 : n - ws.length = (n - ws.length - 1) + 1 := by omega
        rw [h1, h2, List.take_succ_cons]
        simp
      obtain ⟨x, hx⟩ := trim_head c (cs.take (n - ws.length - 1)) hc
      have htrim : trim (body.take n) = c :: x := by
        rw [htake]
        simp only [trim]
        rw [trimLeft_spaces_append ws _ hws]
        exact hx
      rw [htrim] at hshape
      have hcn := shapeOf_null_head c x hshape
      subst hcn
      have h3 := readValueLoop_n body cs ws.length n hn
      match cs, h3 with
      | a :: b :: d :: rest, h3 =>
        simp only [List.take_succ_cons, List.take_zero, List.cons.injEq, and_true] at h3
        obtain ⟨rfl, rfl, rfl⟩ := h3
        rfl
  · intro h
    match hrest : trimLeft body, h with
    | a :: b :: c :: d :: rest, h =>
      simp only [List.take_succ_cons, List.take_zero, List.cons.injEq, and_true] at h
      obtain ⟨rfl, rfl, rfl, rfl⟩ := h
      refine ⟨ws.length + 4, ?_, ?_⟩
      · rw [hloop, hrest]
        exact readValueLoop_null body rest ws.length
      · have htake : body.take (ws.length + 4) = ws ++ ['n', 'u', 'l', 'l'] := by
          rw [hbody, hrest, List.take_append_eq_append_take]
          simp
        rw [htake]
        have : trim (ws ++ ['n', 'u', 'l', 'l']) = ['n', 'u', 'l', 'l'] := by
          simp only [trim]
          rw [trimLeft_spaces_append ws _ hws]
          decide
        rw [this]
        rfl

theorem decodeVolume_nil_iff (tu : TimeUnmarshaler) (body : List Char) :
    decodeVolume tu body = Except.ok none ↔ firstValueNull body = true := by
  rw [← readValue_null_iff]
  simp only [decodeVolume, Decode]
  constructor
  · intro h
    rcases hr : readValue body with e | n
    · rw [hr] at h; simp at h
    · rw [hr] at h
      refine ⟨n, rfl, ?_⟩
      simp only [unmarshalStructPtr, storeStructPtr] at h
      by_contra hsh
      revert h
      cases hshape : shapeOf (trim (List.take n body)) with
      | null => exact absurd hshape hsh
      | object =>
        simp only
        cases storeMembers tu volumeType volumeType.zero none
            (compoundItems (trim (List.take n body))) with
        | error e => simp
        | ok r =>
          rcases r with ⟨vals, _ | e⟩ <;> simp
      | _ => simp [saveError]
  · rintro ⟨n, hn, hshape⟩
    simp [hn, unmarshalStructPtr, storeStructPtr, hshape]

theorem decodeVolumes_nil_iff (tu : TimeUnmarshaler) (body : List Char) :
    decodeVolumes tu body = Except.ok none ↔ firstValueNull body = true := by
  rw [← readValue_null_iff]
  simp only [decodeVolumes, Decode]
  constructor
  · intro h
    rcases hr : readValue body with e | n
    · rw [hr] at h; simp at h
    · rw [hr] at h
      refine ⟨n, rfl, ?_⟩
      simp only [unmarshalStructPtrSlice] at h
      by_contra hsh
      revert h
      cases hshape : shapeOf (trim (List.take n body)) with
      | null => exact absurd hshape hsh
      | array =>
        simp only
        cases storeStructPtrs tu volumeType none
            (compoundItems (trim (List.take n body))) with
        | error e => simp
        | ok r =>
          rcases r with ⟨vals, _ | e⟩ <;> simp
      | _ => simp
  · rintro ⟨n, hn, hshape⟩
    simp [hn, unmarshalStructPtrSlice, hshape]

/-! ## Lemmas on where `readValue` stops -/

theorem endValue_inside_not_end (s : Scanner) (c : Char) (h : s.parseState ≠ []) :
    (stateEndValue s c).2 ≠ Code.scanEnd := by
  unfold stateEndValue
  split
  · rename_i heq
    exact absurd heq h
  · unfold Scanner.error
    repeat' split
    all_goals simp

theorem beginString_not_end (s : Scanner) (c : Char) :
    (stateBeginString s c).2 ≠ Code.scanEnd := by
  unfold stateBeginString Scanner.error
  repeat' split
  all_goals simp

/-- Inside a compound value no character ends the top-level value. -/
theorem inside_not_end (s : Scanner) (c : Char) (h : s.inside = true) :
    (s.run c).2 ≠ Code.scanEnd := by
  simp only [Scanner.inside, Bool.and_eq_true, decide_eq_true_eq] at h
  obtain ⟨hps, hst⟩ := h
  have hset : ∀ k, (s.setTop k).parseState ≠ [] := by intro k; simp [Scanner.setTop]
  unfold Scanner.run
  split
  all_goals first
    | exact absurd (by assumption) hst
    | with_reducible exact endValue_inside_not_end _ _ hps
    | with_reducible exact beginValue_not_end _ _
    | with_reducible exact beginString_not_end _ _
    | with_reducible exact stateLit_snd _ _ _ _ _
    | (simp only [stateBeginValueOrEmpty, stateBeginStringOrEmpty, stateInString,
        stateInStringEsc, stateInStringEscHex, stateNeg, state1, state0, stateDot, stateDot0,
        stateE, stateESign, stateE0, Scanner.error]
       repeat' split
       all_goals first
        | with_reducible exact endValue_inside_not_end _ _ hps
        | with_reducible exact endValue_inside_not_end _ _ (hset _)
        | with_reducible exact beginValue_not_end _ _
        | with_reducible exact beginString_not_end _ _
        | simp)

theorem endValue_top (s : Scanner) (c : Char) (h : s.parseState = []) :
    (stateEndValue s c).2 = Code.scanEnd := by
  unfold stateEndValue
  rw [h]
  exact stateEndTop_snd _ _

theorem pop_inside (s : Scanner) (code : Code)
    (hc : code = Code.scanEndObject ∨ code = Code.scanEndArray)
    (hstop : stops (s.popParseState, code) = false) : s.popParseState.inside = true := by
  rcases hps : s.parseState.tail with _ | ⟨a, b⟩
  · have hp : s.popParseState.parseState = [] := by
      simp [Scanner.popParseState, hps]
    have := endValue_top s.popParseState ' ' hp
    rcases hc with hc | hc <;> subst hc <;> simp [stops, this] at hstop
  · simp [Scanner.popParseState, hps, Scanner.inside]

theorem endValue_inside (s : Scanner) (c : Char) (h : s.parseState ≠ [])
    (hstop : stops (stateEndValue s c) = false) : (stateEndValue s c).1.inside = true := by
  revert hstop
  unfold stateEndValue
  split
  · rename_i heq
    exact absurd heq h
  · rename_i p rest heq
    repeat' split
    all_goals first
      | exact pop_inside s _ (Or.inl rfl)
      | exact pop_inside s _ (Or.inr rfl)
      | simp [stops, Scanner.inside, heq, Scanner.error, Scanner.setTop]

theorem beginValue_inside (s : Scanner) (c : Char) (h : s.inside = true)
    (hstop : stops (stateBeginValue s c) = false) : (stateBeginValue s c).1.inside = true := by
  revert hstop
  simp only [Scanner.inside, Bool.and_eq_true, decide_eq_true_eq] at h
  unfold stateBeginValue Scanner.pushParseState Scanner.error
  repeat' split
  all_goals first
    | (simp [stops, Scanner.inside, h.1, h.2]; done)
    | (simp only []; split <;> simp [stops, Scanner.inside, h.1, h.2])

theorem beginString_inside (s : Scanner) (c : Char) (h : s.inside = true)
    (hstop : stops (stateBeginString s c) = false) : (stateBeginString s c).1.inside = true := by
  revert hstop
  simp only [Scanner.inside, Bool.and_eq_true, decide_eq_true_eq] at h
  unfold stateBeginString Scanner.error
  repeat' split
  all_goals simp [stops, Scanner.inside, h.1, h.2]

/-- Inside a compound value, a step at which `readValue` does not stop leaves
the scanner inside. -/
theorem inside_step (s : Scanner) (c : Char) (h : s.inside = true)
    (hstop : stops (s.run c) = false) : (s.run c).1.inside = true := by
  have h0 := h
  simp only [Scanner.inside, Bool.and_eq_true, decide_eq_true_eq] at h
  obtain ⟨hps, hst⟩ := h
  have hset : ∀ k, (s.setTop k).parseState ≠ [] := by intro k; simp [Scanner.setTop]
  revert hstop
  unfold Scanner.run
  split
  all_goals first
    | exact absurd (by assumption) hst
    | with_reducible exact endValue_inside _ _ hps
    | with_reducible exact beginValue_inside _ _ h0
    | with_reducible exact beginString_inside _ _ h0
    | (simp only [stateBeginValueOrEmpty, stateBeginStringOrEmpty, stateInString,
        stateInStringEsc, stateInStringEscHex, stateNeg, state1, state0, stateDot, stateDot0,
        stateE, stateESign, stateE0, stateLit]
       repeat' split
       all_goals first
        | with_reducible exact endValue_inside _ _ hps
        | with_reducible exact endValue_inside _ _ (hset _)
        | with_reducible exact beginValue_inside _ _ h0
        | with_reducible exact beginString_inside _ _ h0
        | simp [stops, Scanner.inside, hps, hst, Scanner.error])

theorem scanThrough_inside : ∀ (cs : List Char) (s t : Scanner), s.inside = true →
    scanThrough s cs = some t → t.inside = true := by
  intro cs
  induction cs with
  | nil =>
    intro s t hs h
    simp only [scanThrough, Option.some.injEq] at h
    rw [← h]
    exact hs
  | cons c cs ih =>
    intro s t hs h
    simp only [scanThrough] at h
    split at h
    · cases h
    · rename_i hstop
      exact ih _ t (inside_step s c hs (by simpa using hstop)) h

theorem scanThrough_step_ok : ∀ (cs : List Char) (s t : Scanner), s.step ≠ Step.stateError →
    scanThrough s cs = some t → t.step ≠ Step.stateError := by
  intro cs
  induction cs with
  | nil =>
    intro s t hs h
    simp only [scanThrough, Option.some.injEq] at h
    rw [← h]
    exact hs
  | cons c cs ih =>
    intro s t hs h
    simp only [scanThrough] at h
    split at h
    · cases h
    · rename_i hstop
      simp only [stops, Bool.or_eq_true, decide_eq_true_eq, Bool.and_eq_true, not_or] at hstop
      exact ih _ t ((stepOk_run s c hs).2 hstop.2.1 hstop.1) h

theorem readValueLoop_eof (buf : List Char) (hbuf : nonSpace buf = true) (cs : List Char)
    (s t : Scanner) (n : Nat) (h : scanThrough s cs = some t)
    (hend : (t.run ' ').2 ≠ Code.scanEnd) :
    readValueLoop buf s cs n = Except.error ErrUnexpectedEOF := by
  have := readValueLoop_through buf cs [] s t n h
  rw [List.append_nil] at this
  rw [this]
  simp [readValueLoop, hend, hbuf]

theorem readValueLoop_rejects (buf : List Char) (a : List Char) (c : Char) (rest : List Char)
    (s t : Scanner) (n : Nat) (hs : s.step ≠ Step.stateError) (h : scanThrough s a = some t)
    (herr : (t.run c).2 = Code.scanError) :
    ∃ ctx, readValueLoop buf s (a ++ c :: rest) n
      = Except.error ⟨"invalid character " ++ quoteChar c ++ " " ++ ctx⟩ := by
  have ht := scanThrough_step_ok a s t hs h
  obtain ⟨ctx, hctx⟩ := (stepOk_run t c ht).1 herr
  refine ⟨ctx, ?_⟩
  rw [readValueLoop_through buf a (c :: rest) s t n h]
  rcases hrun : t.run c with ⟨s1, code⟩
  rw [hrun] at herr hctx
  simp only at herr hctx
  subst herr
  simp only [readValueLoop, hrun, hctx, Option.getD_some]

theorem readValueLoop_le (buf : List Char) : ∀ (cs : List Char) (s : Scanner) (m n : Nat),
    readValueLoop buf s cs m = Except.ok n → n ≤ m + cs.length := by
  intro cs
  induction cs with
  | nil =>
    intro s m n h
    simp only [readValueLoop] at h
    split at h
    · cases h; simp
    · split at h <;> cases h
  | cons c cs ih =>
    intro s m n h
    simp only [readValueLoop] at h
    simp only [List.length_cons]
    split at h
    · cases h; omega
    · split at h
      · cases h; omega
      · have := ih _ _ _ h; omega
    · split at h
      · cases h; omega
      · have := ih _ _ _ h; omega
    · cases h
    · have := ih _ _ _ h; omega

/-- Before the place where `readValue` returns, the scanner has stopped nowhere. -/
theorem readValueLoop_before (buf : List Char) : ∀ (cs : List Char) (s : Scanner) (m n k : Nat),
    readValueLoop buf s cs m = Except.ok n → m + k < n →
    ∃ t, scanThrough s (cs.take k) = some t := by
  intro cs
  induction cs with
  | nil =>
    intro s m n k h hk
    exact ⟨s, by simp [scanThrough]⟩
  | cons c cs ih =>
    intro s m n k h hk
    cases k with
    | zero => exact ⟨s, by simp [scanThrough]⟩
    | succ k =>
      simp only [readValueLoop] at h
      simp only [List.take_succ_cons, scanThrough]
      rcases hrun : s.run c with ⟨s1, code⟩
      rw [hrun] at h
      cases code
      case scanEnd => simp only at h; cases h; omega
      case scanError => simp only at h; cases h
      case scanEndObject =>
        simp only at h
        split at h
        · cases h; omega
        · rename_i hne
          have hst : stops (s1, Code.scanEndObject) = false := by simp [stops, hne]
          rw [hst]
          exact ih s1 (m + 1) n k h (by omega)
      case scanEndArray =>
        simp only at h
        split at h
        · cases h; omega
        · rename_i hne
          have hst : stops (s1, Code.scanEndArray) = false := by simp [stops, hne]
          rw [hst]
          exact ih s1 (m + 1) n k h (by omega)
      all_goals
        (simp only at h
         rw [show stops (s1, _) = false from by simp [stops]]
         exact ih s1 (m + 1) n k h (by omega))

theorem run_reset_open (c : Char) (hc : c = '\x7b' ∨ c = '[') :
    stops (Scanner.reset.run c) = false ∧ (Scanner.reset.run c).1.inside = true := by
  rcases hc with hc | hc <;> subst hc <;> decide

/-- A body that breaks off inside an object or an array: it starts, after white
space, with an opening brace or bracket, and it is the first `k` characters of
a body whose first value takes more than `k` characters. -/
theorem readValue_cut_short (whole : List Char) (n k : Nat)
    (h : readValue whole = Except.ok n) (hk : k < n) (c : Char) (rest : List Char)
    (hopen : trimLeft (whole.take k) = c :: rest) (hc : c = '\x7b' ∨ c = '[') :
    readValue (whole.take k) = Except.error ErrUnexpectedEOF := by
  obtain ⟨t, ht⟩ := readValueLoop_before whole whole Scanner.reset 0 n k h (by omega)
  obtain ⟨ws, hbody, hws⟩ := trimLeft_split (whole.take k)
  rw [hopen] at hbody
  have hcsp : isSpace c = false := by rcases hc with hc | hc <;> subst hc <;> decide
  have hns : nonSpace (whole.take k) = true := by
    rw [hbody]
    simp [nonSpace, hcsp]
  have hopen2 := run_reset_open c hc
  have hrest : scanThrough (Scanner.reset.run c).1 rest = some t := by
    rw [hbody, scanThrough_append_of ws _ Scanner.reset Scanner.reset
      (scanThrough_spaces ws hws)] at ht
    simpa [scanThrough, hopen2.1] using ht
  have hin := scanThrough_inside rest _ t hopen2.2 hrest
  exact readValueLoop_eof _ hns _ Scanner.reset t 0 ht (inside_not_end t ' ' hin)

theorem inString_not_end (s : Scanner) (d : Char) : (stateInString s d).2 ≠ Code.scanEnd := by
  unfold stateInString Scanner.error
  repeat' split
  all_goals simp

theorem stops_error (s : Scanner) (c : Char) (ctx : String) : stops (s.error c ctx) = true := by
  simp [stops, Scanner.error]

/-- At top level a closing brace or bracket stops `readValue`, unless it is
inside a string. -/
theorem close_top (s : Scanner) (c : Char) (hc : c = '\x7d' ∨ c = ']')
    (hps : s.parseState = []) (hstop : stops (s.run c) = false) :
    s.step = Step.stateInString := by
  have hf : isSpace c = false ∧ c ≠ dquote ∧ c ≠ bslash ∧ ¬ c.toNat < 32 ∧ c ≠ '\x7b'
      ∧ c ≠ '[' ∧ c ≠ '-' ∧ c ≠ '0' ∧ c ≠ 't' ∧ c ≠ 'f' ∧ c ≠ 'n' ∧ isDigit19 c = false
      ∧ isDigit c = false ∧ isHex c = false ∧ c ≠ '.' ∧ c ≠ 'e' ∧ c ≠ 'E' ∧ c ≠ '+'
      ∧ c ≠ 'b' ∧ c ≠ 'r' ∧ c ≠ '/' ∧ c ≠ 'u' ∧ c ≠ 'a' ∧ c ≠ 'l' ∧ c ≠ 's' := by
    rcases hc with hc | hc <;> subst hc <;> decide
  obtain ⟨f1, f2, f3, f4, f5, f6, f7, f8, f9, f10, f11, f12, f13, f14, f15, f16, f17, f18,
    f19, f20, f21, f22, f23, f24, f25⟩ := hf
  have hev : ∀ t : Scanner, t.parseState = [] → stops (stateEndValue t c) = true := by
    intro t ht
    simp [stops, endValue_top t c ht]
  have hev2 : c = '\x7d' →
      stops (stateEndValue (s.setTop ParseKind.parseObjectValue) c) = true := by
    intro hcc
    subst hcc
    have hp : (s.setTop ParseKind.parseObjectValue).popParseState.parseState = [] := by
      simp [Scanner.popParseState, Scanner.setTop, hps]
    have he : stateEndValue (s.setTop ParseKind.parseObjectValue) '\x7d'
        = ((s.setTop ParseKind.parseObjectValue).popParseState, Code.scanEndObject) := by
      simp [stateEndValue, Scanner.setTop, f1]
    rw [he]
    simp [stops, endValue_top _ ' ' hp]
  have htop : stops (stateEndTop s c) = true := by simp [stops, stateEndTop_snd]
  by_contra hne
  revert hstop
  unfold Scanner.run
  split
  all_goals first
    | exact absurd (by assumption) hne
    | (rw [hev s hps]; simp)
    | (rw [htop]; simp)
    | (simp [stops, Scanner.error]; done)
    | (simp only [stateBeginValueOrEmpty, stateBeginStringOrEmpty, stateBeginString,
        stateBeginValue, stateInStringEsc, stateInStringEscHex, stateNeg, state1, state0,
        stateDot, stateDot0, stateE, stateESign, stateE0, stateLit]
       simp only [f1, f2, f3, f5, f6, f7, f8, f9, f10, f11, f12, f13, f14, f15, f16, f17, f18,
        f19, f20, f21, f22, f23, f24, f25, if_false, or_self, Bool.false_eq_true,
        stops_error, hev s hps]
       first
        | (simp; done)
        | (rcases hc with hc | hc
           · first
              | (simp [hc, hev2 hc, stops_error]; done)
              | (subst hc; first | (simp [stops_error, hev s hps]; done) | simp [hev2 rfl])
           · subst hc
             simp [stops_error, hev s hps]))

/-- After a closing brace or bracket at which `readValue` does not stop, the
next character does not end the top-level value either. -/
theorem after_close_not_end (s : Scanner) (c d : Char) (hc : c = '\x7d' ∨ c = ']')
    (hstop : stops (s.run c) = false) : ((s.run c).1.run d).2 ≠ Code.scanEnd := by
  by_cases hin : s.inside = true
  · exact inside_not_end _ d (inside_step s c hin hstop)
  · simp only [Scanner.inside, Bool.and_eq_true, decide_eq_true_eq, not_and, not_not] at hin
    by_cases hps : s.parseState = []
    · have hst := close_top s c hc hps hstop
      have hf : c ≠ dquote ∧ c ≠ bslash ∧ ¬ c.toNat < 32 := by
        rcases hc with hc | hc <;> subst hc <;> decide
      have hrun : s.run c = (s, Code.scanContinue) := by
        simp [Scanner.run, hst, stateInString, hf.1, hf.2.1, hf.2.2]
      rw [hrun]
      simp only [Scanner.run, hst]
      exact inString_not_end s d
    · have := hin hps
      revert hstop
      unfold Scanner.run
      rw [this]
      simp [stops, stateEndTop_snd]

/-- What follows the closing brace or bracket of the first value has no part
in where `readValue` stops. -/
theorem readValueLoop_closed (buf buf2 : List Char) :
    ∀ (cs : List Char) (s : Scanner) (m n : Nat) (c : Char) (tail : List Char),
      readValueLoop buf s cs m = Except.ok n →
      (cs.take (n - m)).getLast? = some c → (c = '\x7d' ∨ c = ']') →
      readValueLoop buf2 s (cs.take (n - m) ++ tail) m = Except.ok n := by
  intro cs
  induction cs with
  | nil =>
    intro s m n c tail _ hlast _
    simp at hlast
  | cons a cs ih =>
    intro s m n c tail h hlast hc
    have hmn := readValueLoop_mono buf _ _ _ _ h
    rcases Nat.eq_or_lt_of_le hmn with heq | hlt
    · subst heq
      simp at hlast
    · obtain ⟨j, hj⟩ : ∃ j, n - m = j + 1 := ⟨n - m - 1, by omega⟩
      rw [hj] at hlast ⊢
      simp only [List.take_succ_cons, List.cons_append] at hlast ⊢
      simp only [readValueLoop] at h ⊢
      rcases hrun : s.run a with ⟨s1, code⟩
      rw [hrun] at h
      have key : ∀ (hcont : readValueLoop buf s1 cs (m + 1) = Except.ok n)
          (hns : stops (s.run a) = false),
          readValueLoop buf2 s1 (List.take j cs ++ tail) (m + 1) = Except.ok n := by
        intro hcont hns
        have hj2 : j = n - (m + 1) := by omega
        rcases Nat.eq_zero_or_pos j with hz | hpos
        · exfalso
          subst hz
          have hn : n = m + 1 := by omega
          subst hn
          simp only [List.take_zero, List.getLast?_singleton, Option.some.injEq] at hlast
          subst hlast
          cases cs with
          | nil =>
            simp only [readValueLoop] at hcont
            split at hcont
            · rename_i hend
              have := after_close_not_end s a ' ' hc hns
              rw [hrun] at this
              exact this hend
            · split at hcont <;> cases hcont
          | cons d ds =>
            have hne := after_close_not_end s a d hc hns
            rw [hrun] at hne
            simp only at hne
            simp only [readValueLoop] at hcont
            rcases hrun2 : s1.run d with ⟨s2, code2⟩
            rw [hrun2] at hcont hne
            simp only at hne
            cases code2
            case scanEnd => exact hne rfl
            case scanError => simp only at hcont; cases hcont
            case scanEndObject =>
              simp only at hcont
              split at hcont
              · cases hcont
              · have := readValueLoop_mono buf _ _ _ _ hcont; omega
            case scanEndArray =>
              simp only at hcont
              split at hcont
              · cases hcont
              · have := readValueLoop_mono buf _ _ _ _ hcont; omega
            all_goals
              (simp only at hcont
               have := readValueLoop_mono buf _ _ _ _ hcont
               omega)
        · rw [hj2]
          refine ih s1 (m + 1) n c tail hcont ?_ hc
          rw [← hj2]
          have hne : List.take j cs ≠ [] := by
            intro hnil
            have hl := readValueLoop_le buf _ _ _ _ hcont
            have : (List.take j cs).length = j := by
              rw [List.length_take]; omega
            rw [hnil] at this
            simp at this
            omega
          rcases hl : List.take j cs with _ | ⟨x, xs⟩
          · exact absurd hl hne
          · rw [hl, List.getLast?_cons_cons] at hlast
            exact hlast
      cases code
      case scanEnd => simp only at h; cases h; omega
      case scanError => simp only at h; cases h
      case scanEndObject =>
        simp only at h ⊢
        split at h
        · rename_i hend
          rw [if_pos hend]
          exact h
        · rename_i hend
          rw [if_neg hend]
          exact key h (by rw [hrun]; simp [stops, hend])
      case scanEndArray =>
        simp only at h ⊢
        split at h
        · rename_i hend
          rw [if_pos hend]
          exact h
        · rename_i hend
          rw [if_neg hend]
          exact key h (by rw [hrun]; simp [stops, hend])
      all_goals
        (simp only at h ⊢
         exact key h (by rw [hrun]; simp [stops]))

theorem decodeVolume_closed (tu : TimeUnmarshaler) (body : List Char) (n : Nat) (c : Char)
    (tail : List Char) (h : readValue body = Except.ok n)
    (hlast : (body.take n).getLast? = some c) (hc : c = '\x7d' ∨ c = ']') :
    decodeVolume tu (body.take n ++ tail) = decodeVolume tu body := by
  have hle : n ≤ body.length := by
    have := readValueLoop_le body body Scanner.reset 0 n h
    omega
  have h2 : readValue (body.take n ++ tail) = Except.ok n := by
    have := readValueLoop_closed body (body.take n ++ tail) body Scanner.reset 0 n c tail h
      (by simpa using hlast) hc
    simpa [readValue] using this
  have ht : (body.take n ++ tail).take n = body.take n := by
    rw [List.take_append_of_le_length (by rw [List.length_take]; omega)]
    rw [List.take_take, Nat.min_self]
  simp only [decodeVolume, Decode, h, h2, ht]

/-! ## Lemmas on UTF-8 -/

theorem byte_val (n : Nat) (h : n < 256) : (byte n).val = n := by
  simp [byte, Nat.mod_eq_of_lt h]

theorem char_range (c : Char) :
    c.toNat < 55296 ∨ (57343 < c.toNat ∧ c.toNat < 1114112) := by
  have := c.valid
  simp only [UInt32.isValidChar, Nat.isValidChar] at this
  exact this

theorem decode_utf8Encode (c : Char) (rest : List (Fin 256)) :
    DecodeRuneInString (utf8Encode c ++ rest) = (c, (utf8Encode c).length) := by
  have hr := char_range c
  have hof : ∀ n, n = c.toNat → Char.ofNat n = c := by
    intro n hn
    rw [hn]
    exact Char.ofNat_toNat c
  unfold utf8Encode
  split
  · rename_i h1
    simp only [List.singleton_append, DecodeRuneInString, byte_val _ (by omega : c.toNat < 256),
      h1, if_true, List.length_singleton]
    rw [hof _ rfl]
  · split
    · rename_i h1 h2
      have hb0 : (byte (192 + c.toNat / 64)).val = 192 + c.toNat / 64 := byte_val _ (by omega)
      have hb1 : (byte (128 + c.toNat % 64)).val = 128 + c.toNat % 64 := byte_val _ (by omega)
      have hfb : firstByte (192 + c.toNat / 64) = some (2, 128, 191) := by
        simp only [firstByte]
        rw [if_pos (by omega)]
      simp only [List.cons_append, List.nil_append, DecodeRuneInString, hb0, hb1, hfb]
      rw [if_neg (by omega), if_neg (by omega), if_pos (by omega)]
      rw [hof _ (by omega)]
      rfl
    · split
      · rename_i h1 h2 h3
        have hb0 : (byte (224 + c.toNat / 4096)).val = 224 + c.toNat / 4096 :=
          byte_val _ (by omega)
        have hb1 : (byte (128 + c.toNat / 64 % 64)).val = 128 + c.toNat / 64 % 64 :=
          byte_val _ (by omega)
        have hb2 : (byte (128 + c.toNat % 64)).val = 128 + c.toNat % 64 := byte_val _ (by omega)
        obtain ⟨lo, hi, hfb, hlo, hhi⟩ : ∃ lo hi, firstByte (224 + c.toNat / 4096)
            = some (3, lo, hi) ∧ lo ≤ 128 + c.toNat / 64 % 64 ∧ 128 + c.toNat / 64 % 64 ≤ hi := by
          simp only [firstByte]
          by_cases e0 : c.toNat / 4096 = 0
          · refine ⟨160, 191, ?_, by omega, by omega⟩
            rw [if_neg (by omega), if_pos (by omega)]
          · by_cases e13 : c.toNat / 4096 = 13
            · refine ⟨128, 159, ?_, by omega, by omega⟩
              rw [if_neg (by omega), if_neg (by omega), if_neg (by omega), if_pos (by omega)]
            · refine ⟨128, 191, ?_, by omega, by omega⟩
              rw [if_neg (by omega), if_neg (by omega), if_pos (by omega)]
        simp only [List.cons_append, List.nil_append, DecodeRuneInString, hb0, hb1, hb2, hfb]
        rw [if_neg (by omega), if_neg (by omega), if_neg (by omega), if_neg (by omega),
          if_pos (by omega)]
        rw [hof _ (by omega)]
        rfl
      · rename_i h1 h2 h3
        have hb0 : (byte (240 + c.toNat / 262144)).val = 240 + c.toNat / 262144 :=
          byte_val _ (by omega)
        have hb1 : (byte (128 + c.toNat / 4096 % 64)).val = 128 + c.toNat / 4096 % 64 :=
          byte_val _ (by omega)
        have hb2 : (byte (128 + c.toNat / 64 % 64)).val = 128 + c.toNat / 64 % 64 :=
          byte_val _ (by omega)
        have hb3 : (byte (128 + c.toNat % 64)).val = 128 + c.toNat % 64 := byte_val _ (by omega)
        obtain ⟨lo, hi, hfb, hlo, hhi⟩ : ∃ lo hi, firstByte (240 + c.toNat / 262144)
            = some (4, lo, hi) ∧ lo ≤ 128 + c.toNat / 4096 % 64
              ∧ 128 + c.toNat / 4096 % 64 ≤ hi := by
          simp only [firstByte]
          by_cases e0 : c.toNat / 262144 = 0
          · refine ⟨144, 191, ?_, by omega, by omega⟩
            rw [if_neg (by omega), if_neg (by omega), if_neg (by omega), if_neg (by omega),
              if_pos (by omega)]
          · by_cases e4 : c.toNat / 262144 = 4
            · refine ⟨128, 143, ?_, by omega, by omega⟩
              rw [if_neg (by omega), if_neg (by omega), if_neg (by omega), if_neg (by omega),
                if_neg (by omega), if_neg (by omega), if_pos (by omega)]
            · refine ⟨128, 191, ?_, by omega, by omega⟩
              rw [if_neg (by omega), if_neg (by omega), if_neg (by omega), if_neg (by omega),
                if_neg (by omega), if_pos (by omega)]
        simp only [List.cons_append, List.nil_append, DecodeRuneInString, hb0, hb1, hb2, hb3, hfb]
        rw [if_neg (by omega), if_neg (by omega), if_neg (by omega), if_neg (by omega),
          if_neg (by omega), if_neg (by omega)]
        rw [hof _ (by omega)]
        rfl

theorem escapeBytes_skip : ∀ (pre rest : List (Fin 256)),
    escapeBytes pre.length (pre ++ rest) = escapeBytes 0 rest := by
  intro pre
  induction pre with
  | nil => intro rest; rfl
  | cons b bs ih =>
    intro rest
    simp only [List.length_cons, List.cons_append, escapeBytes]
    exact ih rest

theorem utf8Encode_shape (c : Char) (h : ¬ c.toNat < 128) :
    ∃ b more, utf8Encode c = b :: more ∧ ¬ b.val < 128 ∧ more ≠ [] := by
  have hr := char_range c
  unfold utf8Encode
  rw [if_neg h]
  split
  · exact ⟨_, _, rfl, by rw [byte_val _ (by omega)]; omega, by simp⟩
  · split
    · exact ⟨_, _, rfl, by rw [byte_val _ (by omega)]; omega, by simp⟩
    · exact ⟨_, _, rfl, by rw [byte_val _ (by omega)]; omega, by simp⟩

theorem escapeBytes_utf8Encode (c : Char) (rest : List (Fin 256)) :
    escapeBytes 0 (utf8Encode c ++ rest) = escapeOne c ++ escapeBytes 0 rest := by
  by_cases h : c.toNat < 128
  · have he : utf8Encode c = [byte c.toNat] := by simp [utf8Encode, h]
    rw [he]
    simp only [List.singleton_append, escapeBytes, byte_val _ (by omega : c.toNat < 256), h,
      if_true, Char.ofNat_toNat]
    rfl
  · obtain ⟨b, more, he, hb, hm⟩ := utf8Encode_shape c h
    have hd := decode_utf8Encode c rest
    rw [he] at hd ⊢
    simp only [List.cons_append] at hd ⊢
    have hlen : (b :: more).length - 1 = more.length := by simp
    have h2 : ¬ ((b :: more).length = 1) := by
      cases more with
      | nil => exact absurd rfl hm
      | cons x xs => simp
    simp only [escapeBytes, hb, if_false, hd, h2, and_false, hlen]
    rw [escapeBytes_skip]

theorem escapeBytes_ofString (s : List Char) :
    escapeBytes 0 (s.flatMap utf8Encode) = s.flatMap escapeOne := by
  induction s with
  | nil => rfl
  | cons c cs ih =>
    simp only [List.flatMap_cons]
    rw [escapeBytes_utf8Encode, ih]

theorem encodeGoString_ofString (s : String) :
    encodeGoString (GoString.ofString s) = encodeString s := by
  simp only [encodeGoString, GoString.ofString, escapeBytes_ofString, encodeString]

theorem encodeGoStrings_ofString (xs : Option (List String)) :
    encodeGoStrings (xs.map (fun l => l.map GoString.ofString)) = encodeStrings xs := by
  cases xs with
  | none => rfl
  | some l =>
    simp only [Option.map_some', encodeGoStrings, encodeStrings, List.map_map]
    congr 3
    apply List.map_congr_left
    intro x _
    exact encodeGoString_ofString x

theorem ofString_bytes_nil (s : String) :
    (GoString.ofString s).bytes = [] ↔ s = "" := by
  cases s with
  | mk d =>
    cases d with
    | nil => simp [GoString.ofString]
    | cons c cs =>
      simp only [GoString.ofString, List.flatMap_cons, List.append_eq_nil, String.ext_iff]
      constructor
      · intro h
        exfalso
        have := h.1
        unfold utf8Encode at this
        split at this
        · cases this
        · split at this
          · cases this
          · split at this <;> cases this
      · intro h
        simp at h

theorem valid_list (l : List GoString) (h : ∀ g ∈ l, g.valid) :
    ∃ ss : List String, l = ss.map GoString.ofString := by
  induction l with
  | nil => exact ⟨[], rfl⟩
  | cons g gs ih =>
    obtain ⟨s, hs⟩ := h g (by simp)
    obtain ⟨ss, hss⟩ := ih (fun x hx => h x (by simp [hx]))
    exact ⟨s :: ss, by simp [hs, hss]⟩

/-! ## Lemmas on `CreateVolumeInput` -/

theorem valid_networks (nets : Option (List GoString))
    (h : ∀ l, nets = some l → ∀ g ∈ l, g.valid) :
    ∃ xs : Option (List String), nets = xs.map (fun l => l.map GoString.ofString) := by
  cases nets with
  | none => exact ⟨none, rfl⟩
  | some l =>
    obtain ⟨ss, hss⟩ := valid_list l (h l rfl)
    exact ⟨some ss, by rw [hss]; rfl⟩

theorem string_length_zero (s : String) : (s.length = 0) ↔ s = "" := by
  cases s with
  | mk d => cases d <;> simp [String.ext_iff, String.length]

theorem createVolumeInput_members_wire (n : String) (size : Int) (t : String)
    (nets : Option (List String)) :
    CreateVolumeInput.members ⟨GoString.ofString n, size, GoString.ofString t,
        nets.map (fun l => l.map GoString.ofString)⟩
      = wireMembers createVolumeInputType (createVolumeWire n size t nets) := by
  have hb : (GoString.ofString n).bytes.length = 0 ↔ n.length = 0 := by
    rw [List.length_eq_zero, ofString_bytes_nil, string_length_zero]
  by_cases h1 : n.length = 0 <;> by_cases h2 : size = 0 <;>
    simp [CreateVolumeInput.members, createVolumeWire, omitEmpty, wireMembers, h1, h2, hb,
      StructType.keyAt, createVolumeInputType, Wire.text, encodeGoString_ofString,
      encodeGoStrings_ofString]

theorem createVolumeWire_wellTyped (tu : TimeUnmarshaler) (n : String) (size : Int)
    (t : String) (nets : Option (List String))
    (hlo : -9223372036854775808 ≤ size) (hhi : size ≤ 9223372036854775807) :
    WellTyped tu createVolumeInputType (createVolumeWire n size t nets) := by
  by_cases h1 : n.length = 0 <;> by_cases h2 : size = 0 <;>
    simp [WellTyped, createVolumeWire, h1, h2, Wire.fits, StructType.kindAt,
      createVolumeInputType, hlo, hhi]

theorem createVolumeInput_ofValues_wire (tu : TimeUnmarshaler) (n : String) (size : Int)
    (t : String) (nets : Option (List String)) :
    CreateVolumeInput.ofValues
        (storeWire tu createVolumeInputType.zero (createVolumeWire n size t nets))
      = ⟨GoString.ofString n, size, GoString.ofString t,
          nets.map (fun l => l.map GoString.ofString)⟩ := by
  by_cases h1 : n.length = 0 <;> by_cases h2 : size = 0 <;>
    simp [CreateVolumeInput.ofValues, createVolumeWire, storeWire, StructType.zero,
      createVolumeInputType, Kind.zero, Wire.stored, Value.asString, Value.asInt,
      Value.asStrings, h1, h2, (string_length_zero n).1]

/-! ## Lemmas on JSON texts: string and number literals -/

theorem nonSpace_cons (c : Char) (cs : List Char) :
    nonSpace (c :: cs) = false ↔ isSpace c = true ∧ nonSpace cs = false := by
  simp [nonSpace]

theorem nonSpace_append (a b : List Char) :
    nonSpace (a ++ b) = false ↔ nonSpace a = false ∧ nonSpace b = false := by
  induction a with
  | nil => simp [nonSpace]
  | cons c cs ih =>
    rw [List.cons_append, nonSpace_cons, nonSpace_cons, ih, and_assoc]

theorem scanThrough_strPiece (ps : List ParseKind) (l : List Char) (h : StrPiece l) :
    scanThrough (scannerAt Step.stateInString ps) l = some (scannerAt Step.stateInString ps) := by
  cases h with
  | plain c h1 h2 h3 =>
    have h3' : ¬ c.toNat < 32 := by omega
    simp [scanThrough, stops, Scanner.run, scannerAt, stateInString, h1, h2, h3']
  | short e he =>
    have r1 : (scannerAt Step.stateInString ps).run bslash
        = (scannerAt Step.stateInStringEsc ps, Code.scanContinue) := by
      have hb : bslash ≠ dquote := by decide
      simp [Scanner.run, scannerAt, stateInString, hb]
    have r2 : (scannerAt Step.stateInStringEsc ps).run e
        = (scannerAt Step.stateInString ps, Code.scanContinue) := by
      simp only [Scanner.run, scannerAt, stateInStringEsc]
      rw [if_pos he]
    simp [scanThrough, stops, r1, r2]
  | long p q r t hp hq hr ht =>
    have r1 : (scannerAt Step.stateInString ps).run bslash
        = (scannerAt Step.stateInStringEsc ps, Code.scanContinue) := by
      have hb : bslash ≠ dquote := by decide
      simp [Scanner.run, scannerAt, stateInString, hb]
    have r2 : (scannerAt Step.stateInStringEsc ps).run 'u'
        = (scannerAt Step.stateInStringEscU ps, Code.scanContinue) := by
      have hu : ¬ ('u' = 'b' ∨ 'u' = 'f' ∨ 'u' = 'n' ∨ 'u' = 'r' ∨ 'u' = 't' ∨ 'u' = bslash
          ∨ 'u' = '/' ∨ 'u' = dquote) := by decide
      simp only [Scanner.run, scannerAt, stateInStringEsc]
      rw [if_neg hu]
      simp
    have r3 : (scannerAt Step.stateInStringEscU ps).run p
        = (scannerAt Step.stateInStringEscU1 ps, Code.scanContinue) := by
      simp [Scanner.run, scannerAt, stateInStringEscHex, hp]
    have r4 : (scannerAt Step.stateInStringEscU1 ps).run q
        = (scannerAt Step.stateInStringEscU12 ps, Code.scanContinue) := by
      simp [Scanner.run, scannerAt, stateInStringEscHex, hq]
    have r5 : (scannerAt Step.stateInStringEscU12 ps).run r
        = (scannerAt Step.stateInStringEscU123 ps, Code.scanContinue) := by
      simp [Scanner.run, scannerAt, stateInStringEscHex, hr]
    have r6 : (scannerAt Step.stateInStringEscU123 ps).run t
        = (scannerAt Step.stateInString ps, Code.scanContinue) := by
      simp [Scanner.run, scannerAt, stateInStringEscHex, ht]
    simp [scanThrough, stops, r1, r2, r3, r4, r5, r6]

theorem scanThrough_strRaw (ps : List ParseKind) (raw : List Char) (h : StrRaw raw) :
    scanThrough (scannerAt Step.stateInString ps) raw
      = some (scannerAt Step.stateInString ps) := by
  induction h with
  | nil => rfl
  | cons p rest hp _ ih => rw [scanThrough_append_of _ _ _ _ (scanThrough_strPiece ps p hp), ih]

/-- A string literal, read from any step at which a string may begin. -/
theorem scanThrough_literal (st : Step) (ps : List ParseKind) (raw : List Char)
    (h : StrRaw raw)
    (hst : st = Step.stateBeginValue ∨ st = Step.stateBeginString
      ∨ st = Step.stateBeginStringOrEmpty ∨ st = Step.stateBeginValueOrEmpty) :
    scanThrough (scannerAt st ps) (dquote :: (raw ++ [dquote]))
      = some (scannerAt Step.stateEndValue ps) := by
  have hopen : (scannerAt st ps).run dquote
      = (scannerAt Step.stateInString ps, Code.scanBeginLiteral) := by
    have h1 : isSpace dquote = false := by decide
    have h2 : dquote ≠ '\x7b' ∧ dquote ≠ '[' ∧ dquote ≠ '\x7d' ∧ dquote ≠ ']' := by decide
    rcases hst with h | h | h | h <;> subst h <;>
      simp [Scanner.run, scannerAt, stateBeginValue, stateBeginString, stateBeginStringOrEmpty,
        stateBeginValueOrEmpty, h1, h2]
  have hclose : scanThrough (scannerAt Step.stateInString ps) [dquote]
      = some (scannerAt Step.stateEndValue ps) := by
    simp [scanThrough, stops, Scanner.run, scannerAt, stateInString]
  simp only [scanThrough, hopen]
  rw [if_neg (by simp [stops])]
  rw [scanThrough_append_of _ _ _ _ (scanThrough_strRaw ps raw h), hclose]

theorem splitItems_strPiece (d : Nat) (l rest : List Char) (h : StrPiece l) :
    splitItems d true false (l ++ rest) = l.foldr consFirst (splitItems d true false rest) := by
  have plain : ∀ (x : Char) (xs : List Char), x ≠ bslash → x ≠ dquote →
      splitItems d true false (x :: xs) = consFirst x (splitItems d true false xs) := by
    intro x xs h1 h2
    simp [splitItems, h1, h2]
  have esc : ∀ (x : Char) (xs : List Char),
      splitItems d true false (bslash :: x :: xs)
        = consFirst bslash (consFirst x (splitItems d true false xs)) := by
    intro x xs
    simp [splitItems]
  cases h with
  | plain c h1 h2 h3 => simp [plain c rest h1 h2]
  | short e he => simp [esc]
  | long p q r t hp hq hr ht =>
    simp only [List.cons_append, List.nil_append, List.foldr_cons, List.foldr_nil]
    rw [esc, plain p _ (isHex_plain p hp).1 (isHex_plain p hp).2,
      plain q _ (isHex_plain q hq).1 (isHex_plain q hq).2,
      plain r _ (isHex_plain r hr).1 (isHex_plain r hr).2,
      plain t _ (isHex_plain t ht).1 (isHex_plain t ht).2]

theorem splitItems_strRaw (d : Nat) (raw rest : List Char) (h : StrRaw raw) :
    splitItems d true false (raw ++ rest)
      = raw.foldr consFirst (splitItems d true false rest) := by
  induction h with
  | nil => rfl
  | cons p more hp _ ih =>
    rw [List.append_assoc, splitItems_strPiece d p _ hp, ih, List.foldr_append]

theorem inert_literal (raw : List Char) (h : StrRaw raw) :
    Inert (dquote :: (raw ++ [dquote])) := by
  intro d rest
  have hopen : ∀ xs, splitItems d false false (dquote :: xs)
      = consFirst dquote (splitItems d true false xs) := by
    intro xs
    simp [splitItems]
  have hclose : ∀ xs, splitItems d true false (dquote :: xs)
      = consFirst dquote (splitItems d false false xs) := by
    intro xs
    have hb : dquote ≠ bslash := by decide
    simp [splitItems, hb]
  simp only [List.cons_append, List.append_assoc, List.foldr_cons,
    List.foldr_append, List.foldr_nil, List.nil_append]
  rw [hopen, splitItems_strRaw d raw _ h, hclose]

theorem spanString_strPiece (l rest : List Char) (h : StrPiece l) :
    spanString false (l ++ rest)
      = (l ++ (spanString false rest).1, (spanString false rest).2) := by
  have plain : ∀ (x : Char) (xs : List Char), x ≠ bslash → x ≠ dquote →
      spanString false (x :: xs)
        = (x :: (spanString false xs).1, (spanString false xs).2) := by
    intro x xs h1 h2
    simp [spanString, h1, h2]
  have esc : ∀ (x : Char) (xs : List Char),
      spanString false (bslash :: x :: xs)
        = (bslash :: x :: (spanString false xs).1, (spanString false xs).2) := by
    intro x xs
    simp [spanString]
  cases h with
  | plain c h1 h2 h3 => simp [plain c rest h1 h2]
  | short e he => simp [esc]
  | long p q r t hp hq hr ht =>
    simp only [List.cons_append, List.nil_append]
    rw [esc, plain p _ (isHex_plain p hp).1 (isHex_plain p hp).2,
      plain q _ (isHex_plain q hq).1 (isHex_plain q hq).2,
      plain r _ (isHex_plain r hr).1 (isHex_plain r hr).2,
      plain t _ (isHex_plain t ht).1 (isHex_plain t ht).2]

theorem spanString_strRaw (raw rest : List Char) (h : StrRaw raw) :
    spanString false (raw ++ dquote :: rest) = (raw, rest) := by
  induction h with
  | nil =>
    have hb : dquote ≠ bslash := by decide
    simp [spanString, hb]
  | cons p more hp _ ih =>
    rw [List.append_assoc, spanString_strPiece p _ hp, ih]

/-- A text without quote, backslash or control character is the raw text of a
string literal. -/
theorem strRaw_plain (raw : List Char)
    (h : raw.all (fun c => decide (c ≠ bslash ∧ c ≠ dquote ∧ 32 ≤ c.toNat)) = true) :
    StrRaw raw := by
  induction raw with
  | nil => exact StrRaw.nil
  | cons c cs ih =>
    simp only [List.all_cons, Bool.and_eq_true, decide_eq_true_eq] at h
    exact StrRaw.cons [c] cs (StrPiece.plain c h.1.1 h.1.2.1 h.1.2.2) (ih h.2)

theorem unquoteUnits_plain (raw : List Char)
    (h : raw.all (fun c => decide (c ≠ bslash ∧ c ≠ dquote ∧ 32 ≤ c.toNat)) = true) :
    unquoteUnits raw = raw.map StrUnit.rune := by
  induction raw with
  | nil => rw [unquoteUnits.eq_def]; rfl
  | cons c cs ih =>
    simp only [List.all_cons, Bool.and_eq_true, decide_eq_true_eq] at h
    rw [unquoteUnits.eq_def]
    simp [h.1.1, ih h.2]

/-- The unquoted text of a string literal without escapes is its raw text. -/
theorem unquote_plain (raw : List Char)
    (h : raw.all (fun c => decide (c ≠ bslash ∧ c ≠ dquote ∧ 32 ≤ c.toNat)) = true) :
    unquote raw = String.mk raw := by
  have hj : ∀ l : List Char, joinUnits (l.map StrUnit.rune) = l := by
    intro l
    induction l with
    | nil => rfl
    | cons c cs ih => simp [joinUnits, ih]
  simp only [unquote, unquoteUnits_plain raw h, hj]

theorem isDigit_more (c : Char) (h : isDigit c = true) : c ≠ '+' ∧ c ≠ bslash := by
  constructor <;> (intro hc; subst hc; revert h; decide)

theorem scanThrough_digits_at (st : Step) (ps : List ParseKind)
    (hst : st = Step.state1 ∨ st = Step.stateDot0 ∨ st = Step.stateE0)
    (l : List Char) (h : l.all isDigit = true) :
    scanThrough (scannerAt st ps) l = some (scannerAt st ps) := by
  induction l with
  | nil => simp [scanThrough]
  | cons c cs ih =>
    simp only [List.all_cons, Bool.and_eq_true] at h
    have hrun : (scannerAt st ps).run c = (scannerAt st ps, Code.scanContinue) := by
      rcases hst with hs | hs | hs <;> subst hs <;>
        simp [Scanner.run, scannerAt, state1, stateDot0, stateE0, h.1]
    simp only [scanThrough, hrun]
    rw [if_neg (by simp [stops])]
    exact ih h.2

theorem scan_cons (s s1 : Scanner) (c : Char) (cs : List Char) (code : Code)
    (hrun : s.run c = (s1, code))
    (hcode : code = Code.scanContinue ∨ code = Code.scanBeginLiteral) :
    scanThrough s (c :: cs) = scanThrough s1 cs := by
  simp only [scanThrough, hrun]
  rw [if_neg]
  rcases hcode with h | h <;> subst h <;> simp [stops]

/-- The exponent of a number literal, read after its integer part or fraction. -/
theorem scanThrough_exp (st : Step) (ps : List ParseKind)
    (hst : st = Step.state0 ∨ st = Step.state1 ∨ st = Step.stateDot0)
    (e : Char) (sg : List Char) (c : Char) (cs : List Char) (he : e = 'e' ∨ e = 'E')
    (hsg : sg = [] ∨ sg = ['+'] ∨ sg = ['-']) (hc : isDigit c = true)
    (hcs : cs.all isDigit = true) :
    scanThrough (scannerAt st ps) (e :: (sg ++ c :: cs)) = some (scannerAt Step.stateE0 ps) := by
  have hed : isDigit e = false ∧ e ≠ '.' := by
    rcases he with h | h <;> subst h <;> decide
  have r1 : (scannerAt st ps).run e = (scannerAt Step.stateE ps, Code.scanContinue) := by
    rcases hst with hs | hs | hs <;> subst hs <;>
      simp [Scanner.run, scannerAt, state0, state1, stateDot0, hed.1, hed.2, he]
  obtain ⟨f1, f2, f3, f4, f5, _⟩ := isDigit_facts c hc
  have f6 := (isDigit_more c hc).1
  have r3 : (scannerAt Step.stateESign ps).run c
      = (scannerAt Step.stateE0 ps, Code.scanContinue) := by
    simp [Scanner.run, scannerAt, stateESign, hc]
  have r3' : (scannerAt Step.stateE ps).run c
      = (scannerAt Step.stateE0 ps, Code.scanContinue) := by
    simp [Scanner.run, scannerAt, stateE, stateESign, hc, f5, f6]
  have hrest := scanThrough_digits_at Step.stateE0 ps (Or.inr (Or.inr rfl)) cs hcs
  rw [scan_cons _ _ e _ _ r1 (Or.inl rfl)]
  rcases hsg with h | h | h <;> subst h
  · rw [List.nil_append, scan_cons _ _ c _ _ r3' (Or.inl rfl), hrest]
  · have r2 : (scannerAt Step.stateE ps).run '+'
        = (scannerAt Step.stateESign ps, Code.scanContinue) := by
      simp [Scanner.run, scannerAt, stateE]
    rw [List.singleton_append, scan_cons _ _ '+' _ _ r2 (Or.inl rfl),
      scan_cons _ _ c _ _ r3 (Or.inl rfl), hrest]
  · have r2 : (scannerAt Step.stateE ps).run '-'
        = (scannerAt Step.stateESign ps, Code.scanContinue) := by
      simp [Scanner.run, scannerAt, stateE]
    rw [List.singleton_append, scan_cons _ _ '-' _ _ r2 (Or.inl rfl),
      scan_cons _ _ c _ _ r3 (Or.inl rfl), hrest]

/-- Fraction and exponent of a number literal, read after its integer part. -/
theorem scanThrough_frac_exp (st : Step) (ps : List ParseKind)
    (hst : st = Step.state0 ∨ st = Step.state1) (frac exp : List Char)
    (hfrac : frac = [] ∨ ∃ c cs, frac = '.' :: c :: cs ∧ isDigit c = true
      ∧ cs.all isDigit = true)
    (hexp : exp = [] ∨ ∃ e sg c cs, exp = e :: (sg ++ c :: cs) ∧ (e = 'e' ∨ e = 'E')
        ∧ (sg = [] ∨ sg = ['+'] ∨ sg = ['-']) ∧ isDigit c = true ∧ cs.all isDigit = true) :
    ∃ st1, ValueDone st1 ∧
      scanThrough (scannerAt st ps) (frac ++ exp) = some (scannerAt st1 ps) := by
  have hdone : ValueDone st := by
    rcases hst with h | h <;> subst h
    · exact Or.inl (Or.inr (Or.inl rfl))
    · exact Or.inl (Or.inr (Or.inr rfl))
  rcases hfrac with hf | ⟨c, cs, hf, hc, hcs⟩
  · subst hf
    rcases hexp with he | ⟨e, sg, c, cs, he, h1, h2, h3, h4⟩
    · subst he
      exact ⟨st, hdone, rfl⟩
    · subst he
      refine ⟨Step.stateE0, Or.inr (Or.inr rfl), ?_⟩
      rw [List.nil_append]
      exact scanThrough_exp st ps (by rcases hst with h | h <;> simp [h]) e sg c cs h1 h2 h3 h4
  · subst hf
    have hdot : isDigit '.' = false ∧ '.' ≠ 'e' ∧ '.' ≠ 'E' := by decide
    have r1 : (scannerAt st ps).run '.' = (scannerAt Step.stateDot ps, Code.scanContinue) := by
      rcases hst with hs | hs <;> subst hs <;>
        simp [Scanner.run, scannerAt, state0, state1, hdot]
    have r2 : (scannerAt Step.stateDot ps).run c
        = (scannerAt Step.stateDot0 ps, Code.scanContinue) := by
      simp [Scanner.run, scannerAt, stateDot, hc]
    have hrest := scanThrough_digits_at Step.stateDot0 ps (Or.inr (Or.inl rfl)) cs hcs
    have hfr : scanThrough (scannerAt st ps) ('.' :: c :: cs)
        = some (scannerAt Step.stateDot0 ps) := by
      rw [scan_cons _ _ '.' _ _ r1 (Or.inl rfl), scan_cons _ _ c _ _ r2 (Or.inl rfl), hrest]
    rcases hexp with he | ⟨e, sg, c2, cs2, he, h1, h2, h3, h4⟩
    · subst he
      exact ⟨Step.stateDot0, Or.inr (Or.inl rfl), by rw [List.append_nil]; exact hfr⟩
    · subst he
      refine ⟨Step.stateE0, Or.inr (Or.inr rfl), ?_⟩
      rw [scanThrough_append_of _ _ _ _ hfr]
      exact scanThrough_exp Step.stateDot0 ps (Or.inr (Or.inr rfl)) e sg c2 cs2 h1 h2 h3 h4

theorem scansAt_number (d : Nat) (l : List Char) (h : NumberLit l) : ScansAt d l := by
  intro ps _ _
  obtain ⟨sign, int, frac, exp, hl, hsign, hint, hfrac, hexp⟩ := h
  subst hl
  have hint2 : ∀ st0, (st0 = Step.stateBeginValue ∨ st0 = Step.stateNeg) →
      ∃ st, (st = Step.state0 ∨ st = Step.state1) ∧
        scanThrough (scannerAt st0 ps) int = some (scannerAt st ps) := by
    intro st0 hst0
    rcases hint with hi | ⟨c, cs, hi, hc, hcs⟩
    · subst hi
      refine ⟨Step.state0, Or.inl rfl, ?_⟩
      have h1 : isSpace '0' = false := by decide
      have h2 : '0' ≠ '\x7b' ∧ '0' ≠ '[' ∧ '0' ≠ dquote ∧ '0' ≠ '-' := by decide
      rcases hst0 with hs | hs <;> subst hs <;>
        simp [scanThrough, stops, Scanner.run, scannerAt, stateBeginValue, stateNeg, h1, h2]
    · subst hi
      refine ⟨Step.state1, Or.inr rfl, ?_⟩
      rcases hst0 with hs | hs <;> subst hs
      · rw [scan_cons _ _ c _ _ (run_beginValue_digit19 ps c hc) (Or.inr rfl)]
        exact scanThrough_digits_at Step.state1 ps (Or.inl rfl) cs hcs
      · rw [scan_cons _ _ c _ _ (run_neg_digit19 ps c hc) (Or.inl rfl)]
        exact scanThrough_digits_at Step.state1 ps (Or.inl rfl) cs hcs
  rcases hsign with hs | hs <;> subst hs
  · obtain ⟨st, hst, hscan⟩ := hint2 Step.stateBeginValue (Or.inl rfl)
    obtain ⟨st1, hdone, hscan2⟩ := scanThrough_frac_exp st ps hst frac exp hfrac hexp
    refine ⟨st1, hdone, ?_⟩
    rw [List.nil_append, scanThrough_append_of _ _ _ _ hscan, hscan2]
  · obtain ⟨st, hst, hscan⟩ := hint2 Step.stateNeg (Or.inr rfl)
    obtain ⟨st1, hdone, hscan2⟩ := scanThrough_frac_exp st ps hst frac exp hfrac hexp
    refine ⟨st1, hdone, ?_⟩
    have hminus : (scannerAt Step.stateBeginValue ps).run '-'
        = (scannerAt Step.stateNeg ps, Code.scanBeginLiteral) := by
      have h1 : isSpace '-' = false := by decide
      have h2 : '-' ≠ '\x7b' ∧ '-' ≠ '[' ∧ '-' ≠ dquote := by decide
      simp [Scanner.run, scannerAt, stateBeginValue, h1, h2]
    rw [List.singleton_append, scan_cons _ _ '-' _ _ hminus (Or.inr rfl),
      scanThrough_append_of _ _ _ _ hscan, hscan2]

/-- The characters of a number literal. -/
theorem number_chars (l : List Char) (h : NumberLit l) :
    ∀ c ∈ l, isDigit c = true ∨ c = '-' ∨ c = '+' ∨ c = '.' ∨ c = 'e' ∨ c = 'E' := by
  obtain ⟨sign, int, frac, exp, hl, hsign, hint, hfrac, hexp⟩ := h
  subst hl
  intro c hc
  have hall : ∀ (cs : List Char), cs.all isDigit = true → c ∈ cs → isDigit c = true := by
    intro cs hcs hmem
    rw [List.all_eq_true] at hcs
    exact hcs c hmem
  simp only [List.mem_append] at hc
  rcases hc with hc | hc | hc | hc
  · rcases hsign with h | h <;> subst h <;> simp at hc
    exact Or.inr (Or.inl hc)
  · rcases hint with h | ⟨a, as, h, ha, has⟩
    · subst h
      simp only [List.mem_singleton] at hc
      subst hc
      exact Or.inl (by decide)
    · subst h
      rcases List.mem_cons.1 hc with h | h
      · subst h
        exact Or.inl (isDigit19_isDigit c ha).1
      · exact Or.inl (hall as has h)
  · rcases hfrac with h | ⟨a, as, h, ha, has⟩
    · subst h; simp at hc
    · subst h
      simp only [List.mem_cons] at hc
      rcases hc with h | h | h
      · exact Or.inr (Or.inr (Or.inr (Or.inl h)))
      · subst h; exact Or.inl ha
      · exact Or.inl (hall as has h)
  · rcases hexp with h | ⟨e, sg, a, as, h, he, hsg, ha, has⟩
    · subst h; simp at hc
    · subst h
      simp only [List.mem_cons, List.mem_append] at hc
      rcases hc with h | h | h | h
      · subst h
        rcases he with h | h
        · exact Or.inr (Or.inr (Or.inr (Or.inr (Or.inl h))))
        · exact Or.inr (Or.inr (Or.inr (Or.inr (Or.inr h))))
      · rcases hsg with h' | h' | h' <;> subst h' <;> simp at h
        · exact Or.inr (Or.inr (Or.inl h))
        · exact Or.inr (Or.inl h)
      · subst h; exact Or.inl ha
      · exact Or.inl (hall as has h)

theorem number_ne_nil (l : List Char) (h : NumberLit l) : l ≠ [] := by
  obtain ⟨sign, int, frac, exp, hl, _, hint, _, _⟩ := h
  subst hl
  rcases hint with h | ⟨a, as, h, _, _⟩ <;> subst h <;> simp

/-! ## Lemmas on JSON texts: how the scanner reads them -/

theorem isSpace_facts (c : Char) (h : isSpace c = true) :
    c ≠ dquote ∧ c ≠ '\x7b' ∧ c ≠ '[' ∧ c ≠ '\x7d' ∧ c ≠ ']' ∧ c ≠ ',' ∧ c ≠ ':' ∧ c ≠ '.'
      ∧ c ≠ 'e' ∧ c ≠ 'E' ∧ isDigit c = false := by
  simp only [isSpace, Bool.decide_or, Bool.or_eq_true, decide_eq_true_eq] at h
  rcases h with h | h | h | h <;> subst h <;> decide

theorem run_done (st : Step) (ps : List ParseKind) (c : Char) (hst : ValueDone st)
    (hc : c = ',' ∨ c = '\x7d' ∨ c = ']' ∨ c = ':' ∨ isSpace c = true) :
    (scannerAt st ps).run c = stateEndValue (scannerAt st ps) c := by
  have hfacts : c ≠ '.' ∧ c ≠ 'e' ∧ c ≠ 'E' ∧ isDigit c = false := by
    rcases hc with h | h | h | h | h
    · subst h; decide
    · subst h; decide
    · subst h; decide
    · subst h; decide
    · obtain ⟨_, _, _, _, _, _, _, h8, h9, h10, h11⟩ := isSpace_facts c h
      exact ⟨h8, h9, h10, h11⟩
  rcases hst with (h | h | h) | h | h <;> subst h <;>
    simp [Scanner.run, scannerAt, state0, state1, stateDot0, stateE0, hfacts]

theorem run_done_space (st : Step) (k : ParseKind) (ps : List ParseKind) (c : Char)
    (hst : ValueDone st) (hc : isSpace c = true) :
    (scannerAt st (k :: ps)).run c = (scannerAt Step.stateEndValue (k :: ps), Code.scanSkipSpace) := by
  rw [run_done st _ c hst (Or.inr (Or.inr (Or.inr (Or.inr hc))))]
  simp [stateEndValue, scannerAt, hc]

theorem run_done_colon (st : Step) (ps : List ParseKind) (hst : ValueDone st) :
    (scannerAt st (ParseKind.parseObjectKey :: ps)).run ':'
      = (scannerAt Step.stateBeginValue (ParseKind.parseObjectValue :: ps),
          Code.scanObjectKey) := by
  rw [run_done st _ ':' hst (by simp)]
  have h : isSpace ':' = false := by decide
  simp [stateEndValue, scannerAt, Scanner.setTop, h]

theorem run_done_comma_object (st : Step) (ps : List ParseKind) (hst : ValueDone st) :
    (scannerAt st (ParseKind.parseObjectValue :: ps)).run ','
      = (scannerAt Step.stateBeginString (ParseKind.parseObjectKey :: ps),
          Code.scanObjectValue) := by
  rw [run_done st _ ',' hst (by simp)]
  have h : isSpace ',' = false := by decide
  simp [stateEndValue, scannerAt, Scanner.setTop, h]

theorem run_done_comma_array (st : Step) (ps : List ParseKind) (hst : ValueDone st) :
    (scannerAt st (ParseKind.parseArrayValue :: ps)).run ','
      = (scannerAt Step.stateBeginValue (ParseKind.parseArrayValue :: ps),
          Code.scanArrayValue) := by
  rw [run_done st _ ',' hst (by simp)]
  have h : isSpace ',' = false := by decide
  simp [stateEndValue, scannerAt, h]

theorem run_done_close_array (st : Step) (ps : List ParseKind) (hst : ValueDone st)
    (hps : ps ≠ []) :
    (scannerAt st (ParseKind.parseArrayValue :: ps)).run ']'
      = (scannerAt Step.stateEndValue ps, Code.scanEndArray) := by
  rw [run_done st _ ']' hst (by simp)]
  have h : isSpace ']' = false := by decide
  have h2 : ']' ≠ ',' := by decide
  have h3 : ps.length ≠ 0 := by
    cases ps with
    | nil => exact absurd rfl hps
    | cons _ _ => simp
  simp [stateEndValue, scannerAt, Scanner.popParseState, h, h2, h3]

theorem run_done_close_object (st : Step) (ps : List ParseKind) (hst : ValueDone st)
    (hps : ps ≠ []) :
    (scannerAt st (ParseKind.parseObjectValue :: ps)).run '\x7d'
      = (scannerAt Step.stateEndValue ps, Code.scanEndObject) := by
  rw [run_done st _ '\x7d' hst (by simp)]
  have h : isSpace '\x7d' = false := by decide
  have h2 : '\x7d' ≠ ',' := by decide
  have h3 : ps.length ≠ 0 := by
    cases ps with
    | nil => exact absurd rfl hps
    | cons _ _ => simp
  simp [stateEndValue, scannerAt, Scanner.popParseState, h, h2, h3]

theorem run_done_close_top (st : Step) (hst : ValueDone st) :
    (scannerAt st [ParseKind.parseObjectValue]).run '\x7d'
      = ({ step := Step.stateEndTop, parseState := [], err := none, endTop := true },
          Code.scanEndObject) := by
  rw [run_done st _ '\x7d' hst (by simp)]
  have h : isSpace '\x7d' = false := by decide
  have h2 : '\x7d' ≠ ',' := by decide
  simp [stateEndValue, scannerAt, Scanner.popParseState, h, h2]

/-- White space where a value or a key may begin, or after a value. -/
theorem scanThrough_space (st : Step) (k : ParseKind) (ps : List ParseKind)
    (hst : st = Step.stateBeginValue ∨ st = Step.stateBeginValueOrEmpty
      ∨ st = Step.stateBeginString ∨ st = Step.stateBeginStringOrEmpty
      ∨ st = Step.stateEndValue) :
    ∀ w : List Char, nonSpace w = false →
      scanThrough (scannerAt st (k :: ps)) w = some (scannerAt st (k :: ps)) := by
  intro w
  induction w with
  | nil => intro _; rfl
  | cons c cs ih =>
    intro h
    rw [nonSpace_cons] at h
    have hrun : (scannerAt st (k :: ps)).run c = (scannerAt st (k :: ps), Code.scanSkipSpace) := by
      rcases hst with hs | hs | hs | hs | hs <;> subst hs <;>
        simp [Scanner.run, scannerAt, stateBeginValue, stateBeginValueOrEmpty, stateBeginString,
          stateBeginStringOrEmpty, stateEndValue, h.1]
    simp only [scanThrough, hrun]
    rw [if_neg (by simp [not_stops_nested _ _ _ (List.cons_ne_nil _ _)])]
    exact ih h.2

/-- White space after a value. -/
theorem scanThrough_trail (st : Step) (k : ParseKind) (ps : List ParseKind)
    (hst : ValueDone st) (w : List Char) (hw : nonSpace w = false) :
    ∃ st1, ValueDone st1 ∧
      scanThrough (scannerAt st (k :: ps)) w = some (scannerAt st1 (k :: ps)) := by
  cases w with
  | nil => exact ⟨st, hst, rfl⟩
  | cons c cs =>
    rw [nonSpace_cons] at hw
    refine ⟨Step.stateEndValue, Or.inl (Or.inl rfl), ?_⟩
    simp only [scanThrough, run_done_space st k ps c hst hw.1]
    rw [if_neg (by simp [not_stops_nested _ _ _ (List.cons_ne_nil _ _)])]
    exact scanThrough_space Step.stateEndValue k ps (by simp) cs hw.2

/-- Where an array may end, a value begins as anywhere else. -/
theorem scanThrough_orEmpty (ps : List ParseKind) (c : Char) (rest : List Char)
    (h1 : isSpace c = false) (h2 : c ≠ ']') :
    scanThrough (scannerAt Step.stateBeginValueOrEmpty ps) (c :: rest)
      = scanThrough (scannerAt Step.stateBeginValue ps) (c :: rest) := by
  have hrun : (scannerAt Step.stateBeginValueOrEmpty ps).run c
      = (scannerAt Step.stateBeginValue ps).run c := by
    simp only [Scanner.run, scannerAt, stateBeginValueOrEmpty, h1, h2, if_false,
      Bool.false_eq_true, stateBeginValue, Scanner.pushParseState, Scanner.error]
  simp only [scanThrough, hrun]

/-- A padded value inside a compound. -/
theorem scanThrough_padded (d : Nat) (st : Step) (k : ParseKind) (ps : List ParseKind)
    (hst : st = Step.stateBeginValue ∨ st = Step.stateBeginValueOrEmpty)
    (lead v trail : List Char) (hlead : nonSpace lead = false) (htrail : nonSpace trail = false)
    (hv : ScansAt d v) (hsolid : Solid v) (hlen : (k :: ps).length + d ≤ maxNestingDepth) :
    ∃ st1, ValueDone st1 ∧
      scanThrough (scannerAt st (k :: ps)) (lead ++ (v ++ trail))
        = some (scannerAt st1 (k :: ps)) := by
  obtain ⟨st0, h0, hscan⟩ := hv (k :: ps) (List.cons_ne_nil _ _) hlen
  obtain ⟨st1, h1, htr⟩ := scanThrough_trail st0 k ps h0 trail htrail
  refine ⟨st1, h1, ?_⟩
  have hl := scanThrough_space st k ps (by rcases hst with h | h <;> simp [h]) lead hlead
  rw [scanThrough_append_of _ _ _ _ hl]
  have hv2 : scanThrough (scannerAt st (k :: ps)) v = some (scannerAt st0 (k :: ps)) := by
    rcases hst with h | h
    · subst h; exact hscan
    · subst h
      obtain ⟨⟨c, rest, hc, hsp, hne, _⟩, _⟩ := hsolid
      subst hc
      rw [scanThrough_orEmpty _ c rest hsp hne]
      exact hscan
  rw [scanThrough_append_of _ _ _ _ hv2, htr]

theorem scanThrough_elements (d : Nat) (ps : List ParseKind) :
    ∀ (items : List Element) (st : Step),
      (st = Step.stateBeginValue ∨ st = Step.stateBeginValueOrEmpty) → items ≠ [] →
      (∀ x ∈ items, x.spaced) → (∀ x ∈ items, ScansAt d x.value ∧ Solid x.value) →
      (ParseKind.parseArrayValue :: ps).length + d ≤ maxNestingDepth →
      ∃ st1, ValueDone st1 ∧
        scanThrough (scannerAt st (ParseKind.parseArrayValue :: ps))
            (joinComma (items.map Element.text))
          = some (scannerAt st1 (ParseKind.parseArrayValue :: ps)) := by
  intro items
  induction items with
  | nil => intro st _ h; exact absurd rfl h
  | cons x rest ih =>
    intro st hst _ hsp hv hlen
    obtain ⟨st1, h1, h2⟩ := scanThrough_padded d st ParseKind.parseArrayValue ps hst x.lead
      x.value x.trail (hsp x (by simp)).1 (hsp x (by simp)).2 (hv x (by simp)).1
      (hv x (by simp)).2 hlen
    cases rest with
    | nil => exact ⟨st1, h1, by simpa [joinComma, Element.text] using h2⟩
    | cons y ys =>
      obtain ⟨st2, h3, h4⟩ := ih Step.stateBeginValue (Or.inl rfl) (List.cons_ne_nil _ _)
        (fun z hz => hsp z (by simp at hz ⊢; exact Or.inr hz))
        (fun z hz => hv z (by simp at hz ⊢; exact Or.inr hz)) hlen
      refine ⟨st2, h3, ?_⟩
      simp only [List.map_cons, joinComma, Element.text]
      rw [scanThrough_append_of _ _ _ _ h2]
      simp only [scanThrough, run_done_comma_array _ ps h1]
      rw [if_neg (by simp [not_stops_nested _ _ _ (List.cons_ne_nil _ _)])]
      simpa [Element.text] using h4

theorem scanThrough_memberText (d : Nat) (ps : List ParseKind) (st : Step) (m : Member)
    (hst : st = Step.stateBeginString ∨ st = Step.stateBeginStringOrEmpty)
    (hsp : m.spaced) (hv : ScansAt d m.value) (hsolid : Solid m.value)
    (hlen : (ParseKind.parseObjectValue :: ps).length + d ≤ maxNestingDepth) :
    ∃ st1, ValueDone st1 ∧
      scanThrough (scannerAt st (ParseKind.parseObjectKey :: ps)) m.text
        = some (scannerAt st1 (ParseKind.parseObjectValue :: ps)) := by
  obtain ⟨h1, h2, h3, h4, h5⟩ := hsp
  obtain ⟨st1, hd, hval⟩ := scanThrough_padded d Step.stateBeginValue ParseKind.parseObjectValue
    ps (Or.inl rfl) m.lead m.value m.trail h4 h5 hv hsolid hlen
  refine ⟨st1, hd, ?_⟩
  have hpre := scanThrough_space st ParseKind.parseObjectKey ps
    (by rcases hst with h | h <;> simp [h]) m.pre h1
  have hkey := scanThrough_literal st (ParseKind.parseObjectKey :: ps) m.key h2
    (by rcases hst with h | h <;> simp [h])
  have hmid := scanThrough_space Step.stateEndValue ParseKind.parseObjectKey ps (by simp) m.mid h3
  have e : m.text = m.pre ++ ((dquote :: (m.key ++ [dquote])) ++ (m.mid
      ++ (':' :: (m.lead ++ (m.value ++ m.trail))))) := by
    simp [Member.text]
  rw [e, scanThrough_append_of _ _ _ _ hpre, scanThrough_append_of _ _ _ _ hkey,
    scanThrough_append_of _ _ _ _ hmid]
  simp only [scanThrough, run_done_colon _ ps (Or.inl (Or.inl rfl))]
  rw [if_neg (by simp [not_stops_nested _ _ _ (List.cons_ne_nil _ _)])]
  exact hval

theorem scanThrough_memberTexts (d : Nat) (ps : List ParseKind) :
    ∀ (ms : List Member) (st : Step),
      (st = Step.stateBeginString ∨ st = Step.stateBeginStringOrEmpty) → ms ≠ [] →
      (∀ m ∈ ms, m.spaced) → (∀ m ∈ ms, ScansAt d m.value ∧ Solid m.value) →
      (ParseKind.parseObjectValue :: ps).length + d ≤ maxNestingDepth →
      ∃ st1, ValueDone st1 ∧
        scanThrough (scannerAt st (ParseKind.parseObjectKey :: ps))
            (joinComma (ms.map Member.text))
          = some (scannerAt st1 (ParseKind.parseObjectValue :: ps)) := by
  intro ms
  induction ms with
  | nil => intro st _ h; exact absurd rfl h
  | cons m rest ih =>
    intro st hst _ hsp hv hlen
    obtain ⟨st1, h1, h2⟩ := scanThrough_memberText d ps st m hst (hsp m (by simp))
      (hv m (by simp)).1 (hv m (by simp)).2 hlen
    cases rest with
    | nil => exact ⟨st1, h1, by simpa [joinComma] using h2⟩
    | cons y ys =>
      obtain ⟨st2, h3, h4⟩ := ih Step.stateBeginString (Or.inl rfl) (List.cons_ne_nil _ _)
        (fun z hz => hsp z (by simp at hz ⊢; exact Or.inr hz))
        (fun z hz => hv z (by simp at hz ⊢; exact Or.inr hz)) hlen
      refine ⟨st2, h3, ?_⟩
      simp only [List.map_cons, joinComma]
      rw [scanThrough_append_of _ _ _ _ h2]
      simp only [scanThrough, run_done_comma_object _ ps h1]
      rw [if_neg (by simp [not_stops_nested _ _ _ (List.cons_ne_nil _ _)])]
      simpa using h4

theorem solid_of_ends (v : List Char) (a b : Char) (mid : List Char)
    (hv : v = a :: (mid ++ [b])) (ha : isSpace a = false ∧ a ≠ ']' ∧ a ≠ '\x7d')
    (hb : isSpace b = false) : Solid v := by
  subst hv
  exact ⟨⟨a, mid ++ [b], rfl, ha.1, ha.2.1, ha.2.2⟩, ⟨b, a :: mid, by simp, hb⟩⟩

theorem solid_json (d : Nat) (v : List Char) (h : JsonValue d v) : Solid v := by
  cases h with
  | null => exact solid_of_ends _ 'n' 'l' ['u', 'l'] rfl (by decide) (by decide)
  | true_ => exact solid_of_ends _ 't' 'e' ['r', 'u'] rfl (by decide) (by decide)
  | false_ => exact solid_of_ends _ 'f' 'e' ['a', 'l', 's'] rfl (by decide) (by decide)
  | number _ _ hl =>
    have hch := number_chars v hl
    have hne := number_ne_nil v hl
    have hok : ∀ c ∈ v, isSpace c = false ∧ c ≠ ']' ∧ c ≠ '\x7d' := by
      intro c hc
      rcases hch c hc with h | h | h | h | h | h
      · obtain ⟨h1, _, _, _, _, _, _, _, _, _, _, _, h13, h14, _⟩ := isDigit_facts c h
        exact ⟨h1, h14, h13⟩
      all_goals (subst h; decide)
    constructor
    · cases v with
      | nil => exact absurd rfl hne
      | cons c cs =>
        have := hok c (by simp)
        exact ⟨c, cs, rfl, this.1, this.2.1, this.2.2⟩
    · refine ⟨v.getLast hne, v.dropLast, (List.dropLast_append_getLast hne).symm, ?_⟩
      exact (hok _ (List.getLast_mem hne)).1
  | string _ raw _ => exact solid_of_ends _ dquote dquote raw rfl (by decide) (by decide)
  | emptyArray _ w _ => exact solid_of_ends _ '[' ']' w rfl (by decide) (by decide)
  | array _ items _ _ _ => exact solid_of_ends _ '[' ']' _ rfl (by decide) (by decide)
  | emptyObject _ w _ => exact solid_of_ends _ '\x7b' '\x7d' w rfl (by decide) (by decide)
  | object _ ms _ _ _ => exact solid_of_ends _ '\x7b' '\x7d' _ rfl (by decide) (by decide)

theorem run_open (ps : List ParseKind) (h : ps.length + 1 ≤ maxNestingDepth) :
    (scannerAt Step.stateBeginValue ps).run '['
        = (scannerAt Step.stateBeginValueOrEmpty (ParseKind.parseArrayValue :: ps),
            Code.scanBeginArray)
      ∧ (scannerAt Step.stateBeginValue ps).run '\x7b'
        = (scannerAt Step.stateBeginStringOrEmpty (ParseKind.parseObjectKey :: ps),
            Code.scanBeginObject) := by
  have h1 : isSpace '[' = false ∧ isSpace '\x7b' = false := by decide
  have h2 : '[' ≠ '\x7b' := by decide
  constructor <;>
    simp [Scanner.run, scannerAt, stateBeginValue, Scanner.pushParseState, h1, h2, h]

theorem run_close_empty (ps : List ParseKind) (hps : ps ≠ []) :
    (scannerAt Step.stateBeginValueOrEmpty (ParseKind.parseArrayValue :: ps)).run ']'
        = (scannerAt Step.stateEndValue ps, Code.scanEndArray)
      ∧ (scannerAt Step.stateBeginStringOrEmpty (ParseKind.parseObjectKey :: ps)).run '\x7d'
        = (scannerAt Step.stateEndValue ps, Code.scanEndObject) := by
  have h1 : isSpace ']' = false ∧ isSpace '\x7d' = false := by decide
  have h2 : ']' ≠ ',' ∧ '\x7d' ≠ ',' := by decide
  have h3 : ps.length ≠ 0 := by
    cases ps with
    | nil => exact absurd rfl hps
    | cons _ _ => simp
  constructor <;>
    simp [Scanner.run, scannerAt, stateBeginValueOrEmpty, stateBeginStringOrEmpty,
      stateEndValue, Scanner.setTop, Scanner.popParseState, h1, h2, h3]

/-- The scanner reads a JSON value inside a compound as one value. -/
theorem scansAt_json (d : Nat) (v : List Char) (h : JsonValue d v) : ScansAt d v := by
  induction h with
  | null d =>
    intro ps _ _
    refine ⟨Step.stateEndValue, Or.inl (Or.inl rfl), ?_⟩
    have h1 : isSpace 'n' = false := by decide
    have h2 : 'n' ≠ '\x7b' ∧ 'n' ≠ '[' ∧ 'n' ≠ dquote ∧ 'n' ≠ '-' ∧ 'n' ≠ '0' ∧ 'n' ≠ 't'
        ∧ 'n' ≠ 'f' := by decide
    simp [scanThrough, stops, Scanner.run, scannerAt, stateBeginValue, stateLit, h1, h2]
  | true_ d =>
    intro ps _ _
    refine ⟨Step.stateEndValue, Or.inl (Or.inl rfl), ?_⟩
    have h1 : isSpace 't' = false := by decide
    have h2 : 't' ≠ '\x7b' ∧ 't' ≠ '[' ∧ 't' ≠ dquote ∧ 't' ≠ '-' ∧ 't' ≠ '0' := by decide
    simp [scanThrough, stops, Scanner.run, scannerAt, stateBeginValue, stateLit, h1, h2]
  | false_ d =>
    intro ps _ _
    refine ⟨Step.stateEndValue, Or.inl (Or.inl rfl), ?_⟩
    have h1 : isSpace 'f' = false := by decide
    have h2 : 'f' ≠ '\x7b' ∧ 'f' ≠ '[' ∧ 'f' ≠ dquote ∧ 'f' ≠ '-' ∧ 'f' ≠ '0' ∧ 'f' ≠ 't' := by
      decide
    simp [scanThrough, stops, Scanner.run, scannerAt, stateBeginValue, stateLit, h1, h2]
  | number d l hl => exact scansAt_number d l hl
  | string d raw hraw =>
    intro ps _ _
    exact ⟨Step.stateEndValue, Or.inl (Or.inl rfl),
      scanThrough_literal Step.stateBeginValue ps raw hraw (Or.inl rfl)⟩
  | emptyArray d w hw =>
    intro ps hps hlen
    refine ⟨Step.stateEndValue, Or.inl (Or.inl rfl), ?_⟩
    simp only [scanThrough, (run_open ps (by omega)).1]
    rw [if_neg (by simp [not_stops_nested _ _ _ (List.cons_ne_nil _ _)])]
    rw [scanThrough_append_of _ _ _ _
      (scanThrough_space Step.stateBeginValueOrEmpty _ ps (by simp) w hw)]
    simp only [scanThrough, (run_close_empty ps hps).1]
    rw [if_neg (by simp [not_stops_nested _ _ _ hps])]
  | array d items hne hsp hjson ih =>
    intro ps hps hlen
    refine ⟨Step.stateEndValue, Or.inl (Or.inl rfl), ?_⟩
    obtain ⟨st1, h1, h2⟩ := scanThrough_elements d ps items Step.stateBeginValueOrEmpty
      (Or.inr rfl) hne hsp (fun x hx => ⟨ih x hx, solid_json d _ (hjson x hx)⟩)
      (by simp only [List.length_cons]; omega)
    simp only [scanThrough, (run_open ps (by omega)).1]
    rw [if_neg (by simp [not_stops_nested _ _ _ (List.cons_ne_nil _ _)])]
    rw [scanThrough_append_of _ _ _ _ h2]
    simp only [scanThrough, run_done_close_array st1 ps h1 hps]
    rw [if_neg (by simp [not_stops_nested _ _ _ hps])]
  | emptyObject d w hw =>
    intro ps hps hlen
    refine ⟨Step.stateEndValue, Or.inl (Or.inl rfl), ?_⟩
    simp only [scanThrough, (run_open ps (by omega)).2]
    rw [if_neg (by simp [not_stops_nested _ _ _ (List.cons_ne_nil _ _)])]
    rw [scanThrough_append_of _ _ _ _
      (scanThrough_space Step.stateBeginStringOrEmpty _ ps (by simp) w hw)]
    simp only [scanThrough, (run_close_empty ps hps).2]
    rw [if_neg (by simp [not_stops_nested _ _ _ hps])]
  | object d ms hne hsp hjson ih =>
    intro ps hps hlen
    refine ⟨Step.stateEndValue, Or.inl (Or.inl rfl), ?_⟩
    obtain ⟨st1, h1, h2⟩ := scanThrough_memberTexts d ps ms Step.stateBeginStringOrEmpty
      (Or.inr rfl) hne hsp (fun x hx => ⟨ih x hx, solid_json d _ (hjson x hx)⟩)
      (by simp only [List.length_cons]; omega)
    simp only [scanThrough, (run_open ps (by omega)).2]
    rw [if_neg (by simp [not_stops_nested _ _ _ (List.cons_ne_nil _ _)])]
    rw [scanThrough_append_of _ _ _ _ h2]
    simp only [scanThrough, run_done_close_object st1 ps h1 hps]
    rw [if_neg (by simp [not_stops_nested _ _ _ hps])]

/-! ## Lemmas on JSON texts: cutting them into items -/

theorem inert_spaces (w : List Char) (h : nonSpace w = false) : Inert w := by
  apply inert_all_plain
  intro c hc
  have hsp : isSpace c = true := by
    simp only [nonSpace, List.any_eq_false, Bool.not_eq_true', Bool.not_eq_false] at h
    simpa using h c hc
  obtain ⟨h1, h2, h3, h4, h5, h6, _⟩ := isSpace_facts c hsp
  exact ⟨h1, h2, h3, h4, h5, h6⟩

/-- Inside a nested compound, items joined by commas stay in one item. -/
theorem splitItems_nested (d : Nat) (rest : List Char) :
    ∀ items : List (List Char), (∀ x ∈ items, Inert x) →
      splitItems (d + 1) false false (joinComma items ++ rest)
        = (joinComma items).foldr consFirst (splitItems (d + 1) false false rest) := by
  intro items
  induction items with
  | nil => intro _; simp [joinComma]
  | cons x rest' ih =>
    intro hin
    cases rest' with
    | nil => simpa [joinComma] using hin x (by simp) (d + 1) rest
    | cons y ys =>
      have hcomma : ∀ zs, splitItems (d + 1) false false (',' :: zs)
          = consFirst ',' (splitItems (d + 1) false false zs) := by
        intro zs
        have h : ',' ≠ dquote ∧ ',' ≠ '\x7b' ∧ ',' ≠ '[' ∧ ',' ≠ '\x7d' ∧ ',' ≠ ']' := by decide
        simp [splitItems, h]
      simp only [joinComma, List.append_assoc, List.cons_append,
        List.foldr_append, List.foldr_cons]
      rw [hin x (by simp) (d + 1), hcomma]
      rw [ih (fun z hz => hin z (by simp at hz ⊢; exact Or.inr hz))]

theorem inert_compound (open_ close : Char)
    (hoc : (open_ = '[' ∨ open_ = '\x7b') ∧ (close = ']' ∨ close = '\x7d'))
    (body : List Char)
    (hbody : ∀ (d : Nat) (rest : List Char),
      splitItems (d + 1) false false (body ++ rest)
        = body.foldr consFirst (splitItems (d + 1) false false rest)) :
    Inert (open_ :: (body ++ [close])) := by
  intro d rest
  have hopen : ∀ zs, splitItems d false false (open_ :: zs)
      = consFirst open_ (splitItems (d + 1) false false zs) := by
    intro zs
    have h : '[' ≠ dquote ∧ '\x7b' ≠ dquote := by decide
    rcases hoc.1 with ho | ho <;> subst ho <;> simp [splitItems, h]
  have hclose : ∀ zs, splitItems (d + 1) false false (close :: zs)
      = consFirst close (splitItems d false false zs) := by
    intro zs
    have h : ']' ≠ dquote ∧ ']' ≠ '\x7b' ∧ ']' ≠ '[' ∧ '\x7d' ≠ dquote ∧ '\x7d' ≠ '\x7b'
        ∧ '\x7d' ≠ '[' := by decide
    rcases hoc.2 with hc | hc <;> subst hc <;> simp [splitItems, h]
  simp only [List.cons_append, List.append_assoc, List.foldr_cons,
    List.foldr_append, List.foldr_nil, List.nil_append]
  rw [hopen, hbody, hclose]

theorem inert_elementText (x : Element) (hsp : x.spaced) (hv : Inert x.value) :
    Inert x.text :=
  inert_append _ _ (inert_spaces _ hsp.1) (inert_append _ _ hv (inert_spaces _ hsp.2))

theorem inert_memberText (m : Member) (hsp : m.spaced) (hv : Inert m.value) :
    Inert m.text := by
  obtain ⟨h1, h2, h3, h4, h5⟩ := hsp
  have h := inert_append _ _ (inert_spaces _ h1)
    (inert_append _ _ (inert_literal m.key h2)
      (inert_append _ _ (inert_spaces _ h3)
        (inert_append [':'] _
          (inert_plain ':' (by decide) (by decide) (by decide) (by decide) (by decide)
            (by decide))
          (inert_append _ _ (inert_spaces _ h4)
            (inert_append _ _ hv (inert_spaces _ h5))))))
  simpa [Member.text] using h

/-- A JSON value inside a compound belongs to one item. -/
theorem inert_json (d : Nat) (v : List Char) (h : JsonValue d v) : Inert v := by
  induction h with
  | null d => exact inert_all_plain _ (by decide)
  | true_ d => exact inert_all_plain _ (by decide)
  | false_ d => exact inert_all_plain _ (by decide)
  | number d l hl =>
    apply inert_all_plain
    intro c hc
    rcases number_chars l hl c hc with h | h | h | h | h | h
    · obtain ⟨_, h2, h3, h4, _, _, _, _, _, _, _, h12, h13, h14, _⟩ := isDigit_facts c h
      exact ⟨h4, h2, h3, h13, h14, h12⟩
    all_goals (subst h; decide)
  | string d raw hraw => exact inert_literal raw hraw
  | emptyArray d w hw =>
    refine inert_compound '[' ']' (by simp) w ?_
    intro d' rest
    exact inert_spaces w hw (d' + 1) rest
  | array d items hne hsp hjson ih =>
    refine inert_compound '[' ']' (by simp) _ ?_
    intro d' rest
    apply splitItems_nested
    intro x hx
    obtain ⟨e, he, hxe⟩ := List.mem_map.1 hx
    rw [← hxe]
    exact inert_elementText e (hsp e he) (ih e he)
  | emptyObject d w hw =>
    refine inert_compound '\x7b' '\x7d' (by simp) w ?_
    intro d' rest
    exact inert_spaces w hw (d' + 1) rest
  | object d ms hne hsp hjson ih =>
    refine inert_compound '\x7b' '\x7d' (by simp) _ ?_
    intro d' rest
    apply splitItems_nested
    intro x hx
    obtain ⟨e, he, hxe⟩ := List.mem_map.1 hx
    rw [← hxe]
    exact inert_memberText e (hsp e he) (ih e he)

theorem trim_padded (lead v trail : List Char) (hlead : nonSpace lead = false)
    (htrail : nonSpace trail = false) (hv : Solid v) : trim (lead ++ (v ++ trail)) = v := by
  obtain ⟨⟨a, rest, hva, ha, _, _⟩, ⟨b, front, hvb, hb⟩⟩ := hv
  have hrev : nonSpace trail.reverse = false := by
    simp only [nonSpace, List.any_eq_false, Bool.not_eq_true', Bool.not_eq_false] at htrail ⊢
    intro c hc
    exact htrail c (by simpa using hc)
  simp only [trim]
  rw [trimLeft_spaces_append lead _ hlead]
  have h1 : trimLeft (v ++ trail) = v ++ trail := by
    rw [hva]
    exact trimLeft_cons a _ ha
  rw [h1, List.reverse_append, trimLeft_spaces_append _ _ hrev]
  have h2 : trimLeft v.reverse = v.reverse := by
    rw [hvb, List.reverse_append]
    exact trimLeft_cons b _ hb
  rw [h2, List.reverse_reverse]

/-! ## Lemmas on JSON texts: storing a typed value -/

theorem numberLit_formatInt (n : Int) : NumberLit (formatInt n).data := by
  have key : ∀ m : Nat, (Nat.toDigits 10 m = ['0']
      ∨ ∃ c cs, Nat.toDigits 10 m = c :: cs ∧ isDigit19 c = true ∧ cs.all isDigit = true) := by
    intro m
    obtain ⟨_, hall, _, hpos, hzero⟩ := toDigits_spec m
    by_cases hm : m = 0
    · exact Or.inl (hzero hm)
    · obtain ⟨c, t, hct, hc⟩ := hpos (by omega)
      rw [hct] at hall
      simp only [List.all_cons, Bool.and_eq_true] at hall
      exact Or.inr ⟨c, t, hct, hc, hall.2⟩
  cases n with
  | ofNat m =>
    exact ⟨[], Nat.toDigits 10 m, [], [], by simp [formatInt], Or.inl rfl, key m, Or.inl rfl,
      Or.inl rfl⟩
  | negSucc m =>
    exact ⟨['-'], Nat.toDigits 10 (m + 1), [], [], by simp [formatInt], Or.inr rfl,
      key (m + 1), Or.inl rfl, Or.inl rfl⟩

/-- A value of a field's type is a JSON value. -/
theorem holds_json (tu : TimeUnmarshaler) (d : Nat) (k : Kind) (v : List Char) (val : Value)
    (h : Holds tu d k v val) : JsonValue d v := by
  cases h with
  | str _ raw hraw => exact JsonValue.string d raw hraw
  | int _ _ n hl _ => exact JsonValue.number d _ hl
  | null _ _ _ => exact JsonValue.null d
  | nil _ => exact JsonValue.null d
  | empty d' w hw => exact JsonValue.emptyArray d' w hw
  | strs d' items hne hsp hraw =>
    refine JsonValue.array d' items hne hsp ?_
    intro x hx
    obtain ⟨raw, hr, hv⟩ := hraw x hx
    rw [hv]
    exact JsonValue.string d' raw hr
  | time _ _ t hj _ => exact hj

theorem shapeOf_number (l : List Char) (h : NumberLit l) : shapeOf l = Shape.number l := by
  have hne := number_ne_nil l h
  have hch := number_chars l h
  cases l with
  | nil => exact absurd rfl hne
  | cons c cs =>
    have hc := hch c (by simp)
    have hd : isDigit c = true → c ≠ '\x7b' ∧ c ≠ '[' ∧ c ≠ dquote ∧ c ≠ 'n' ∧ c ≠ 't' ∧ c ≠ 'f' := by
      intro hd
      refine ⟨?_, ?_, ?_, ?_, ?_, ?_⟩ <;> (intro hx; subst hx; revert hd; decide)
    have hall : c ≠ '\x7b' ∧ c ≠ '[' ∧ c ≠ dquote ∧ c ≠ 'n' ∧ c ≠ 't' ∧ c ≠ 'f' := by
      rcases hc with hc | hc | hc | hc | hc | hc
      · exact hd hc
      all_goals (subst hc; decide)
    simp [shapeOf, hall.1, hall.2.1, hall.2.2.1, hall.2.2.2.1, hall.2.2.2.2.1, hall.2.2.2.2.2]

theorem shapeOf_literal (raw : List Char) :
    shapeOf (dquote :: (raw ++ [dquote])) = Shape.string raw := by
  have h : dquote ≠ '\x7b' ∧ dquote ≠ '[' := by decide
  simp [shapeOf, h]

theorem storeString_literal (ctx : Option (String × String)) (cur : String)
    (raw : List Char) :
    storeString ctx cur (dquote :: (raw ++ [dquote])) = (unquote raw, none) := by
  simp [storeString, shapeOf_literal]

theorem nonSpace_of_solid (lead v trail : List Char) (hv : Solid v) :
    nonSpace (lead ++ (v ++ trail)) = true := by
  obtain ⟨⟨a, rest, hva, ha, _, _⟩, _⟩ := hv
  subst hva
  simp [nonSpace, ha]

theorem compoundItems_elements (items : List Element) (hne : items ≠ [])
    (hsp : ∀ x ∈ items, x.spaced) (hv : ∀ x ∈ items, Inert x.value ∧ Solid x.value) :
    compoundItems ('[' :: (joinComma (items.map Element.text) ++ [']']))
      = items.map Element.text := by
  have h := splitItems_joinComma ']' (Or.inr rfl) [] (items.map Element.text)
    (by simpa using hne) (by
      intro x hx
      obtain ⟨e, he, hxe⟩ := List.mem_map.1 hx
      rw [← hxe]
      exact inert_elementText e (hsp e he) (hv e he).1)
  simp only [compoundItems, List.tail_cons, h]
  rw [List.filter_eq_self]
  intro x hx
  obtain ⟨e, he, hxe⟩ := List.mem_map.1 hx
  rw [← hxe]
  exact nonSpace_of_solid _ _ _ (hv e he).2

theorem compoundItems_gap (open_ close : Char) (hclose : close = ']' ∨ close = '\x7d')
    (w : List Char) (hw : nonSpace w = false) :
    compoundItems (open_ :: (w ++ [close])) = [] := by
  have hend : splitItems 0 false false [close] = [[]] := by
    have h1 : '\x7d' ≠ dquote ∧ ']' ≠ dquote ∧ ']' ≠ '\x7b' ∧ ']' ≠ '[' := by decide
    rcases hclose with h | h <;> subst h <;> simp [splitItems, h1]
  simp only [compoundItems, List.tail_cons]
  rw [inert_spaces w hw 0 [close], hend, foldr_consFirst]
  simp [hw]

theorem storeElems_literals (ctx : Option (String × String)) :
    ∀ items : List Element, (∀ x ∈ items, x.spaced) →
      (∀ x ∈ items, ∃ raw, StrRaw raw ∧ x.value = dquote :: (raw ++ [dquote])) →
      storeElems ctx [] (items.map Element.text)
        = (items.map (fun x => unquote x.value.tail.dropLast), none) := by
  intro items
  induction items with
  | nil => intro _ _; rfl
  | cons x rest ih =>
    intro hsp hraw
    obtain ⟨raw, hr, hv⟩ := hraw x (by simp)
    have hsolid : Solid x.value := solid_json 0 _ (by rw [hv]; exact JsonValue.string 0 raw hr)
    have htrim : trim x.text = x.value :=
      trim_padded _ _ _ (hsp x (by simp)).1 (hsp x (by simp)).2 hsolid
    have hrec := ih (fun z hz => hsp z (by simp [hz])) (fun z hz => hraw z (by simp [hz]))
    simp only [List.map_cons, storeElems, List.tail_nil, hrec, htrim]
    rw [hv, storeString_literal]
    simp [saveError]

/-- Storing a value of the field's type into the zero value of the field gives
the value it stands for, without error. -/
theorem storeValue_holds (tu : TimeUnmarshaler) (ctx : Option (String × String)) (d : Nat)
    (k : Kind) (v : List Char) (val : Value) (h : Holds tu d k v val) :
    storeValue tu ctx k.zero v = Except.ok (val, none) := by
  cases h with
  | str _ raw hraw => simp [storeValue, Kind.zero, storeString_literal]
  | int _ _ n hl hp => simp [storeValue, Kind.zero, storeInt64, shapeOf_number v hl, hp]
  | null _ _ hk =>
    have hshape : shapeOf ['n', 'u', 'l', 'l'] = Shape.null := by decide
    rcases hk with hk | hk <;> subst hk <;>
      simp [storeValue, Kind.zero, storeString, storeInt64, hshape]
  | nil _ =>
    have hshape : shapeOf ['n', 'u', 'l', 'l'] = Shape.null := by decide
    simp [storeValue, Kind.zero, storeStrings, hshape]
  | empty d' w hw =>
    have hshape : shapeOf ('[' :: (w ++ [']'])) = Shape.array := by
      have h : '[' ≠ '\x7b' := by decide
      simp [shapeOf, h]
    simp [storeValue, Kind.zero, storeStrings, hshape,
      compoundItems_gap '[' ']' (Or.inl rfl) w hw]
  | strs d' items hne hsp hraw =>
    have hshape : shapeOf ('[' :: (joinComma (items.map Element.text) ++ [']']))
        = Shape.array := by
      have h : '[' ≠ '\x7b' := by decide
      simp [shapeOf, h]
    have hitems := compoundItems_elements items hne hsp (by
      intro x hx
      obtain ⟨raw, hr, hv⟩ := hraw x hx
      have hj : JsonValue 0 x.value := by rw [hv]; exact JsonValue.string 0 raw hr
      exact ⟨inert_json 0 _ hj, solid_json 0 _ hj⟩)
    have hlen : ¬ (items.map Element.text).length = 0 := by simpa using hne
    simp only [storeValue, Kind.zero, storeStrings, hshape, hitems]
    rw [if_neg hlen]
    simp [storeElems_literals ctx items hsp hraw]
  | time _ _ t _ ht => simp [storeValue, Kind.zero, ht]

theorem holds_hasKind (tu : TimeUnmarshaler) (d : Nat) (k : Kind) (v : List Char)
    (val : Value) (h : Holds tu d k v val) : val.hasKind k := by
  cases h with
  | str _ raw hraw => trivial
  | int _ _ n _ _ => trivial
  | null _ _ _ => exact zero_hasKind k
  | nil _ => rfl
  | empty d' w hw => rfl
  | strs d' items hne hsp hraw => rfl
  | time _ _ t _ _ => trivial

/-! ## Decoding the text of a JSON object -/

theorem splitMember_text (m : Member) (hsp : m.spaced) :
    splitMember m.text = (m.key, m.lead ++ (m.value ++ m.trail)) := by
  obtain ⟨h1, h2, h3, _, _⟩ := hsp
  have hq : isSpace dquote = false := by decide
  have hc : isSpace ':' = false := by decide
  simp only [splitMember, Member.text]
  rw [trimLeft_spaces_append m.pre _ h1, trimLeft_cons _ _ hq]
  simp only [List.tail_cons]
  rw [spanString_strRaw m.key _ h2]
  simp only
  rw [trimLeft_spaces_append m.mid _ h3, trimLeft_cons _ _ hc]
  rfl

theorem typed_json (tu : TimeUnmarshaler) (T : StructType) (d : Nat) (e : Entry)
    (h : e.typed tu T d) : JsonValue d e.member.value := by
  obtain ⟨_, _, h3⟩ := h
  rcases hs : e.store with _ | ⟨i, val⟩
  · rw [hs] at h3
    exact h3
  · rw [hs] at h3
    exact holds_json tu d _ _ _ h3

theorem storeAll_length : ∀ (l : List (Nat × Value)) (vals : List Value),
    (storeAll vals l).length = vals.length := by
  intro l
  induction l with
  | nil => intro vals; rfl
  | cons p rest ih =>
    intro vals
    simp only [storeAll, List.foldl_cons]
    have := ih (vals.set p.1 p.2)
    simp only [storeAll] at this
    rw [this, List.length_set]

theorem storeAll_absent (i : Nat) (dflt : Value) :
    ∀ (l : List (Nat × Value)) (vals : List Value), i ∉ l.map Prod.fst →
      (storeAll vals l).getD i dflt = vals.getD i dflt := by
  intro l
  induction l with
  | nil => intro vals _; rfl
  | cons p rest ih =>
    intro vals h
    simp only [List.map_cons, List.mem_cons, not_or] at h
    simp only [storeAll, List.foldl_cons]
    have := ih (vals.set p.1 p.2) h.2
    simp only [storeAll] at this
    rw [this, getD_set_ne _ _ _ _ _ (Ne.symm h.1)]

theorem storeAll_present (i : Nat) (val dflt : Value) :
    ∀ (l : List (Nat × Value)) (vals : List Value), (i, val) ∈ l → (l.map Prod.fst).Nodup →
      i < vals.length → (storeAll vals l).getD i dflt = val := by
  intro l
  induction l with
  | nil => intro vals h; simp at h
  | cons p rest ih =>
    intro vals h hnd hi
    simp only [List.map_cons, List.nodup_cons] at hnd
    simp only [storeAll, List.foldl_cons]
    rcases List.mem_cons.1 h with h | h
    · subst h
      have := storeAll_absent i dflt rest (vals.set i val) hnd.1
      simp only [storeAll] at this
      rw [this, getD_set_eq _ _ _ _ hi]
    · have := ih (vals.set p.1 p.2) h hnd.2 (by simpa using hi)
      simpa [storeAll] using this

theorem findField_lt (fields : List Field) (key : String) (i : Nat)
    (h : findField fields key = some i) : i < fields.length := by
  simp only [findField] at h
  split at h
  · rename_i j hj
    simp only [Option.some.injEq] at h
    subst h
    exact (List.findIdx?_eq_some_iff_findIdx_eq.1 hj).1
  · exact (List.findIdx?_eq_some_iff_findIdx_eq.1 h).1

/-- The member loop over the members of a JSON object: each member whose key
selects a field stores its value there, the others are passed over. -/
theorem storeMembers_entries (tu : TimeUnmarshaler) (T : StructType) (d : Nat)
    (saved : Option GoError) :
    ∀ (es : List Entry) (vals : List Value),
      vals.length = T.fields.length →
      (∀ e ∈ es, e.typed tu T d) →
      ((es.filterMap Entry.store).map Prod.fst).Nodup →
      (∀ p ∈ es.filterMap Entry.store, vals.getD p.1 (Value.str "") = (T.kindAt p.1).zero) →
      storeMembers tu T vals saved (es.map (fun e => e.member.text))
        = Except.ok (storeAll vals (es.filterMap Entry.store), saved) := by
  intro es
  induction es with
  | nil => intro vals _ _ _ _; rfl
  | cons e rest ih =>
    intro vals hlen htyped hnd hzero
    have hte := htyped e (by simp)
    obtain ⟨hsp, hfind, hval⟩ := hte
    have hj := typed_json tu T d e (htyped e (by simp))
    have htrim : trim (e.member.lead ++ (e.member.value ++ e.member.trail)) = e.member.value :=
      trim_padded _ _ _ hsp.2.2.2.1 hsp.2.2.2.2 (solid_json d _ hj)
    rcases hs : e.store with _ | ⟨i, val⟩
    · rw [hs] at hfind
      simp only [Option.map_none'] at hfind
      simp only [List.map_cons, storeMembers, splitMember_text e.member hsp, hfind]
      have hfm : (e :: rest).filterMap Entry.store = rest.filterMap Entry.store := by
        simp [List.filterMap_cons, hs]
      rw [hfm] at hnd hzero ⊢
      exact ih vals hlen (fun e' he' => htyped e' (by simp [he'])) hnd hzero
    · rw [hs] at hfind hval
      simp only [Option.map_some'] at hfind
      have hfm : (e :: rest).filterMap Entry.store = (i, val) :: rest.filterMap Entry.store := by
        simp [List.filterMap_cons, hs]
      rw [hfm] at hnd hzero ⊢
      simp only [List.map_cons, List.nodup_cons] at hnd
      have hcur := hzero (i, val) (by simp)
      simp only at hcur hval
      have hstore := storeValue_holds tu (some (T.name, (T.fields.map (fun f => f.key)).getD i ""))
        d (T.kindAt i) e.member.value val hval
      simp only [List.map_cons, storeMembers, splitMember_text e.member hsp, hfind, htrim, hcur,
        hstore, saveError]
      have hrec := ih (vals.set i val) (by simpa using hlen)
        (fun e' he' => htyped e' (by simp [he'])) hnd.2
        (by
          intro p hp
          have hne : i ≠ p.1 := by
            intro heq
            exact hnd.1 (by rw [heq]; exact List.mem_map_of_mem _ hp)
          rw [getD_set_ne _ _ _ _ _ hne]
          exact hzero p (by simp [hp]))
      cases saved <;> simpa [storeAll] using hrec

theorem readValueLoop_close_top (buf tail : List Char) (st : Step) (n : Nat)
    (hst : ValueDone st) :
    readValueLoop buf (scannerAt st [ParseKind.parseObjectValue]) ('\x7d' :: tail) n
      = Except.ok (n + 1) := by
  have h : isSpace ' ' = true := by decide
  simp [readValueLoop, run_done_close_top st hst, stateEndValue, stateEndTop, h]

/-- The scanner reads a JSON object, with white space before it and any text
after it, as the first value of the body. -/
theorem readValue_object (d : Nat) (hd : d + 1 ≤ maxNestingDepth) (w0 gap tail : List Char)
    (ms : List Member) (hw0 : nonSpace w0 = false) (hgap : nonSpace gap = false)
    (hsp : ∀ m ∈ ms, m.spaced) (hv : ∀ m ∈ ms, JsonValue d m.value) :
    readValue (w0 ++ (objectText gap ms ++ tail))
      = Except.ok (w0 ++ objectText gap ms).length := by
  have hsplit : w0 ++ (objectText gap ms ++ tail)
      = (w0 ++ ('\x7b' :: (gap ++ joinComma (ms.map Member.text)))) ++ '\x7d' :: tail := by
    simp [objectText]
  have hlen : (w0 ++ objectText gap ms).length
      = 0 + (w0 ++ ('\x7b' :: (gap ++ joinComma (ms.map Member.text)))).length + 1 := by
    simp [objectText]
    omega
  have hopen : scanThrough Scanner.reset (w0 ++ ('\x7b' :: gap))
      = some (scannerAt Step.stateBeginStringOrEmpty [ParseKind.parseObjectKey]) := by
    rw [scanThrough_append_of _ _ _ _ (scanThrough_spaces w0 hw0)]
    simp only [scanThrough, run_open_object]
    rw [if_neg (by simp [not_stops_nested _ _ _ (List.cons_ne_nil _ _)])]
    exact scanThrough_space Step.stateBeginStringOrEmpty _ [] (by simp) gap hgap
  rw [readValue, hlen]
  by_cases hms : ms = []
  · subst hms
    have hthrough : scanThrough Scanner.reset
        (w0 ++ ('\x7b' :: (gap ++ joinComma (([] : List Member).map Member.text))))
        = some (scannerAt Step.stateBeginStringOrEmpty [ParseKind.parseObjectKey]) := by
      simpa [joinComma] using hopen
    have := readValueLoop_through (w0 ++ (objectText gap [] ++ tail)) _ ('\x7d' :: tail)
      Scanner.reset _ 0 hthrough
    rw [← hsplit] at this
    rw [this]
    have hrun : (scannerAt Step.stateBeginStringOrEmpty [ParseKind.parseObjectKey]).run '\x7d'
        = ({ step := Step.stateEndTop, parseState := [], err := none, endTop := true },
            Code.scanEndObject) := by
      decide
    have h : isSpace ' ' = true := by decide
    simp [readValueLoop, hrun, stateEndValue, stateEndTop, h]
  · obtain ⟨st1, h1, h2⟩ := scanThrough_memberTexts d [] ms Step.stateBeginStringOrEmpty
      (Or.inr rfl) hms hsp
      (fun m hm => ⟨scansAt_json d _ (hv m hm), solid_json d _ (hv m hm)⟩)
      (by simp only [List.length_cons, List.length_nil]; omega)
    have hthrough : scanThrough Scanner.reset
        (w0 ++ ('\x7b' :: (gap ++ joinComma (ms.map Member.text))))
        = some (scannerAt st1 [ParseKind.parseObjectValue]) := by
      have e : w0 ++ ('\x7b' :: (gap ++ joinComma (ms.map Member.text)))
          = (w0 ++ ('\x7b' :: gap)) ++ joinComma (ms.map Member.text) := by simp
      rw [e, scanThrough_append_of _ _ _ _ hopen, h2]
    have := readValueLoop_through (w0 ++ (objectText gap ms ++ tail)) _ ('\x7d' :: tail)
      Scanner.reset _ 0 hthrough
    rw [← hsplit] at this
    rw [this]
    exact readValueLoop_close_top _ tail st1 _ h1

theorem compoundItems_members (ms : List Member) (hne : ms ≠ [])
    (hsp : ∀ m ∈ ms, m.spaced) (hv : ∀ m ∈ ms, Inert m.value) :
    compoundItems (objectText [] ms) = ms.map Member.text := by
  have h := splitItems_joinComma '\x7d' (Or.inl rfl) [] (ms.map Member.text)
    (by simpa using hne) (by
      intro x hx
      obtain ⟨m, hm, hxm⟩ := List.mem_map.1 hx
      rw [← hxm]
      exact inert_memberText m (hsp m hm) (hv m hm))
  simp only [compoundItems, objectText, List.nil_append, List.tail_cons, h]
  rw [List.filter_eq_self]
  intro x hx
  obtain ⟨m, hm, hxm⟩ := List.mem_map.1 hx
  rw [← hxm]
  have hq : isSpace dquote = false := by decide
  simp [nonSpace, Member.text, hq]

theorem unmarshal_object (tu : TimeUnmarshaler) (T : StructType) (d : Nat)
    (w0 : List Char) (es : List Entry) (hw0 : nonSpace w0 = false) (hne : es ≠ [])
    (htyped : ∀ e ∈ es, e.typed tu T d)
    (hnd : ((es.filterMap Entry.store).map Prod.fst).Nodup) :
    unmarshalStructPtr tu T (w0 ++ objectText [] (es.map Entry.member))
      = Except.ok (some (storeAll T.zero (es.filterMap Entry.store))) := by
  have hsolid : Solid (objectText [] (es.map Entry.member)) :=
    solid_of_ends _ '\x7b' '\x7d' (joinComma ((es.map Entry.member).map Member.text)) rfl
      (by decide) (by decide)
  have htrim : trim (w0 ++ objectText [] (es.map Entry.member))
      = objectText [] (es.map Entry.member) := by
    have := trim_padded w0 _ [] hw0 rfl hsolid
    simpa using this
  have hshape : shapeOf (objectText [] (es.map Entry.member)) = Shape.object := by
    simp [shapeOf, objectText]
  have hitems := compoundItems_members (es.map Entry.member) (by simpa using hne)
    (by
      intro m hm
      obtain ⟨e, he, hem⟩ := List.mem_map.1 hm
      rw [← hem]
      exact (htyped e he).1)
    (by
      intro m hm
      obtain ⟨e, he, hem⟩ := List.mem_map.1 hm
      rw [← hem]
      exact inert_json d _ (typed_json tu T d e (htyped e he)))
  have hstore := storeMembers_entries tu T d none es T.zero (by simp [StructType.zero]) htyped
    hnd (fun p _ => zero_getD T p.1)
  simp only [List.map_map] at hitems
  have hmap : (es.map (fun e => e.member.text)) = List.map (Member.text ∘ Entry.member) es := rfl
  rw [hmap] at hstore
  simp only [unmarshalStructPtr, storeStructPtr, htrim, hshape, hitems, hstore]

theorem unmarshal_empty_object (tu : TimeUnmarshaler) (T : StructType)
    (w0 gap : List Char) (hw0 : nonSpace w0 = false) (hgap : nonSpace gap = false) :
    unmarshalStructPtr tu T (w0 ++ objectText gap []) = Except.ok (some T.zero) := by
  have hsolid : Solid (objectText gap []) :=
    solid_of_ends _ '\x7b' '\x7d' gap rfl (by decide) (by decide)
  have htrim : trim (w0 ++ objectText gap []) = objectText gap [] := by
    have := trim_padded w0 _ [] hw0 rfl hsolid
    simpa using this
  have hshape : shapeOf (objectText gap []) = Shape.object := by
    simp [shapeOf, objectText]
  have hitems : compoundItems (objectText gap []) = [] := by
    have := compoundItems_gap '\x7b' '\x7d' (Or.inr rfl) gap hgap
    simpa [objectText, joinComma] using this
  simp only [unmarshalStructPtr, storeStructPtr, htrim, hshape, hitems, storeMembers]

/-- The white space after the opening brace belongs to the first member. -/
theorem objectText_gap (gap : List Char) (m : Member) (ms : List Member) :
    objectText gap (m :: ms) = objectText [] ({ m with pre := gap ++ m.pre } :: ms) := by
  cases ms with
  | nil => simp [objectText, joinComma, Member.text]
  | cons y ys => simp [objectText, joinComma, Member.text]

/-- Decoding a body whose first value is a JSON object, into a struct: every
member whose key selects a field holds a value of the field's type, no field is
selected twice, the other members hold any JSON value. Each selected field gets
the value of its member, the other fields stay zero. -/
theorem decode_object (tu : TimeUnmarshaler) (T : StructType) (d : Nat)
    (hd : d + 1 ≤ maxNestingDepth) (w0 gap tail : List Char) (es : List Entry)
    (hw0 : nonSpace w0 = false) (hgap : nonSpace gap = false)
    (htyped : ∀ e ∈ es, e.typed tu T d)
    (hnd : ((es.filterMap Entry.store).map Prod.fst).Nodup) :
    Decode (unmarshalStructPtr tu T) (w0 ++ (objectText gap (es.map Entry.member) ++ tail))
      = Except.ok (some (storeAll T.zero (es.filterMap Entry.store))) := by
  have hread := readValue_object d hd w0 gap tail (es.map Entry.member) hw0 hgap
    (by
      intro m hm
      obtain ⟨e, he, hem⟩ := List.mem_map.1 hm
      rw [← hem]
      exact (htyped e he).1)
    (by
      intro m hm
      obtain ⟨e, he, hem⟩ := List.mem_map.1 hm
      rw [← hem]
      exact typed_json tu T d e (htyped e he))
  have htake : (w0 ++ (objectText gap (es.map Entry.member) ++ tail)).take
      (w0 ++ objectText gap (es.map Entry.member)).length
      = w0 ++ objectText gap (es.map Entry.member) := by
    rw [← List.append_assoc, List.take_left']
    rfl
  simp only [Decode, hread, htake]
  cases es with
  | nil => simpa [storeAll] using unmarshal_empty_object tu T w0 gap hw0 hgap
  | cons e rest =>
    have hte := htyped e (by simp)
    have h := unmarshal_object tu T d w0
      ({ e with member := { e.member with pre := gap ++ e.member.pre } } :: rest) hw0
      (List.cons_ne_nil _ _)
      (by
        intro e' he'
        rcases List.mem_cons.1 he' with h | h
        · subst h
          obtain ⟨⟨h1, h2, h3, h4, h5⟩, hf, hv⟩ := hte
          exact ⟨⟨(nonSpace_append gap _).2 ⟨hgap, h1⟩, h2, h3, h4, h5⟩, hf, hv⟩
        · exact htyped e' (by simp [h]))
      (by simpa [List.filterMap_cons] using hnd)
    simp only [List.map_cons] at h ⊢
    rw [objectText_gap gap e.member]
    simpa [List.filterMap_cons] using h

/-! ## Lemmas on the fields a response object sets -/

theorem strRaw_isPlain (raw : List Char) (h : raw.all isPlain = true) : StrRaw raw :=
  strRaw_plain raw h

theorem holds_ofString (tu : TimeUnmarshaler) (d : Nat) (s : String)
    (h : s.data.all isPlain = true) :
    Holds tu d Kind.string (dquote :: (s.data ++ [dquote])) (Value.str s) := by
  have h1 := @Holds.str tu d s.data (strRaw_plain _ h)
  rwa [unquote_plain _ h] at h1

theorem typed_ofString (tu : TimeUnmarshaler) (T : StructType) (d i : Nat)
    (pre key lead s trail : String)
    (hpre : nonSpace pre.data = false) (hkey : key.data.all isPlain = true)
    (hlead : nonSpace lead.data = false) (hs : s.data.all isPlain = true)
    (htrail : nonSpace trail.data = false)
    (hfind : findField T.fields key = some i) (hk : T.kindAt i = Kind.string) :
    (Entry.ofString i pre key lead s trail).typed tu T d := by
  refine ⟨⟨hpre, strRaw_plain _ hkey, rfl, hlead, htrail⟩, ?_, ?_⟩
  · simp only [Entry.ofString, unquote_plain _ hkey, Option.map_some']
    exact hfind
  · simp only [Entry.ofString, hk]
    exact holds_ofString tu d s hs

theorem entry_store_lt (tu : TimeUnmarshaler) (T : StructType) (d : Nat) (e : Entry)
    (h : e.typed tu T d) (i : Nat) (val : Value) (hs : e.store = some (i, val)) :
    i < T.fields.length := by
  have h2 := h.2.1
  rw [hs] at h2
  exact findField_lt _ _ i h2

theorem entry_store_holds (tu : TimeUnmarshaler) (T : StructType) (d : Nat) (e : Entry)
    (h : e.typed tu T d) (i : Nat) (val : Value) (hs : e.store = some (i, val)) :
    Holds tu d (T.kindAt i) e.member.value val := by
  have h3 := h.2.2
  rw [hs] at h3
  exact h3

theorem storeAll_entries_kinds (tu : TimeUnmarshaler) (T : StructType) (d : Nat)
    (es : List Entry) (htyped : ∀ e ∈ es, e.typed tu T d)
    (hnd : ((es.filterMap Entry.store).map Prod.fst).Nodup) (i : Nat)
    (hi : i < T.fields.length) :
    ((storeAll T.zero (es.filterMap Entry.store)).getD i (Value.str "")).hasKind (T.kindAt i) := by
  by_cases h : i ∈ (es.filterMap Entry.store).map Prod.fst
  · obtain ⟨p, hp, hpi⟩ := List.mem_map.1 h
    obtain ⟨e, he, hes⟩ := List.mem_filterMap.1 hp
    have hmem : (i, p.2) ∈ es.filterMap Entry.store := by rw [← hpi]; exact hp
    rw [storeAll_present i p.2 _ _ T.zero hmem hnd (by simpa [StructType.zero] using hi)]
    have := entry_store_holds tu T d e (htyped e he) p.1 p.2 hes
    rw [hpi] at this
    exact holds_hasKind tu d _ _ _ this
  · rw [storeAll_absent i _ _ T.zero h, zero_getD]
    exact zero_hasKind _

/-! ## Lemmas on the sample bodies -/

theorem getVolumeSuccess_typed (tu : TimeUnmarshaler) :
    ∀ e ∈ getVolumeSuccessEntries, e.typed tu volumeType 1 := by
  intro e he
  simp only [getVolumeSuccessEntries, List.mem_cons, List.mem_singleton, List.not_mem_nil,
    or_false] at he
  rcases he with he | he | he | he | he | he <;> subst he
  iterate 5
    exact typed_ofString tu volumeType 1 _ _ _ _ _ _ (by decide) (by decide) (by decide)
      (by decide) (by decide) (by decide) (by decide)
  refine ⟨⟨by decide, strRaw_plain _ (by decide), by decide, by decide, by decide⟩,
    by decide, ?_⟩
  have hh := @Holds.strs tu 0
    [⟨"\n      ".data, dquote :: ("1537d72a-949a-2d89-7049-17b2f2a8b634".data ++ [dquote]),
      "\n    ".data⟩] (by simp)
    (by intro x hx; simp only [List.mem_singleton] at hx; subst hx; exact ⟨by decide, by decide⟩)
    (by
      intro x hx
      simp only [List.mem_singleton] at hx
      subst hx
      exact ⟨_, strRaw_plain _ (by decide), rfl⟩)
  have hv : [({ lead := "\n      ".data,
                value := dquote :: ("1537d72a-949a-2d89-7049-17b2f2a8b634".data ++ [dquote]),
                trail := "\n    ".data } : Element)].map
        (fun x => unquote x.value.tail.dropLast)
      = ["1537d72a-949a-2d89-7049-17b2f2a8b634"] := by decide
  rw [hv] at hh
  exact hh

theorem spacedVolume_typed (tu : TimeUnmarshaler) :
    ∀ e ∈ spacedVolumeEntries, e.typed tu volumeType 2 := by
  intro e he
  simp only [spacedVolumeEntries, List.mem_cons, List.mem_singleton, List.not_mem_nil,
    or_false] at he
  rcases he with he | he | he | he <;> subst he
  · exact ⟨⟨by decide, strRaw_plain _ (by decide), by decide, by decide, by decide⟩,
      by decide, holds_ofString tu 2 "ready" (by decide)⟩
  · refine ⟨⟨by decide, strRaw_plain _ (by decide), by decide, by decide, by decide⟩,
      by decide, ?_⟩
    exact JsonValue.object 1 [⟨[], "self".data, [], " ".data, "[true, null]".data, []⟩]
      (by simp)
      (by
        intro m hm
        simp only [List.mem_singleton] at hm
        subst hm
        exact ⟨by decide, strRaw_plain _ (by decide), by decide, by decide, by decide⟩)
      (by
        intro m hm
        simp only [List.mem_singleton] at hm
        subst hm
        exact JsonValue.array 0 [⟨[], "true".data, []⟩, ⟨" ".data, "null".data, []⟩]
          (by simp)
          (by
            intro x hx
            simp only [List.mem_cons, List.mem_singleton, List.not_mem_nil, or_false] at hx
            rcases hx with hx | hx <;> subst hx <;> exact ⟨by decide, by decide⟩)
          (by
            intro x hx
            simp only [List.mem_cons, List.mem_singleton, List.not_mem_nil, or_false] at hx
            rcases hx with hx | hx <;> subst hx
            · exact JsonValue.true_ 0
            · exact JsonValue.null 0))
  · refine ⟨⟨by decide, strRaw_plain _ (by decide), by decide, by decide, by decide⟩,
      by decide, ?_⟩
    exact Holds.int 2 "12".data 12
      ⟨[], ['1', '2'], [], [], rfl, Or.inl rfl, Or.inr ⟨'1', ['2'], rfl, by decide, by decide⟩,
        Or.inl rfl, Or.inl rfl⟩ (by decide)
  · refine ⟨⟨by decide, strRaw_plain _ (by decide), by decide, by decide, by decide⟩,
      by decide, ?_⟩
    have hh := @Holds.strs tu 1 [⟨[], dquote :: ("n".data ++ [dquote]), []⟩] (by simp)
      (by intro x hx; simp only [List.mem_singleton] at hx; subst hx; exact ⟨by decide, by decide⟩)
      (by
        intro x hx
        simp only [List.mem_singleton] at hx
        subst hx
        exact ⟨_, strRaw_plain _ (by decide), rfl⟩)
    have hv : [({ lead := [], value := dquote :: ("n".data ++ [dquote]), trail := [] } : Element)].map
          (fun x => unquote x.value.tail.dropLast) = ["n"] := by decide
    rw [hv] at hh
    exact hh

theorem exportImage_typed :
    ∀ e ∈ exportImageEntries, e.typed (fun _ t => Except.ok t) mantaLocationType 1 := by
  intro e he
  simp only [exportImageEntries, List.mem_cons, List.mem_singleton, List.not_mem_nil,
    or_false] at he
  rcases he with he | he | he <;> subst he <;>
    exact typed_ofString _ mantaLocationType 1 _ _ _ _ _ _ (by decide) (by decide) (by decide)
      (by decide) (by decide) (by decide) (by decide)

theorem spacedExport_typed :
    ∀ e ∈ spacedExportEntries, e.typed (fun _ t => Except.ok t) mantaLocationType 2 := by
  intro e he
  simp only [spacedExportEntries, List.mem_cons, List.mem_singleton, List.not_mem_nil,
    or_false] at he
  rcases he with he | he | he <;> subst he
  · exact ⟨⟨by decide, strRaw_plain _ (by decide), by decide, by decide, by decide⟩,
      by decide, holds_ofString _ 2 "i" (by decide)⟩
  · refine ⟨⟨by decide, strRaw_plain _ (by decide), by decide, by decide, by decide⟩,
      by decide, ?_⟩
    exact JsonValue.object 1 [⟨[], "id".data, [], " ".data, "[-1.5e3, false]".data, []⟩]
      (by simp)
      (by
        intro m hm
        simp only [List.mem_singleton] at hm
        subst hm
        exact ⟨by decide, strRaw_plain _ (by decide), by decide, by decide, by decide⟩)
      (by
        intro m hm
        simp only [List.mem_singleton] at hm
        subst hm
        exact JsonValue.array 0 [⟨[], "-1.5e3".data, []⟩, ⟨" ".data, "false".data, []⟩]
          (by simp)
          (by
            intro x hx
            simp only [List.mem_cons, List.mem_singleton, List.not_mem_nil, or_false] at hx
            rcases hx with hx | hx <;> subst hx <;> exact ⟨by decide, by decide⟩)
          (by
            intro x hx
            simp only [List.mem_cons, List.mem_singleton, List.not_mem_nil, or_false] at hx
            rcases hx with hx | hx <;> subst hx
            · exact JsonValue.number 0 _ ⟨['-'], ['1'], ['.', '5'], ['e', '3'], rfl, Or.inr rfl,
                Or.inr ⟨'1', [], rfl, by decide, by decide⟩,
                Or.inr ⟨'5', [], rfl, by decide, by decide⟩,
                Or.inr ⟨'e', [], '3', [], rfl, Or.inl rfl, Or.inl rfl, by decide, by decide⟩⟩
            · exact JsonValue.false_ 0))
  · refine ⟨⟨by decide, ?_, by decide, by decide, by decide⟩, by decide, ?_⟩
    · exact strRaw_plain _ (by decide)
    · have hh := @Holds.str (fun _ t => Except.ok t) 2 [ 'u', bslash, 'n']
        (StrRaw.cons ['u'] [bslash, 'n'] (StrPiece.plain 'u' (by decide) (by decide) (by decide))
          (StrRaw.cons [bslash, 'n'] [] (StrPiece.short 'n' (by decide)) StrRaw.nil))
      have hv : unquote ['u', bslash, 'n'] = "u\n" := by decide
      rw [hv] at hh
      exact hh

/-! ## C1: a transport error is wrapped and nothing is decoded -/

/-- C1. For each of the volume operations List, Get, Create, Delete and
Update: when the transport executor returns an error `e` (with or without a
stream `r`), the operation returns the error whose message is
`"Error executing <Op> request: "` followed by `e`'s message, the returned
entity (List, Get, Create) is nil, and no stream is handed to the JSON decoder. -/
theorem volume_transport_error (tu : TimeUnmarshaler) (c : VolumesClient)
    (r : Option ReadCloser) (e : GoError) :
    (∀ input, c.client.ExecuteRequest (VolumesClient.List.reqInputs c input) = (r, some e) →
      (VolumesClient.List tu c input).outcome
          = Outcome.returned none (some ⟨"Error executing List request: " ++ e.msg⟩)
        ∧ ∀ s, Event.decode s ∉ (VolumesClient.List tu c input).trace)
    ∧ (∀ input, c.client.ExecuteRequest (VolumesClient.Get.reqInputs c input) = (r, some e) →
      (VolumesClient.Get tu c input).outcome
          = Outcome.returned none (some ⟨"Error executing Get request: " ++ e.msg⟩)
        ∧ ∀ s, Event.decode s ∉ (VolumesClient.Get tu c input).trace)
    ∧ (∀ input, c.client.ExecuteRequest (VolumesClient.Create.reqInputs c input) = (r, some e) →
      (VolumesClient.Create tu c input).outcome
          = Outcome.returned none (some ⟨"Error executing Create request: " ++ e.msg⟩)
        ∧ ∀ s, Event.decode s ∉ (VolumesClient.Create tu c input).trace)
    ∧ (∀ input, c.client.ExecuteRequest (VolumesClient.Delete.reqInputs c input) = (r, some e) →
      (VolumesClient.Delete c input).outcome
          = Outcome.returned () (some ⟨"Error executing Delete request: " ++ e.msg⟩)
        ∧ ∀ s, Event.decode s ∉ (VolumesClient.Delete c input).trace)
    ∧ (∀ input, c.client.ExecuteRequest (VolumesClient.Update.reqInputs c input) = (r, some e) →
      (VolumesClient.Update c input).outcome
          = Outcome.returned () (some ⟨"Error executing Update request: " ++ e.msg⟩)
        ∧ ∀ s, Event.decode s ∉ (VolumesClient.Update c input).trace) := by
  refine ⟨?_, ?_, ?_, ?_, ?_⟩ <;> intro input h
  · simp only [VolumesClient.List, h, Wrapf_executing_List]
    cases r <;> simp [deferredClose]
  · simp only [VolumesClient.Get, h, Wrapf_executing_Get]
    cases r <;> simp [deferredClose]
  · simp only [VolumesClient.Create, h, Wrapf_executing_Create]
    cases r <;> simp [deferredClose]
  · simp only [VolumesClient.Delete, h, Wrapf_executing_Delete]
    cases r <;> simp [deferredClose]
  · simp only [VolumesClient.Update, h, Wrapf_executing_Update]
    cases r <;> simp [deferredClose]

/-- Witness of C1: with the transport failing with `boom`, `Get` returns a nil
volume and the error `Error executing Get request: boom`. -/
theorem volume_transport_error_witness :
    (VolumesClient.Get sampleTime failingClient ⟨"e435d72a"⟩).outcome
      = Outcome.returned none (some ⟨"Error executing Get request: boom"⟩) :=
  ((volume_transport_error sampleTime failingClient none ⟨"boom"⟩).2.1 ⟨"e435d72a"⟩ rfl).1

/-! ## C2: decode errors of `Get` -/

/-- C2, counterexample. The body `{}x` is not valid JSON, yet `Get` returns a
(zero) volume and a nil error: the decoder reads the first value of the stream
and does not examine what follows it. And the body `{"id":"a"`, not valid JSON
either, is refused with `unexpected EOF`, a message without
`invalid character`. -/
theorem get_accepts_trailing_garbage :
    (VolumesClient.Get sampleTime (answeringClient "\x7b\x7dx") ⟨"e435d72a"⟩).outcome
        = Outcome.returned (some Volume.zero) none
    ∧ (VolumesClient.Get sampleTime (answeringClient "\x7b\"id\":\"a\"") ⟨"e435d72a"⟩).outcome
        = Outcome.returned none (some ⟨"Error decoding Get response: unexpected EOF"⟩) := by
  decide

/-- C2, amended. For every `GetVolumeInput`, when the transport call succeeds
with a stream `r`: whenever decoding fails with an error `e`, `Get` returns
a nil volume and the error `"Error decoding Get response: "` followed by `e`'s
message. Decoding fails with the scanner's error whenever the scanner fails on
the first value of the body, and that error is `EOF`, `unexpected EOF` or
`invalid character ...`: it is `EOF` when the body is empty or all space;
`unexpected EOF` when the body breaks off inside an object or an array (it
starts, after white space, with `{` or `[` and is the first `k` characters of
a body whose first value takes more than `k` characters); `invalid character`
followed by the quoted character at which the scanner fails, when it fails at
a character; and `invalid character '}' looking for beginning of object key
string` when the body is an object (of volume members) with a comma before its
closing brace. What follows the closing brace or bracket of the first value is
not examined: `Get` returns the same whatever text comes after it. -/
theorem get_decode_error (tu : TimeUnmarshaler) (c : VolumesClient) (input : GetVolumeInput)
    (r : ReadCloser)
    (h : c.client.ExecuteRequest (VolumesClient.Get.reqInputs c input) = (some r, none)) :
    (∀ e, decodeVolume tu r.data = Except.error e →
      (VolumesClient.Get tu c input).outcome
        = Outcome.returned none (some ⟨"Error decoding Get response: " ++ e.msg⟩))
    ∧ (∀ e, readValue r.data = Except.error e →
        decodeVolume tu r.data = Except.error e
        ∧ (e = EOF ∨ e = ErrUnexpectedEOF
            ∨ ∃ ch ctx, e = ⟨"invalid character " ++ quoteChar ch ++ " " ++ ctx⟩))
    ∧ (nonSpace r.data = false → decodeVolume tu r.data = Except.error ⟨"EOF"⟩)
    ∧ (∀ ms : List (Nat × Wire), ms ≠ [] →
        r.data = encodeObjectTrailingComma (wireMembers volumeType ms) →
        decodeVolume tu r.data = Except.error
          ⟨"invalid character '\x7d' looking for beginning of object key string"⟩)
    ∧ (∀ (whole : List Char) (n k : Nat) (open_ : Char) (rest : List Char),
        readValue whole = Except.ok n → k < n → r.data = whole.take k →
        trimLeft r.data = open_ :: rest → (open_ = '\x7b' ∨ open_ = '[') →
        decodeVolume tu r.data = Except.error ⟨"unexpected EOF"⟩)
    ∧ (∀ (before : List Char) (bad : Char) (after : List Char) (t : Scanner),
        r.data = before ++ bad :: after → scanThrough Scanner.reset before = some t →
        (t.run bad).2 = Code.scanError →
        ∃ ctx, decodeVolume tu r.data
          = Except.error ⟨"invalid character " ++ quoteChar bad ++ " " ++ ctx⟩)
    ∧ (∀ (n : Nat) (close : Char) (tail : List Char) (c2 : VolumesClient) (r2 : ReadCloser),
        readValue r.data = Except.ok n → (r.data.take n).getLast? = some close →
        (close = '\x7d' ∨ close = ']') →
        c2.client.ExecuteRequest (VolumesClient.Get.reqInputs c2 input) = (some r2, none) →
        r2.data = r.data.take n ++ tail →
        (VolumesClient.Get tu c2 input).outcome = (VolumesClient.Get tu c input).outcome) := by
  refine ⟨?_, ?_, ?_, ?_, ?_, ?_, ?_⟩
  · intro e he
    simp only [VolumesClient.Get, h, he, Wrapf_decoding_Get]
  · intro e he
    exact ⟨decodeVolume_of_readValue_error tu _ e he, readValue_error_shape _ e he⟩
  · intro hsp
    exact decodeVolume_of_readValue_error tu _ _ (readValue_spaces _ hsp)
  · intro ms hms hbody
    rw [hbody]
    refine decodeVolume_of_readValue_error tu _ _
      (readValue_trailing_comma _ (by simpa [wireMembers] using hms) ?_)
    intro m hm
    obtain ⟨x, _, hx⟩ := List.mem_map.1 hm
    rw [← hx]
    exact wire_scans x.2
  · intro whole n k open_ rest hw hk hdata hopen hc
    rw [hdata] at hopen ⊢
    exact decodeVolume_of_readValue_error tu _ _
      (readValue_cut_short whole n k hw hk open_ rest hopen hc)
  · intro before bad after t hdata ht herr
    obtain ⟨ctx, hctx⟩ := readValueLoop_rejects r.data before bad after Scanner.reset t 0
      (by simp [Scanner.reset]) ht herr
    refine ⟨ctx, decodeVolume_of_readValue_error tu _ _ ?_⟩
    rw [readValue]
    rw [← hdata] at hctx
    exact hctx
  · intro n close tail c2 r2 hn hlast hc h2 hdata2
    have := decodeVolume_closed tu r.data n close tail hn hlast hc
    simp only [VolumesClient.Get, h, h2, hdata2, this]
    cases decodeVolume tu r.data <;> rfl

set_option maxRecDepth 100000 in
/-- Witness of C2 (amended): on the body of the test `bad_decode`, an object
with a comma before its closing brace; on the empty body of the test `eof`;
and on the body `{"id":"a"`, which breaks off before the closing brace. -/
theorem get_decode_error_witness :
    (VolumesClient.Get sampleTime (answeringClient getVolumeBadDecodeBody) ⟨"e435d72a"⟩).outcome
        = Outcome.returned none (some ⟨"Error decoding Get response: " ++
            "invalid character '\x7d' looking for beginning of object key string"⟩)
    ∧ (VolumesClient.Get sampleTime (answeringClient "") ⟨"e435d72a"⟩).outcome
        = Outcome.returned none (some ⟨"Error decoding Get response: " ++ "EOF"⟩)
    ∧ decodeVolume sampleTime "\x7b\"id\":\"a\"".data = Except.error ⟨"unexpected EOF"⟩ :=
  ⟨(get_decode_error sampleTime (answeringClient getVolumeBadDecodeBody) ⟨"e435d72a"⟩
      ⟨7, getVolumeBadDecodeBody.data⟩ rfl).1 _ (by decide),
   (get_decode_error sampleTime (answeringClient "") ⟨"e435d72a"⟩ ⟨7, []⟩ rfl).1 _
      (by decide),
   (get_decode_error sampleTime (answeringClient "\x7b\"id\":\"a\"") ⟨"e435d72a"⟩
      ⟨7, "\x7b\"id\":\"a\"".data⟩ rfl).2.2.2.2.1 "\x7b\"id\":\"a\"\x7d".data 10 9 '\x7b'
      "\"id\":\"a\"".data (by decide) (by decide) (by decide) (by decide) (Or.inl rfl)⟩

/-! ## C3: what `Get` decodes -/

/-- C3, counterexample. The body `{"size":"x"}` is a well-formed JSON object,
yet `Get` returns a nil volume and a decode error: the string under `size`
cannot be stored in the `int64` field. And the body `{"ID":"a"}`, which has no
key `id`, does not leave `ID` at its zero value: a key also selects the field
whose tag differs from it in letter case only. -/
theorem get_rejects_mistyped_member :
    (VolumesClient.Get sampleTime (answeringClient "\x7b\"size\":\"x\"\x7d") ⟨"e435d72a"⟩).outcome
        = Outcome.returned none (some ⟨"Error decoding Get response: json: cannot unmarshal "
            ++ "string into Go struct field Volume.size of type int64"⟩)
    ∧ (VolumesClient.Get sampleTime (answeringClient "\x7b\"ID\":\"a\"\x7d") ⟨"e435d72a"⟩).outcome
        = Outcome.returned (some ⟨"a", "", "", "", "", none, none, 0, "", Time.zero⟩) none := by
  decide

/-- C3, amended. Let the response body be white space `w0`, then a JSON object,
then any text `tail`, where the object is well formed (white space wherever
JSON allows it, values nested at most `d` deep with `d + 1` within the limit
of the library), every member whose key selects a field of `Volume` holds a
value of that field's type, and no field is selected by two members. When the
transport call succeeds, `Get` returns a volume in which each selected field
equals the value of its member and every other field has its zero value.

A key selects the field tagged with it or, failing that, the first field whose
tag equals it when letter case is ignored; a member whose key selects no field
may hold any JSON value and is skipped. A value of a field's type is: a string
literal for `id`, `name`, `owner_uuid`, `type`, `state`, `filesystem_path`; a
number that is an integer within `int64`, without fraction or exponent, for
`size`; `null` or an array of string literals for `networks`, `refs`; any JSON
value that `time.Time` accepts for `create_timestamp`; and `null` for a string
or for `size`, which leaves the field at its zero value. -/
theorem get_decodes_volume (tu : TimeUnmarshaler) (c : VolumesClient) (input : GetVolumeInput)
    (r : ReadCloser) (d : Nat) (w0 gap tail : List Char) (es : List Entry)
    (h : c.client.ExecuteRequest (VolumesClient.Get.reqInputs c input) = (some r, none))
    (hbody : r.data = w0 ++ (objectText gap (es.map Entry.member) ++ tail))
    (hd : d + 1 ≤ maxNestingDepth)
    (hw0 : nonSpace w0 = false) (hgap : nonSpace gap = false)
    (htyped : ∀ e ∈ es, e.typed tu volumeType d)
    (hnd : ((es.filterMap Entry.store).map Prod.fst).Nodup) :
    ∃ v, (VolumesClient.Get tu c input).outcome = Outcome.returned (some v) none
      ∧ (∀ p ∈ es.filterMap Entry.store, v.field p.1 = p.2)
      ∧ (∀ i, i < 10 → i ∉ (es.filterMap Entry.store).map Prod.fst →
          v.field i = Volume.zero.field i) := by
  have hdec := decode_object tu volumeType d hd w0 gap tail es hw0 hgap htyped hnd
  refine ⟨Volume.ofValues (storeAll volumeType.zero (es.filterMap Entry.store)), ?_, ?_, ?_⟩
  · simp only [VolumesClient.Get, h, decodeVolume, hbody, hdec, Option.map_some']
  · intro p hp
    obtain ⟨e, he, hs⟩ := List.mem_filterMap.1 hp
    have hi := entry_store_lt tu volumeType d e (htyped e he) p.1 p.2 hs
    rw [volume_field_ofValues _ p.1 hi
      (storeAll_entries_kinds tu volumeType d es htyped hnd p.1 hi)]
    exact storeAll_present p.1 p.2 _ _ volumeType.zero hp hnd hi
  · intro i hi hni
    rw [volume_field_ofValues _ i hi (storeAll_entries_kinds tu volumeType d es htyped hnd i hi),
      storeAll_absent i _ _ volumeType.zero hni]
    interval_cases i <;> rfl

set_option maxRecDepth 100000 in
/-- Witness of C3 (amended). On the body of the test responder
`getVolumeSuccess`, which has line breaks and space between its tokens, `Get`
returns the volume with `ID`, `State == "ready"` and the one network of the
body, and `Size` zero. On `spacedVolumeBody`, which has a member `links` that
`Volume` lacks (an object holding an array), the key `Size` in capitals and
text after the object, it returns `State == "ready"`, `Networks == ["n"]` and
`Size == 12`. -/
theorem get_decodes_volume_witness :
    (∃ v, (VolumesClient.Get sampleTime (answeringClient getVolumeSuccessBody)
              ⟨"e435d72a"⟩).outcome = Outcome.returned (some v) none
        ∧ v.field 0 = Value.str "e435d72a-2498-8d49-a042-87b222a8b63f"
        ∧ v.field 4 = Value.str "ready"
        ∧ v.field 5 = Value.strs (some ["1537d72a-949a-2d89-7049-17b2f2a8b634"]) []
        ∧ v.field 7 = Value.int 0)
    ∧ (∃ v, (VolumesClient.Get sampleTime (answeringClient spacedVolumeBody)
              ⟨"e435d72a"⟩).outcome = Outcome.returned (some v) none
        ∧ v.field 4 = Value.str "ready" ∧ v.field 5 = Value.strs (some ["n"]) []
        ∧ v.field 7 = Value.int 12 ∧ v.field 0 = Value.str "") := by
  constructor
  · obtain ⟨v, h1, h2, h3⟩ := get_decodes_volume sampleTime
      (answeringClient getVolumeSuccessBody) ⟨"e435d72a"⟩ ⟨7, getVolumeSuccessBody.data⟩ 1
      [] [] ['\n'] getVolumeSuccessEntries rfl (by decide) (by decide) (by decide) (by decide)
      (getVolumeSuccess_typed sampleTime) (by decide)
    exact ⟨v, h1, h2 (0, _) (by decide), h2 (4, _) (by decide), h2 (5, _) (by decide),
      h3 7 (by decide) (by decide)⟩
  · obtain ⟨v, h1, h2, h3⟩ := get_decodes_volume sampleTime
      (answeringClient spacedVolumeBody) ⟨"e435d72a"⟩ ⟨7, spacedVolumeBody.data⟩ 2
      [' '] [] ['x'] spacedVolumeEntries rfl (by decide) (by decide) (by decide) (by decide)
      (spacedVolume_typed sampleTime) (by decide)
    exact ⟨v, h1, h2 (4, _) (by decide), h2 (5, _) (by decide), h2 (7, _) (by decide),
      h3 0 (by decide) (by decide)⟩

/-! ## C4: the query of `List` -/

/-- C4. For every `ListVolumeInput`, the query of the request built by
`VolumesClient.List` maps `name`, `state` and `type` to the field exactly when
the field is non-empty, `size` to the decimal text of `Size` exactly when
`Size` is non-zero, and holds no other key; with every field at its zero value
the query is empty. The decimal text of an `int64` reads back, base 10, as the
number. -/
theorem list_query_params (c : VolumesClient) (input : ListVolumeInput) :
    (VolumesClient.List.reqInputs c input).Query = some (VolumesClient.List.query input)
    ∧ (VolumesClient.List.query input).lookup "name"
        = (if input.Name ≠ "" then some [input.Name] else none)
    ∧ (VolumesClient.List.query input).lookup "state"
        = (if input.State ≠ "" then some [input.State] else none)
    ∧ (VolumesClient.List.query input).lookup "type"
        = (if input.Type_ ≠ "" then some [input.Type_] else none)
    ∧ (VolumesClient.List.query input).lookup "size"
        = (if input.Size ≠ 0 then some [formatInt input.Size] else none)
    ∧ (∀ k, k ∈ (VolumesClient.List.query input).keys ↔
        (k = "name" ∧ input.Name ≠ "") ∨ (k = "size" ∧ input.Size ≠ 0)
          ∨ (k = "state" ∧ input.State ≠ "") ∨ (k = "type" ∧ input.Type_ ≠ ""))
    ∧ (VolumesClient.List.query ⟨"", 0, "", ""⟩ = Values.empty)
    ∧ (-9223372036854775808 ≤ input.Size → input.Size ≤ 9223372036854775807 →
        ParseInt (formatInt input.Size).data = some input.Size) := by
  refine ⟨rfl, ?_, ?_, ?_, ?_, ?_, rfl, ParseInt_formatInt input.Size⟩
  all_goals
    by_cases h1 : input.Name = "" <;> by_cases h2 : input.Size = 0 <;>
    by_cases h3 : input.State = "" <;> by_cases h4 : input.Type_ = "" <;>
    simp [VolumesClient.List.query, Values.Set, Values.empty, Values.lookup, Values.keys,
      setEntry, h1, h2, h3, h4]

/-! ## C5: `Delete` does not look at the response body -/

/-- C5. For `VolumesClient.Delete` and `ImagesClient.DeleteImage` and every
input: when the transport returns no error, whatever stream `r` it hands back
(none, empty, or characters that are not JSON), the operation returns a nil
error, and no stream is handed to the JSON decoder. -/
theorem delete_ignores_body :
    (∀ (c : VolumesClient) (input : DeleteVolumeInput) (r : Option ReadCloser),
      c.client.ExecuteRequest (VolumesClient.Delete.reqInputs c input) = (r, none) →
      (VolumesClient.Delete c input).outcome = Outcome.returned () none
        ∧ ∀ s, Event.decode s ∉ (VolumesClient.Delete c input).trace)
    ∧ (∀ (c : ImagesClient) (input : DeleteImageInput) (r : Option ReadCloser),
      c.executeRequest MethodDelete ("/" ++ c.AccountName ++ "/images/" ++ input.ImageID)
          Body.absent = (r, none) →
      (ImagesClient.DeleteImage c input).outcome = Outcome.returned () none
        ∧ ∀ s, Event.decode s ∉ (ImagesClient.DeleteImage c input).trace) := by
  refine ⟨?_, ?_⟩ <;> intro c input r h
  · simp only [VolumesClient.Delete, h]
    cases r <;> simp [deferredClose]
  · simp only [ImagesClient.DeleteImage, h]
    cases r <;> simp [deferredClose]

/-- Witness of C5: a `Delete` answered with a body that is not JSON succeeds. -/
theorem delete_ignores_body_witness :
    (VolumesClient.Delete (answeringClient "not json,") ⟨"e435d72a"⟩).outcome
      = Outcome.returned () none :=
  (delete_ignores_body.1 (answeringClient "not json,") ⟨"e435d72a"⟩
    (some ⟨7, "not json,".data⟩) rfl).1

/-! ## C6: the request of `VolumesClient.Update` -/

/-- C6 (the code at the failing input). For the input
`{ID: "e435d72a", Name: "updated-name"}` the serialized body of `Update` is the
JSON string `"updated-name"`, not the object `{"name":"updated-name"}`:
`Update` stores the string `input.Name` in `Body`, where `Create`,
`CreateImageFromMachine` and `UpdateImage` store a struct with `json` tags. -/
theorem update_body_not_object :
    serializeBody (VolumesClient.Update.reqInputs failingClient ⟨"e435d72a", "updated-name"⟩).Body
        = some "\"updated-name\"".data
    ∧ serializeBody (VolumesClient.Update.reqInputs failingClient ⟨"e435d72a", "updated-name"⟩).Body
        ≠ some (encodeObject [("name", encodeString "updated-name")]) := by
  decide

/-- The part of C6 the code keeps. For every account name and every
`UpdateVolumeInput`, `VolumesClient.Update` makes exactly one transport call, a
POST to `"/" + account + "/volumes/" + ID` without query, whose body is built
from `input.Name` alone (what is serialized is that string, as a JSON string
literal, so the ID is not part of the body); it returns only an error or nil,
and hands no stream to the JSON decoder. -/
theorem update_request (c : VolumesClient) (input : UpdateVolumeInput) :
    executed (VolumesClient.Update c input).trace
        = [⟨"POST", "/" ++ c.client.AccountName ++ "/volumes/" ++ input.ID, none,
            Body.text input.Name⟩]
    ∧ serializeBody (Body.text input.Name) = some (encodeString input.Name)
    ∧ (∃ err, (VolumesClient.Update c input).outcome = Outcome.returned () err)
    ∧ ∀ s, Event.decode s ∉ (VolumesClient.Update c input).trace := by
  simp only [VolumesClient.Update, VolumesClient.Update.reqInputs, MethodPost]
  rcases h : c.client.ExecuteRequest
      ⟨"POST", "/" ++ c.client.AccountName ++ "/volumes/" ++ input.ID, none,
        Body.text input.Name⟩ with ⟨r, err⟩
  cases r <;> cases err <;> simp [deferredClose, executed, serializeBody]

/-! ## C7: `ExportImage` -/

/-- C7. For every account name and every `ExportImageInput`, `ExportImage`
makes one transport call: a GET without body to
`"/" + account + "/images/" + ImageID` whose query holds exactly `action`,
mapped to `export`, and `manta_path`, mapped to `MantaPath` as given (also
when it is empty). When that call succeeds with a body that holds a JSON object
(after white space, with any text behind it; white space wherever JSON allows
it; members that are no key of `MantaLocation` holding any JSON value, nested
within the limit of the library) in which the members under `manta_url`,
`image_path` and `manifest_path` hold strings and no field is given twice, the
returned `MantaLocation` has each field equal to the string under its key, and
a field whose key is missing is empty. -/
theorem export_image (c : ImagesClient) (input : ExportImageInput) :
    executed (ImagesClient.ExportImage c input).trace
        = [⟨"GET", "/" ++ c.AccountName ++ "/images/" ++ input.ImageID,
            some (ImagesClient.ExportImage.query input), Body.absent⟩]
    ∧ (ImagesClient.ExportImage.query input).lookup "action" = some ["export"]
    ∧ (ImagesClient.ExportImage.query input).lookup "manta_path" = some [input.MantaPath]
    ∧ (ImagesClient.ExportImage.query input).keys = ["action", "manta_path"]
    ∧ (∀ (r : ReadCloser) (d : Nat) (w0 gap tail : List Char) (es : List Entry),
        c.executeRequestURIParams "GET" ("/" ++ c.AccountName ++ "/images/" ++ input.ImageID)
            Body.absent (some (ImagesClient.ExportImage.query input)) = (some r, none) →
        r.data = w0 ++ (objectText gap (es.map Entry.member) ++ tail) →
        d + 1 ≤ maxNestingDepth → nonSpace w0 = false → nonSpace gap = false →
        (∀ e ∈ es, e.typed (fun _ t => Except.ok t) mantaLocationType d) →
        ((es.filterMap Entry.store).map Prod.fst).Nodup →
        ∃ v, (ImagesClient.ExportImage c input).outcome = Outcome.returned (some v) none
          ∧ (∀ p ∈ es.filterMap Entry.store, v.field p.1 = p.2)
          ∧ (∀ i, i < 3 → i ∉ (es.filterMap Entry.store).map Prod.fst →
              v.field i = Value.str "")) := by
  refine ⟨?_, by simp [ImagesClient.ExportImage.query, Values.Set, Values.empty, Values.lookup,
      setEntry], by simp [ImagesClient.ExportImage.query, Values.Set, Values.empty,
      Values.lookup, setEntry], by simp [ImagesClient.ExportImage.query, Values.Set,
      Values.empty, Values.keys, setEntry], ?_⟩
  · simp only [ImagesClient.ExportImage, MethodGet]
    rcases hx : c.executeRequestURIParams "GET"
        ("/" ++ c.AccountName ++ "/images/" ++ input.ImageID) Body.absent
        (some (ImagesClient.ExportImage.query input)) with ⟨r, err⟩
    cases r <;> cases err <;> simp [deferredClose, executed]
    all_goals split <;> simp [executed]
  · intro r d w0 gap tail es h hbody hd hw0 hgap htyped hnd
    have hdec := decode_object (fun _ t => Except.ok t) mantaLocationType d hd w0 gap tail es
      hw0 hgap htyped hnd
    refine ⟨MantaLocation.ofValues
      (storeAll mantaLocationType.zero (es.filterMap Entry.store)), ?_, ?_, ?_⟩
    · simp only [ImagesClient.ExportImage, MethodGet, h, decodeMantaLocation, hbody, hdec,
        Option.map_some']
    · intro p hp
      obtain ⟨e, he, hs⟩ := List.mem_filterMap.1 hp
      have hi := entry_store_lt _ mantaLocationType d e (htyped e he) p.1 p.2 hs
      rw [mantaLocation_field_ofValues _ p.1 hi
        (storeAll_entries_kinds _ mantaLocationType d es htyped hnd p.1 hi)]
      exact storeAll_present p.1 p.2 _ _ mantaLocationType.zero hp hnd hi
    · intro i hi hni
      rw [mantaLocation_field_ofValues _ i hi
        (storeAll_entries_kinds _ mantaLocationType d es htyped hnd i hi),
        storeAll_absent i _ _ mantaLocationType.zero hni]
      interval_cases i <;> rfl

set_option maxRecDepth 100000 in
/-- Witness of C7: on `exportImageBody` the three fields are taken from the
three keys; on `spacedExportBody`, which has a member `request` that
`MantaLocation` lacks, an escape in a string and no `manifest_path`, the
fields are `"u\n"`, `"i"` and the empty string. -/
theorem export_image_witness :
    (∃ v, (ImagesClient.ExportImage (answeringImages exportImageBody)
              ⟨"img", "/stor"⟩).outcome = Outcome.returned (some v) none
        ∧ v.field 0 = Value.str "https://us-east.manta.joyent.com"
        ∧ v.field 1 = Value.str "/user/stor/img.zfs.gz"
        ∧ v.field 2 = Value.str "/user/stor/img.imgmanifest")
    ∧ (∃ v, (ImagesClient.ExportImage (answeringImages spacedExportBody)
              ⟨"img", "/stor"⟩).outcome = Outcome.returned (some v) none
        ∧ v.field 0 = Value.str "u\n" ∧ v.field 1 = Value.str "i"
        ∧ v.field 2 = Value.str "") := by
  constructor
  · obtain ⟨v, h1, h2, _⟩ := (export_image (answeringImages exportImageBody)
      ⟨"img", "/stor"⟩).2.2.2.2 ⟨7, exportImageBody.data⟩ 1 [] [] ['\n'] exportImageEntries
      rfl (by decide) (by decide) (by decide) (by decide) exportImage_typed (by decide)
    exact ⟨v, h1, h2 (0, _) (by decide), h2 (1, _) (by decide), h2 (2, _) (by decide)⟩
  · obtain ⟨v, h1, h2, h3⟩ := (export_image (answeringImages spacedExportBody)
      ⟨"img", "/stor"⟩).2.2.2.2 ⟨7, spacedExportBody.data⟩ 2 ['\n'] [] [] spacedExportEntries
      rfl (by decide) (by decide) (by decide) (by decide) spacedExport_typed (by decide)
    exact ⟨v, h1, h2 (0, _) (by decide), h2 (1, _) (by decide), h3 2 (by decide) (by decide)⟩

/-! ## C8: the error prefixes of the image operations -/

/-- C8 (the code at the failing inputs). With the transport failing with
`boom`, `DeleteImage` reports `Error executing DeleteKey request`, and
`ExportImage` reports the very message `GetImage` reports; with a body that
does not decode, `ExportImage` reports `Error decoding GetImage response`. -/
theorem image_error_prefixes_at_failure :
    (ImagesClient.DeleteImage failingImages ⟨"img"⟩).outcome
        = Outcome.returned () (some ⟨"Error executing DeleteKey request: boom"⟩)
    ∧ (ImagesClient.ExportImage failingImages ⟨"img", "/stor"⟩).outcome
        = Outcome.returned none (some ⟨"Error executing GetImage request: boom"⟩)
    ∧ (ImagesClient.GetImage failingDecoder failingImages ⟨"img"⟩).outcome
        = Outcome.returned none (some ⟨"Error executing GetImage request: boom"⟩)
    ∧ (ImagesClient.ExportImage (answeringImages "") ⟨"img", "/stor"⟩).outcome
        = Outcome.returned none (some ⟨"Error decoding GetImage response: EOF"⟩)
    ∧ (ImagesClient.GetImage failingDecoder (answeringImages "") ⟨"img"⟩).outcome
        = Outcome.returned none (some ⟨"Error decoding GetImage response: bad"⟩) := by
  decide

/-! ## C9: `CreateVolumeInput` round trip -/

/-- C9, counterexample. The `CreateVolumeInput` whose `Name` is the single byte
`0xff`, which is not UTF-8, is written with the name `\ufffd`; reading that
text back gives a `Name` of the three bytes `ef bf bd`, not the `Name` that
was written. -/
theorem create_volume_invalid_utf8 :
    encodeObject (CreateVolumeInput.members ⟨⟨[255]⟩, 0, ⟨[]⟩, none⟩)
        = "\x7b\"name\":\"\\ufffd\",\"type\":\"\",\"networks\":null\x7d".data
    ∧ ∃ vals, Decode (unmarshalStructPtr sampleTime createVolumeInputType)
          (encodeObject (CreateVolumeInput.members ⟨⟨[255]⟩, 0, ⟨[]⟩, none⟩))
          = Except.ok (some vals)
        ∧ CreateVolumeInput.ofValues vals = ⟨⟨[239, 191, 189]⟩, 0, ⟨[]⟩, none⟩
        ∧ CreateVolumeInput.ofValues vals ≠ ⟨⟨[255]⟩, 0, ⟨[]⟩, none⟩ :=
  ⟨by decide, [Value.str "\uFFFD", Value.int 0, Value.str "", Value.strs none []], by decide,
    by decide, by decide⟩

/-- C9, amended. For every `CreateVolumeInput` `v` (its `Size` an `int64`): the
body serialized for `v` is the JSON object of `v.members`; when `Name`, `Type`
and the elements of `Networks` are valid UTF-8, decoding that text into a
`CreateVolumeInput` succeeds and gives `v` back (same `Name`, `Size`, `Type`
and `Networks`); and, for every `v`, among the keys of the members `name` is
present exactly when `Name` is non-empty, `size` exactly when `Size` is
non-zero, `type` and `networks` always, and no other key. -/
theorem create_volume_round_trip (tu : TimeUnmarshaler) (v : CreateVolumeInput)
    (hlo : -9223372036854775808 ≤ v.Size) (hhi : v.Size ≤ 9223372036854775807) :
    serializeBody (Body.createVolume v) = some (encodeObject v.members)
    ∧ (v.Name.valid → v.Type_.valid → (∀ l, v.Networks = some l → ∀ g ∈ l, g.valid) →
        ∃ vals, Decode (unmarshalStructPtr tu createVolumeInputType) (encodeObject v.members)
          = Except.ok (some vals) ∧ CreateVolumeInput.ofValues vals = v)
    ∧ (∀ k, k ∈ v.members.map Prod.fst ↔
        (k = "name" ∧ v.Name.bytes ≠ []) ∨ (k = "size" ∧ v.Size ≠ 0) ∨ k = "type"
          ∨ k = "networks") := by
  refine ⟨rfl, ?_, ?_⟩
  · intro hname htype hnets
    obtain ⟨n, hn⟩ := hname
    obtain ⟨t, ht⟩ := htype
    obtain ⟨nets, hN⟩ := valid_networks v.Networks hnets
    cases v with
    | mk name size ty networks =>
      simp only at hn ht hN hlo hhi
      subst hn ht hN
      rw [createVolumeInput_members_wire]
      exact ⟨_, decode_wire_object tu createVolumeInputType distinctKeys_createVolumeInput _
        (createVolumeWire_wellTyped tu n size t nets hlo hhi),
        createVolumeInput_ofValues_wire tu n size t nets⟩
  · intro k
    by_cases h1 : v.Name.bytes = [] <;> by_cases h2 : v.Size = 0 <;>
      simp [CreateVolumeInput.members, omitEmpty, h1, h2]

/-- Witness of C9 (amended): the input of the test `TestCreateVolume` is written
as the object shown and is read back unchanged. -/
theorem create_volume_round_trip_witness :
    encodeObject (CreateVolumeInput.members ⟨GoString.ofString "test-volume", 1000000,
          GoString.ofString "tritonnfs", some [GoString.ofString "net-1"]⟩)
        = ("\x7b\"name\":\"test-volume\",\"size\":1000000,\"type\":\"tritonnfs\"," ++
            "\"networks\":[\"net-1\"]\x7d").data
    ∧ ∃ vals, Decode (unmarshalStructPtr sampleTime createVolumeInputType)
          (encodeObject (CreateVolumeInput.members ⟨GoString.ofString "test-volume", 1000000,
            GoString.ofString "tritonnfs", some [GoString.ofString "net-1"]⟩))
          = Except.ok (some vals)
        ∧ CreateVolumeInput.ofValues vals
          = ⟨GoString.ofString "test-volume", 1000000, GoString.ofString "tritonnfs",
              some [GoString.ofString "net-1"]⟩ :=
  ⟨by decide,
   (create_volume_round_trip sampleTime ⟨GoString.ofString "test-volume", 1000000,
      GoString.ofString "tritonnfs", some [GoString.ofString "net-1"]⟩
      (by decide) (by decide)).2.1 ⟨"test-volume", rfl⟩ ⟨"tritonnfs", rfl⟩
      (by
        intro l hl g hg
        cases hl
        simp only [List.mem_singleton] at hg
        exact ⟨"net-1", hg⟩)⟩

/-! ## C10: the body of `ImagesClient.UpdateImage` -/

/-- C10 (the code at the failing input). With every field of the input left
unset except `ImageID`, the body of `UpdateImage` is `{"name":""}`: the key
`name` is sent, holding the empty string. -/
theorem update_image_sends_empty_name :
    serializeBody (Body.updateImage ⟨"img", "", "", "", "", "", none, none⟩)
        = some "\x7b\"name\":\"\"\x7d".data
    ∧ ¬ (("name" ∈ ((bodyMembers
            (Body.updateImage ⟨"img", "", "", "", "", "", none, none⟩)).getD []).map Prod.fst)
          ↔ ("" : String) ≠ "") := by
  decide

/-- The part of C10 the code keeps. For every `UpdateImageInput`, the body of
`UpdateImage` is an object that always has the key `name`, and has the key
`version`, `description`, `homepage`, `eula`, `acl`, `tags` exactly when that
field is non-empty; it has no other key and does not depend on `ImageID`,
which is used in the path only; the request is a POST to
`"/" + account + "/images/" + ImageID` with the single query parameter
`action=update`. -/
theorem update_image_body {Image : Type} (J : ImageDecoder Image) (c : ImagesClient)
    (input : UpdateImageInput) :
    (∃ ms, bodyMembers (Body.updateImage input) = some ms ∧
      ∀ k, k ∈ ms.map Prod.fst ↔
        k = "name" ∨ (k = "version" ∧ input.Version ≠ "")
          ∨ (k = "description" ∧ input.Description ≠ "")
          ∨ (k = "homepage" ∧ input.HomePage ≠ "")
          ∨ (k = "eula" ∧ input.EULA ≠ "")
          ∨ (k = "acl" ∧ input.ACL.getD [] ≠ [])
          ∨ (k = "tags" ∧ input.Tags.getD [] ≠ []))
    ∧ (∀ id, bodyMembers (Body.updateImage { input with ImageID := id })
        = bodyMembers (Body.updateImage input))
    ∧ executed (ImagesClient.UpdateImage J c input).trace
        = [⟨"POST", "/" ++ c.AccountName ++ "/images/" ++ input.ImageID,
            some ⟨[("action", ["update"])]⟩, Body.updateImage input⟩] := by
  refine ⟨⟨_, rfl, ?_⟩, fun _ => rfl, ?_⟩
  · intro k
    have hs : ∀ s : String, (s.length = 0) ↔ s = "" := by
      intro s
      cases s with
      | mk d => cases d <;> simp [String.ext_iff, String.length]
    by_cases h1 : input.Version = "" <;> by_cases h2 : input.Description = "" <;>
    by_cases h3 : input.HomePage = "" <;> by_cases h4 : input.EULA = "" <;>
    by_cases h5 : input.ACL.getD [] = [] <;> by_cases h6 : input.Tags.getD [] = [] <;>
    simp [UpdateImageInput.members, omitEmpty, hs, h1, h2, h3, h4, h5, h6]
  · simp only [ImagesClient.UpdateImage, MethodPost, Values.Set, Values.empty, setEntry]
    rcases h : c.executeRequestURIParams "POST"
        ("/" ++ c.AccountName ++ "/images/" ++ input.ImageID) (Body.updateImage input)
        (some ⟨[("action", ["update"])]⟩) with ⟨r, err⟩
    cases r <;> cases err <;> simp [deferredClose, executed]
    all_goals split <;> simp [executed]

/-! ## C11: every operation makes one transport call and closes its stream once -/

/-- C11: for each of the eleven operations of `VolumesClient` and `ImagesClient`,
every client, every input and every answer of the transport (a stream or none,
an error or none, the body decodable or not), the run makes exactly one
transport call; and whenever the transport handed back a stream, after the run
the close counter of that stream is 1, the counter of every other stream is 0,
and the close is the last event of the run. -/
theorem stream_closed_once {Image : Type} (tu : TimeUnmarshaler) (J : ImageDecoder Image)
    (c : VolumesClient) (ic : ImagesClient)
    (li : ListVolumeInput) (gi : GetVolumeInput) (ci : CreateVolumeInput)
    (di : DeleteVolumeInput) (ui : UpdateVolumeInput)
    (gim : GetImageInput) (dim : DeleteImageInput) (eim : ExportImageInput)
    (cim : CreateImageFromMachineInput) (uim : UpdateImageInput) :
    ClosesStream (VolumesClient.List tu c li)
        (c.client.ExecuteRequest (VolumesClient.List.reqInputs c li))
      ∧ ClosesStream (VolumesClient.Get tu c gi)
        (c.client.ExecuteRequest (VolumesClient.Get.reqInputs c gi))
      ∧ ClosesStream (VolumesClient.Create tu c ci)
        (c.client.ExecuteRequest (VolumesClient.Create.reqInputs c ci))
      ∧ ClosesStream (VolumesClient.Delete c di)
        (c.client.ExecuteRequest (VolumesClient.Delete.reqInputs c di))
      ∧ ClosesStream (VolumesClient.Update c ui)
        (c.client.ExecuteRequest (VolumesClient.Update.reqInputs c ui))
      ∧ ClosesStream (ImagesClient.ListImages J ic)
        (ic.executeRequest MethodGet ("/" ++ ic.AccountName ++ "/images") Body.absent)
      ∧ ClosesStream (ImagesClient.GetImage J ic gim)
        (ic.executeRequest MethodGet ("/" ++ ic.AccountName ++ "/images/" ++ gim.ImageID)
          Body.absent)
      ∧ ClosesStream (ImagesClient.DeleteImage ic dim)
        (ic.executeRequest MethodDelete ("/" ++ ic.AccountName ++ "/images/" ++ dim.ImageID)
          Body.absent)
      ∧ ClosesStream (ImagesClient.ExportImage ic eim)
        (ic.executeRequestURIParams MethodGet
          ("/" ++ ic.AccountName ++ "/images/" ++ eim.ImageID)
          Body.absent (some (ImagesClient.ExportImage.query eim)))
      ∧ ClosesStream (ImagesClient.CreateImageFromMachine J ic cim)
        (ic.executeRequest MethodPost ("/" ++ ic.AccountName ++ "/images")
          (Body.createImage cim))
      ∧ ClosesStream (ImagesClient.UpdateImage J ic uim)
        (ic.executeRequestURIParams MethodPost
          ("/" ++ ic.AccountName ++ "/images/" ++ uim.ImageID)
          (Body.updateImage uim) (some (Values.empty.Set "action" "update"))) :=
  ⟨VolumesClient.List_closes tu c li, VolumesClient.Get_closes tu c gi,
   VolumesClient.Create_closes tu c ci, VolumesClient.Delete_closes c di,
   VolumesClient.Update_closes c ui, ImagesClient.ListImages_closes J ic,
   ImagesClient.GetImage_closes J ic gim, ImagesClient.DeleteImage_closes ic dim,
   ImagesClient.ExportImage_closes ic eim, ImagesClient.CreateImageFromMachine_closes J ic cim,
   ImagesClient.UpdateImage_closes J ic uim⟩

/-- C11 at work: a transport that hands back stream 7 together with an error;
`Get` makes its one call and closes the stream, without reading it. -/
theorem stream_closed_once_witness :
    ClosesStream
        (VolumesClient.Get sampleTime
          ⟨⟨"testing", fun _ => (some ⟨7, []⟩, some ⟨"boom"⟩)⟩⟩ ⟨"v"⟩)
        (some ⟨7, []⟩, some ⟨"boom"⟩)
      ∧ (VolumesClient.Get sampleTime
          ⟨⟨"testing", fun _ => (some ⟨7, []⟩, some ⟨"boom"⟩)⟩⟩ ⟨"v"⟩).trace
        = [Event.execute ⟨MethodGet, "/testing/volumes/v", none, Body.absent⟩,
           Event.close ⟨7, []⟩] :=
  ⟨(stream_closed_once sampleTime failingDecoder
      ⟨⟨"testing", fun _ => (some ⟨7, []⟩, some ⟨"boom"⟩)⟩⟩ failingImages
      ⟨"", 0, "", ""⟩ ⟨"v"⟩ ⟨⟨[110]⟩, 0, ⟨[]⟩, none⟩ ⟨"v"⟩ ⟨"v", "n"⟩ ⟨"i"⟩ ⟨"i"⟩ ⟨"i", "/p"⟩
      ⟨"m", "n", "", "", "", "", none, none⟩ ⟨"i", "n", "", "", "", "", none, none⟩).2.1,
   by decide⟩

/-! ## C12: a nil error with a nil result -/

/-- C12, counterexample. On the response body `null` both `Get` and `List`
return a nil result together with a nil error: the decoder stores the literal
into the nil pointer, respectively the nil slice, and reports no error, and
neither method looks at the result before returning it. -/
theorem null_body_gives_nil_without_error :
    (VolumesClient.Get sampleTime (answeringClient "null") ⟨"e435d72a"⟩).outcome
        = Outcome.returned none none
      ∧ (VolumesClient.List sampleTime (answeringClient "null") ⟨"", 0, "", ""⟩).outcome
        = Outcome.returned none none := by
  decide

/-- C12, amended. For every client and input of `Get` and of `List`: when the
method returns a nil error, the transport had answered with a stream and no
error, and the returned volume, respectively list, is nil exactly when the
first JSON value of the body is the literal `null` (after optional white
space, whatever follows it); so with a nil error the output is non-nil for
every other body. Conversely every body whose first value is `null` gives a
nil output with a nil error. -/
theorem nil_result_only_for_null (tu : TimeUnmarshaler) (c : VolumesClient)
    (gi : GetVolumeInput) (li : ListVolumeInput) :
    (∀ v, (VolumesClient.Get tu c gi).outcome = Outcome.returned v none →
        ∃ r, c.client.ExecuteRequest (VolumesClient.Get.reqInputs c gi) = (some r, none)
          ∧ (v = none ↔ firstValueNull r.data = true))
      ∧ (∀ r, c.client.ExecuteRequest (VolumesClient.Get.reqInputs c gi) = (some r, none) →
          firstValueNull r.data = true →
          (VolumesClient.Get tu c gi).outcome = Outcome.returned none none)
      ∧ (∀ v, (VolumesClient.List tu c li).outcome = Outcome.returned v none →
        ∃ r, c.client.ExecuteRequest (VolumesClient.List.reqInputs c li) = (some r, none)
          ∧ (v = none ↔ firstValueNull r.data = true))
      ∧ (∀ r, c.client.ExecuteRequest (VolumesClient.List.reqInputs c li) = (some r, none) →
          firstValueNull r.data = true →
          (VolumesClient.List tu c li).outcome = Outcome.returned none none) := by
  refine ⟨?_, ?_, ?_, ?_⟩
  · intro v h
    unfold VolumesClient.Get at h
    rcases hx : c.client.ExecuteRequest (VolumesClient.Get.reqInputs c gi)
      with ⟨_ | r, _ | e⟩ <;> simp only [hx] at h
    · cases h
    · cases h
    · refine ⟨r, rfl, ?_⟩
      rw [← decodeVolume_nil_iff tu]
      split at h
      · cases h
      · rename_i result hres
        cases h
        rw [hres]
        simp
    · cases h
  · intro r hx hnull
    unfold VolumesClient.Get
    simp only [hx, (decodeVolume_nil_iff tu r.data).2 hnull]
  · intro v h
    unfold VolumesClient.List at h
    rcases hx : c.client.ExecuteRequest (VolumesClient.List.reqInputs c li)
      with ⟨_ | r, _ | e⟩ <;> simp only [hx] at h
    · cases h
    · cases h
    · refine ⟨r, rfl, ?_⟩
      rw [← decodeVolumes_nil_iff tu]
      split at h
      · cases h
      · rename_i result hres
        cases h
        rw [hres]
        simp
    · cases h
  · intro r hx hnull
    unfold VolumesClient.List
    simp only [hx, (decodeVolumes_nil_iff tu r.data).2 hnull]

/-- C12 (amended) at work: on a body whose first value is `null`, here after a
space and followed by other text, `Get` returns a nil volume and a nil error;
on the body `[]` the list `List` returns is not nil. -/
theorem nil_result_only_for_null_witness :
    (VolumesClient.Get sampleTime (answeringClient " null\x7d") ⟨"e435d72a"⟩).outcome
        = Outcome.returned none none
      ∧ (VolumesClient.List sampleTime (answeringClient "[]") ⟨"", 0, "", ""⟩).outcome
        = Outcome.returned (some []) none :=
  ⟨(nil_result_only_for_null sampleTime (answeringClient " null\x7d") ⟨"e435d72a"⟩
      ⟨"", 0, "", ""⟩).2.1 ⟨7, " null\x7d".data⟩ rfl (by decide),
   by decide⟩

end Triton
